import Mathlib

/-!
OpenRed protocol handler: resolution pipeline of the background service worker.

Shallow embedding of `src/extension_navigateur/background.js`:

* `resolutionCache` (a JavaScript `Map`) becomes `JSMap CacheEntry`, an insertion-ordered
  association list with pairwise distinct keys;
* `Date.now()` and `fetch` are inputs: every invocation receives the clock readings it
  will observe and the outcome of every network call it may issue (`Env`);
* the asynchronous functions `resolveOrpUrl` and `fallbackResolve` become pure functions
  returning the value they resolve to together with the network calls they issued, in order.
-/

namespace OpenRed

/-! ## JavaScript values -/

/-- JavaScript values as they come out of `JSON.parse` or a message payload, plus `undefined`.
Numbers are represented by integers; only their truthiness is ever inspected. -/
inductive JSVal where
  | undefined
  | null
  | bool (b : Bool)
  | num (n : Int)
  | str (s : String)
  | arr (items : List JSVal)
  | obj (fields : List (String × JSVal))
  deriving Repr, Inhabited

namespace JSVal

mutual
/-- Structural equality test on values. -/
def beq : JSVal → JSVal → Bool
  | undefined, undefined => true
  | null, null => true
  | bool a, bool b => a == b
  | num a, num b => a == b
  | str a, str b => a == b
  | arr a, arr b => beqList a b
  | obj a, obj b => beqFields a b
  | _, _ => false
/-- Structural equality test on lists of values. -/
def beqList : List JSVal → List JSVal → Bool
  | [], [] => true
  | x :: xs, y :: ys => beq x y && beqList xs ys
  | _, _ => false
/-- Structural equality test on field lists. -/
def beqFields : List (String × JSVal) → List (String × JSVal) → Bool
  | [], [] => true
  | (k, x) :: xs, (l, y) :: ys => k == l && beq x y && beqFields xs ys
  | _, _ => false
end

mutual
theorem beq_iff : ∀ a b : JSVal, beq a b = true ↔ a = b
  | undefined, b => by cases b <;> simp [beq]
  | null, b => by cases b <;> simp [beq]
  | bool a, b => by cases b <;> simp [beq]
  | num a, b => by cases b <;> simp [beq]
  | str a, b => by cases b <;> simp [beq]
  | arr a, b => by cases b <;> simp [beq, beqList_iff a]
  | obj a, b => by cases b <;> simp [beq, beqFields_iff a]
theorem beqList_iff : ∀ a b : List JSVal, beqList a b = true ↔ a = b
  | [], b => by cases b <;> simp [beqList]
  | x :: xs, b => by cases b <;> simp [beqList, beq_iff x, beqList_iff xs]
theorem beqFields_iff : ∀ a b : List (String × JSVal), beqFields a b = true ↔ a = b
  | [], b => by cases b <;> simp [beqFields]
  | (k, x) :: xs, b => by
    cases b with
    | nil => simp [beqFields]
    | cons h t => cases h; simp [beqFields, beq_iff x, beqFields_iff xs, and_assoc]
end

instance : DecidableEq JSVal := fun a b =>
  decidable_of_iff (beq a b = true) (beq_iff a b)

/-- JavaScript `ToBoolean`: `undefined`, `null`, `false`, `0` and `""` are falsy, every
other value (objects and arrays included) is truthy. -/
def truthy : JSVal → Bool
  | undefined => false
  | null => false
  | bool b => b
  | num n => n != 0
  | str s => s != ""
  | arr _ => true
  | obj _ => true

/-- Property read `v.name` for a name that is not a built-in property of strings, arrays or
`Object.prototype` (the pipeline reads `success` and `resolved_url` only). Reading a property
of `null` or `undefined` throws a `TypeError`, modelled by `none`; a missing property reads as
`undefined`. -/
def getProp (v : JSVal) (name : String) : Option JSVal :=
  match v with
  | undefined => none
  | null => none
  | obj fields => some ((fields.lookup name).getD undefined)
  | _ => some undefined

end JSVal

/-! ## The `Map` holding the cache -/

/-- `Map.prototype.set` on the entry list: an existing key keeps its position and gets the
new value, a new key is appended. -/
def setEntries {β : Type} (k : String) (v : β) : List (String × β) → List (String × β)
  | [] => [(k, v)]
  | (k', v') :: rest => if k' = k then (k, v) :: rest else (k', v') :: setEntries k v rest

/-- `Map.prototype.get` on the entry list: the value stored under the key, if any. -/
def getEntries {β : Type} (k : String) : List (String × β) → Option β
  | [] => none
  | (k', v') :: rest => if k' = k then some v' else getEntries k rest

theorem mem_keys_setEntries {β : Type} (k : String) (v : β) (l : List (String × β)) (x : String) :
    x ∈ (setEntries k v l).map Prod.fst ↔ x = k ∨ x ∈ l.map Prod.fst := by
  induction l with
  | nil => simp [setEntries]
  | cons hd tl ih =>
    obtain ⟨k', v'⟩ := hd
    by_cases h : k' = k
    · subst h; simp [setEntries]
    · simp only [setEntries, h, if_false, List.map_cons, List.mem_cons, ih]
      tauto

theorem nodup_keys_setEntries {β : Type} (k : String) (v : β) (l : List (String × β))
    (h : (l.map Prod.fst).Nodup) : ((setEntries k v l).map Prod.fst).Nodup := by
  induction l with
  | nil => simp [setEntries]
  | cons hd tl ih =>
    obtain ⟨k', v'⟩ := hd
    simp only [List.map_cons, List.nodup_cons] at h
    by_cases hk : k' = k
    · subst hk
      simpa [setEntries] using h
    · rw [setEntries, if_neg hk, List.map_cons, List.nodup_cons]
      exact ⟨fun hx => ((mem_keys_setEntries k v tl k').1 hx).elim hk h.1, ih h.2⟩

theorem nodup_keys_filter {β : Type} (p : String × β → Bool) (l : List (String × β))
    (h : (l.map Prod.fst).Nodup) : ((l.filter p).map Prod.fst).Nodup :=
  h.sublist ((List.filter_sublist l).map Prod.fst)

/-- A JavaScript `Map` with string keys: entries in insertion order, keys pairwise
distinct. -/
structure JSMap (β : Type) where
  entries : List (String × β)
  nodup : (entries.map Prod.fst).Nodup

namespace JSMap

variable {β : Type}

theorem ext_entries {a b : JSMap β} (h : a.entries = b.entries) : a = b := by
  cases a; cases b; cases h; rfl

instance [DecidableEq β] : DecidableEq (JSMap β) := fun a b =>
  decidable_of_iff (a.entries = b.entries) ⟨ext_entries, fun h => h ▸ rfl⟩

/-- The result of `new Map()`. -/
def empty : JSMap β := ⟨[], List.nodup_nil⟩

/-- The method `Map.prototype.get`; `none` stands for `undefined`. -/
def get (m : JSMap β) (k : String) : Option β := getEntries k m.entries

/-- The method `Map.prototype.set`. -/
def set (m : JSMap β) (k : String) (v : β) : JSMap β :=
  ⟨setEntries k v m.entries, nodup_keys_setEntries k v m.entries m.nodup⟩

/-- The method `Map.prototype.delete`. -/
def delete (m : JSMap β) (k : String) : JSMap β :=
  ⟨m.entries.filter (fun e => e.1 != k), nodup_keys_filter _ m.entries m.nodup⟩

/-- The method `Map.prototype.clear`: the map afterwards. -/
def clear (_m : JSMap β) : JSMap β := empty

/-- The accessor `Map.prototype.size`. -/
def size (m : JSMap β) : Nat := m.entries.length

end JSMap

/-- The object literal stored per key: `{ url: ..., timestamp: ... }`. -/
structure CacheEntry where
  url : JSVal
  timestamp : Int
  deriving DecidableEq, Repr

/-- State of `resolutionCache`. -/
abbrev Cache := JSMap CacheEntry

/-! ## Constants -/

/-- Constant `OPENRED_RESOLVER_PORT`. -/
def OPENRED_RESOLVER_PORT : Nat := 7888

/-- Constant `OPENRED_RESOLVER_HOST`. -/
def OPENRED_RESOLVER_HOST : String := "localhost"

/-- Constant `CACHE_TTL = 5 * 60 * 1000` milliseconds. -/
def CACHE_TTL : Int := 5 * 60 * 1000

/-- The array `standardPorts` of `fallbackResolve`. -/
def standardPorts : List Nat := [8080, 8081, 8082, 3000, 5000]

/-! ## Environment of one invocation -/

/-- What one `HEAD` probe does: the promise resolves with `response.ok` true or false, or
it rejects. -/
inductive ProbeOutcome where
  | ok
  | notOk
  | thrown
  deriving DecidableEq, Repr

/-- What the `POST /resolve` call does: `fetch` rejects (network error), or it resolves
with a response whose `ok` flag is given and whose `response.json()` either yields the decoded
body or rejects (`none`). -/
inductive DaemonOutcome where
  | networkError
  | response (ok : Bool) (json : Option JSVal)
  deriving DecidableEq, Repr

/-- Everything one call of `resolveOrpUrl` can observe from outside: the clock reading of
the cache check (line 63), the clock reading of the insertion (line 87), the behaviour of the
daemon and the behaviour of a `HEAD` request to each URL. -/
structure Env where
  nowLookup : Int
  nowInsert : Int
  daemon : DaemonOutcome
  probe : String → ProbeOutcome

/-- A network call issued by the pipeline. -/
inductive NetCall where
  | post (endpoint : String) (orpUrl : String) (source : String)
  | head (url : String)
  deriving DecidableEq, Repr

/-- The `return` statement through which `resolveOrpUrl` left: line 64 (cache), line 90
(daemon accepted), line 94 (daemon answered but was not accepted), line 100 (result of
`fallbackResolve`). -/
inductive ExitPoint where
  | cacheHit
  | daemonResolved
  | daemonRejected
  | fallback
  deriving DecidableEq, Repr

/-- Result of one call of `resolveOrpUrl`: the value the promise resolves to (`JSVal.null`
for `return null`), the cache afterwards, the network calls in the order issued and the
`return` statement taken. -/
structure Outcome where
  value : JSVal
  cache : Cache
  calls : List NetCall
  exit : ExitPoint

/-! ## `fallbackResolve` -/

/-- Line terminators, the characters `.` does not match in a JavaScript regular expression
without the `s` flag. -/
def isLineTerminator (c : Char) : Bool :=
  c = Char.ofNat 10 || c = Char.ofNat 13 || c = Char.ofNat 0x2028 || c = Char.ofNat 0x2029

/-- Removes the literal `lit` from the front of `s`, if `s` starts with it. -/
def dropLiteral : List Char → List Char → Option (List Char)
  | [], s => some s
  | _ :: _, [] => none
  | p :: ps, c :: cs => if p = c then dropLiteral ps cs else none

/-- The call `orpUrl.match(/^orp:\/\/([^\/]+)(\/.*)?$/)` on a string: `none` when there is no
match, otherwise capture group 1 and capture group 2 (`none` for a group that did not
participate). After the literal `orp://` group 1 takes the longest run of characters other
than `/`, which has to be non-empty; what follows is either the end of the input, or a `/`
followed up to the end of the input by characters that are not line terminators. A shorter
group 1 never leads to a match, since the character after it would be neither `/` nor the
end of the input. -/
def matchOrp (s : String) : Option (String × Option String) :=
  match dropLiteral "orp://".toList s.toList with
  | none => none
  | some rest =>
    let auth := rest.takeWhile (fun c => c != '/')
    let tail := rest.dropWhile (fun c => c != '/')
    if auth = [] then none
    else
      match tail with
      | [] => some (String.mk auth, none)
      | slash :: more =>
        if more.all (fun c => !isLineTerminator c) then
          some (String.mk auth, some (String.mk (slash :: more)))
        else none

/-- The template literal `http://localhost:${port}${path}`. -/
def testUrl (port : Nat) (path : String) : String :=
  "http://localhost:" ++ toString port ++ path

/-- The `for (const port of standardPorts)` loop of `fallbackResolve`: the value returned
(`null` after the last port) and the URLs fetched with `HEAD`, in order. A response that is
not `ok` and a rejected `fetch` (caught by the inner `try`) both continue with the next
port. -/
def probeLoop (probe : String → ProbeOutcome) (path : String) : List Nat → JSVal × List String
  | [] => (JSVal.null, [])
  | port :: rest =>
    match probe (testUrl port path) with
    | ProbeOutcome.ok => (JSVal.str (testUrl port path), [testUrl port path])
    | _ => ((probeLoop probe path rest).1, testUrl port path :: (probeLoop probe path rest).2)

/-- The expression `match[2] || '/'` of line 114: capture group 2 when it participated and
is not the empty string, `"/"` otherwise. -/
def fallbackPath (group2 : Option String) : String :=
  match group2 with
  | some p => if p ≠ "" then p else "/"
  | none => "/"

/-- The function `fallbackResolve(orpUrl)`: the value it resolves to and the URLs probed.
For an argument that is not a string, `orpUrl.match` is not callable (or the property read
itself throws), the `TypeError` is caught by the outer `try` and `null` is returned. -/
def fallbackResolve (probe : String → ProbeOutcome) (orpUrl : JSVal) : JSVal × List String :=
  match orpUrl with
  | JSVal.str s =>
    match matchOrp s with
    | none => (JSVal.null, [])
    | some (_fortIdentifier, group2) => probeLoop probe (fallbackPath group2) standardPorts
  | _ => (JSVal.null, [])

/-! ## `resolveOrpUrl` -/

/-- URL of the daemon endpoint, as built by the template literal of line 69. -/
def resolverEndpoint : String :=
  "http://" ++ OPENRED_RESOLVER_HOST ++ ":" ++ toString OPENRED_RESOLVER_PORT ++ "/resolve"

/-- The `POST` of lines 69-78 for a given `orp_url`. -/
def daemonPost (orpUrl : String) : NetCall :=
  NetCall.post resolverEndpoint orpUrl "browser_extension"

/-- The `catch` block of `resolveOrpUrl` (line 100): the result of `fallbackResolve`, after
the daemon call. -/
def viaFallback (env : Env) (cache : Cache) (orpUrl : String) : Outcome :=
  ⟨(fallbackResolve env.probe (JSVal.str orpUrl)).1, cache,
    daemonPost orpUrl :: (fallbackResolve env.probe (JSVal.str orpUrl)).2.map NetCall.head,
    ExitPoint.fallback⟩

/-- Lines 67-101 of `resolveOrpUrl`: the daemon request and what follows it. -/
def afterCacheMiss (env : Env) (cache : Cache) (orpUrl : String) : Outcome :=
  match env.daemon with
  | DaemonOutcome.networkError => viaFallback env cache orpUrl
  | DaemonOutcome.response false _ => ⟨JSVal.null, cache, [daemonPost orpUrl], ExitPoint.daemonRejected⟩
  | DaemonOutcome.response true none => viaFallback env cache orpUrl
  | DaemonOutcome.response true (some result) =>
    match result.getProp "success" with
    | none => viaFallback env cache orpUrl
    | some success =>
      if success.truthy then
        match result.getProp "resolved_url" with
        | none => viaFallback env cache orpUrl
        | some resolvedUrl =>
          if resolvedUrl.truthy then
            ⟨resolvedUrl, cache.set orpUrl ⟨resolvedUrl, env.nowInsert⟩, [daemonPost orpUrl],
              ExitPoint.daemonResolved⟩
          else ⟨JSVal.null, cache, [daemonPost orpUrl], ExitPoint.daemonRejected⟩
      else ⟨JSVal.null, cache, [daemonPost orpUrl], ExitPoint.daemonRejected⟩

/-- The function `resolveOrpUrl(orpUrl)` for a string argument. -/
def resolveOrpUrl (env : Env) (cache : Cache) (orpUrl : String) : Outcome :=
  match cache.get orpUrl with
  | some cached =>
    if env.nowLookup - cached.timestamp < CACHE_TTL then
      ⟨cached.url, cache, [], ExitPoint.cacheHit⟩
    else afterCacheMiss env cache orpUrl
  | none => afterCacheMiss env cache orpUrl

/-! ## Periodic sweep and the cache messages -/

/-- The callback of `setInterval` (lines 182-189) run at clock reading `now`: every entry
of the map is visited once and deleted when `now - data.timestamp > CACHE_TTL`. -/
def sweep (now : Int) (cache : Cache) : Cache :=
  cache.entries.foldl
    (fun m e => if now - e.2.timestamp > CACHE_TTL then m.delete e.1 else m) cache

/-- One element of the `entries` array of the `GET_CACHE_STATS` response. -/
structure StatsEntry where
  url : String
  resolvedUrl : JSVal
  timestamp : Int
  age : Int
  deriving DecidableEq, Repr

/-- The object passed to `sendResponse` for `GET_CACHE_STATS`. -/
structure StatsResponse where
  cacheSize : Nat
  entries : List StatsEntry
  deriving DecidableEq, Repr

/-- The `GET_CACHE_STATS` branch (lines 161-171); `clock i` is the reading `Date.now()`
gives while the entry at position `i` is mapped. The cache is only read. -/
def getCacheStats (clock : Nat → Int) (cache : Cache) : StatsResponse :=
  ⟨cache.size,
    cache.entries.enum.map (fun ie =>
      ⟨ie.2.1, ie.2.2.url, ie.2.2.timestamp, clock ie.1 - ie.2.2.timestamp⟩)⟩

/-- Things that happen to the Interceptor, one at a time: a completed call of
`resolveOrpUrl`, a run of the periodic sweep, a `GET_CACHE_STATS` message and a
`CLEAR_CACHE` message. -/
inductive Event where
  | resolve (env : Env) (orpUrl : String)
  | sweep (now : Int)
  | getCacheStats (clock : Nat → Int)
  | clearCache

/-- The cache after an event. -/
def step (cache : Cache) : Event → Cache
  | Event.resolve env orpUrl => (resolveOrpUrl env cache orpUrl).cache
  | Event.sweep now => sweep now cache
  | Event.getCacheStats _ => cache
  | Event.clearCache => cache.clear

/-- The cache after a sequence of events, handled one after the other. -/
def run (cache : Cache) (events : List Event) : Cache :=
  events.foldl step cache

/-! ## Facts about the `Map` model -/

namespace JSMap

variable {β : Type}

theorem get_set_self (m : JSMap β) (k : String) (v : β) : (m.set k v).get k = some v := by
  obtain ⟨l, hl⟩ := m
  simp only [get, set]
  clear hl
  induction l with
  | nil => simp [setEntries, getEntries]
  | cons hd tl ih =>
    obtain ⟨k', v'⟩ := hd
    by_cases h : k' = k
    · simp [setEntries, getEntries, h]
    · simp [setEntries, getEntries, h, ih]

theorem get_set_other (m : JSMap β) (k k' : String) (v : β) (hne : k' ≠ k) :
    (m.set k v).get k' = m.get k' := by
  obtain ⟨l, hl⟩ := m
  simp only [get, set]
  clear hl
  induction l with
  | nil => simp [setEntries, getEntries, Ne.symm hne]
  | cons hd tl ih =>
    obtain ⟨k1, v1⟩ := hd
    by_cases h : k1 = k
    · subst h
      simp [setEntries, getEntries, Ne.symm hne]
    · by_cases h1 : k1 = k'
      · subst h1
        simp [setEntries, getEntries, h]
      · simp [setEntries, getEntries, h, h1, ih]

theorem get_delete_other (m : JSMap β) (k k' : String) (hne : k' ≠ k) :
    (m.delete k).get k' = m.get k' := by
  obtain ⟨l, hl⟩ := m
  simp only [get, delete]
  clear hl
  induction l with
  | nil => simp [getEntries]
  | cons hd tl ih =>
    obtain ⟨k1, v1⟩ := hd
    by_cases h : k1 = k
    · subst h
      simp [List.filter_cons, getEntries, Ne.symm hne, ih]
    · by_cases h1 : k1 = k'
      · subst h1
        simp [List.filter_cons, getEntries, h]
      · simp [List.filter_cons, getEntries, h, h1, ih]

theorem get_of_mem (m : JSMap β) (k : String) (v : β) (hmem : (k, v) ∈ m.entries) :
    m.get k = some v := by
  obtain ⟨l, hl⟩ := m
  simp only [get]
  simp only at hmem
  induction l with
  | nil => simp at hmem
  | cons hd tl ih =>
    obtain ⟨k1, v1⟩ := hd
    simp only [List.map_cons, List.nodup_cons] at hl
    rcases List.mem_cons.1 hmem with heq | htl
    · cases heq
      simp [getEntries]
    · have hk : k1 ≠ k := by
        intro h
        subst h
        exact hl.1 (List.mem_map.2 ⟨(k1, v), htl, rfl⟩)
      simp [getEntries, hk, ih hl.2 htl]

theorem size_set (m : JSMap β) (k : String) (v : β) :
    (m.set k v).size = if (m.get k).isSome then m.size else m.size + 1 := by
  obtain ⟨l, hl⟩ := m
  simp only [get, set, size]
  clear hl
  induction l with
  | nil => simp [setEntries, getEntries]
  | cons hd tl ih =>
    obtain ⟨k1, v1⟩ := hd
    by_cases h : k1 = k
    · simp [setEntries, getEntries, h]
    · simp only [setEntries, getEntries, h, if_false, List.length_cons, ih]
      split <;> rfl

end JSMap

/-! ## Classification of the daemon's behaviour -/

/-- The daemon call is accepted: the status is OK, the body decodes, and both
`result.success` and `result.resolved_url` are truthy (for a boolean flag: `true`, for a
string: non-empty). -/
def daemonAccepts : DaemonOutcome → Bool
  | DaemonOutcome.response ok (some body) =>
    ok && ((body.getProp "success").getD JSVal.undefined).truthy
      && ((body.getProp "resolved_url").getD JSVal.undefined).truthy
  | _ => false

/-- The daemon call ends in the `catch` block: `fetch` rejects, or the status is OK and
`response.json()` rejects, or the status is OK and the body decodes to `null`, so that
reading `result.success` throws. -/
def daemonThrows : DaemonOutcome → Bool
  | DaemonOutcome.networkError => true
  | DaemonOutcome.response true none => true
  | DaemonOutcome.response true (some body) => (body.getProp "success").isNone
  | DaemonOutcome.response false _ => false

/-- The `resolved_url` member of the decoded body, `undefined` when there is none. -/
def daemonResolvedUrl : DaemonOutcome → JSVal
  | DaemonOutcome.response _ (some body) => (body.getProp "resolved_url").getD JSVal.undefined
  | _ => JSVal.undefined

/-- No entry for `u` passes the test of line 63 at clock reading `now`. -/
def NoValidEntry (cache : Cache) (u : String) (now : Int) : Prop :=
  ∀ e, cache.get u = some e → ¬ (now - e.timestamp < 300000)

/-- Executable form of `NoValidEntry`. -/
def hasNoValidEntry (cache : Cache) (u : String) (now : Int) : Bool :=
  match cache.get u with
  | some e => !decide (now - e.timestamp < 300000)
  | none => true

theorem hasNoValidEntry_iff (cache : Cache) (u : String) (now : Int) :
    hasNoValidEntry cache u now = true ↔ NoValidEntry cache u now := by
  unfold NoValidEntry hasNoValidEntry
  cases cache.get u with
  | none => simp
  | some e => simp

instance (cache : Cache) (u : String) (now : Int) : Decidable (NoValidEntry cache u now) :=
  decidable_of_iff _ (hasNoValidEntry_iff cache u now)

/-! ## Example data -/

/-- The URI of the scenarios. -/
def exampleUri : String := "orp://node-1/profile"

/-- The daemon's answer `{success: true, resolved_url: "http://localhost:9001/profile"}`. -/
def exampleBody : JSVal :=
  JSVal.obj [("success", JSVal.bool true),
    ("resolved_url", JSVal.str "http://localhost:9001/profile")]

/-- No port answers: every `HEAD` request rejects. -/
def noPort : String → ProbeOutcome := fun _ => ProbeOutcome.thrown

/-- Only port 8082 serves `/profile`: the ports before it reject or answer with an error
status. -/
def only8082 : String → ProbeOutcome := fun url =>
  if url = "http://localhost:8082/profile" then ProbeOutcome.ok
  else if url = "http://localhost:8081/profile" then ProbeOutcome.notOk
  else ProbeOutcome.thrown

/-- Port 8080 serves every path. -/
def port8080Serves : String → ProbeOutcome := fun url =>
  if url = "http://localhost:8080/profile" then ProbeOutcome.ok else ProbeOutcome.thrown

/-- A cache holding one entry for `exampleUri`, inserted at clock reading `1000`. -/
def exampleCache : Cache :=
  JSMap.empty.set exampleUri ⟨JSVal.str "http://localhost:9001/profile", 1000⟩

/-! ## Facts about `resolveOrpUrl` -/

theorem CACHE_TTL_eq : CACHE_TTL = 300000 := by decide

theorem resolveOrpUrl_of_hit (env : Env) (cache : Cache) (u : String) (e : CacheEntry)
    (hget : cache.get u = some e) (hfresh : env.nowLookup - e.timestamp < 300000) :
    resolveOrpUrl env cache u = ⟨e.url, cache, [], ExitPoint.cacheHit⟩ := by
  simp [resolveOrpUrl, hget, CACHE_TTL_eq, hfresh]

theorem resolveOrpUrl_of_miss (env : Env) (cache : Cache) (u : String)
    (hmiss : NoValidEntry cache u env.nowLookup) :
    resolveOrpUrl env cache u = afterCacheMiss env cache u := by
  unfold resolveOrpUrl
  cases hget : cache.get u with
  | none => rfl
  | some e =>
    have h := hmiss e hget
    simp [CACHE_TTL_eq, h]

theorem afterCacheMiss_of_accepts (env : Env) (cache : Cache) (u : String)
    (h : daemonAccepts env.daemon = true) :
    afterCacheMiss env cache u =
      ⟨daemonResolvedUrl env.daemon,
        cache.set u ⟨daemonResolvedUrl env.daemon, env.nowInsert⟩,
        [daemonPost u], ExitPoint.daemonResolved⟩ := by
  unfold afterCacheMiss
  cases hd : env.daemon with
  | networkError => simp [hd, daemonAccepts] at h
  | response ok json =>
    cases json with
    | none => simp [hd, daemonAccepts] at h
    | some body =>
      cases ok with
      | false => simp [hd, daemonAccepts] at h
      | true =>
        cases body <;> simp_all [daemonAccepts, daemonResolvedUrl, JSVal.getProp, JSVal.truthy]

theorem afterCacheMiss_of_throws (env : Env) (cache : Cache) (u : String)
    (h : daemonThrows env.daemon = true) :
    afterCacheMiss env cache u = viaFallback env cache u := by
  unfold afterCacheMiss
  cases hd : env.daemon with
  | networkError => rfl
  | response ok json =>
    cases ok with
    | false => simp [hd, daemonThrows] at h
    | true =>
      cases json with
      | none => rfl
      | some body => cases body <;> simp_all [daemonThrows, JSVal.getProp]

theorem afterCacheMiss_of_rejects (env : Env) (cache : Cache) (u : String)
    (ha : daemonAccepts env.daemon = false) (ht : daemonThrows env.daemon = false) :
    afterCacheMiss env cache u = ⟨JSVal.null, cache, [daemonPost u], ExitPoint.daemonRejected⟩ := by
  unfold afterCacheMiss
  cases hd : env.daemon with
  | networkError => simp [hd, daemonThrows] at ht
  | response ok json =>
    cases ok with
    | false => rfl
    | true =>
      cases json with
      | none => simp [hd, daemonThrows] at ht
      | some body =>
        cases body <;> simp_all [daemonAccepts, daemonThrows, JSVal.getProp, JSVal.truthy]

theorem daemonThrows_of_accepts (d : DaemonOutcome) (h : daemonAccepts d = true) :
    daemonThrows d = false := by
  cases d with
  | networkError => simp [daemonAccepts] at h
  | response ok json =>
    cases json with
    | none => simp [daemonAccepts] at h
    | some body =>
      cases ok with
      | false => rfl
      | true => cases body <;> simp_all [daemonAccepts, daemonThrows, JSVal.getProp, JSVal.truthy]

/-- The four ways through `resolveOrpUrl`, with the complete result of each. -/
theorem resolveOrpUrl_cases (env : Env) (cache : Cache) (u : String) :
    (∃ e, cache.get u = some e ∧ env.nowLookup - e.timestamp < 300000 ∧
        resolveOrpUrl env cache u = ⟨e.url, cache, [], ExitPoint.cacheHit⟩) ∨
    (NoValidEntry cache u env.nowLookup ∧ daemonAccepts env.daemon = true ∧
        resolveOrpUrl env cache u =
          ⟨daemonResolvedUrl env.daemon,
            cache.set u ⟨daemonResolvedUrl env.daemon, env.nowInsert⟩,
            [daemonPost u], ExitPoint.daemonResolved⟩) ∨
    (NoValidEntry cache u env.nowLookup ∧ daemonAccepts env.daemon = false ∧
        daemonThrows env.daemon = true ∧
        resolveOrpUrl env cache u = viaFallback env cache u) ∨
    (NoValidEntry cache u env.nowLookup ∧ daemonAccepts env.daemon = false ∧
        daemonThrows env.daemon = false ∧
        resolveOrpUrl env cache u =
          ⟨JSVal.null, cache, [daemonPost u], ExitPoint.daemonRejected⟩) := by
  by_cases hv : NoValidEntry cache u env.nowLookup
  · right
    rw [resolveOrpUrl_of_miss env cache u hv]
    cases ha : daemonAccepts env.daemon with
    | true => exact Or.inl ⟨hv, rfl, afterCacheMiss_of_accepts env cache u ha⟩
    | false =>
      right
      cases ht : daemonThrows env.daemon with
      | true => exact Or.inl ⟨hv, rfl, rfl, afterCacheMiss_of_throws env cache u ht⟩
      | false => exact Or.inr ⟨hv, rfl, rfl, afterCacheMiss_of_rejects env cache u ha ht⟩
  · left
    unfold NoValidEntry at hv
    push_neg at hv
    obtain ⟨e, hget, hfresh⟩ := hv
    exact ⟨e, hget, hfresh, resolveOrpUrl_of_hit env cache u e hget hfresh⟩

theorem viaFallback_exit (env : Env) (cache : Cache) (u : String) :
    (viaFallback env cache u).exit = ExitPoint.fallback := rfl

theorem viaFallback_cache (env : Env) (cache : Cache) (u : String) :
    (viaFallback env cache u).cache = cache := rfl

theorem viaFallback_value (env : Env) (cache : Cache) (u : String) :
    (viaFallback env cache u).value = (fallbackResolve env.probe (JSVal.str u)).1 := rfl

theorem viaFallback_calls (env : Env) (cache : Cache) (u : String) :
    (viaFallback env cache u).calls =
      daemonPost u :: (fallbackResolve env.probe (JSVal.str u)).2.map NetCall.head := rfl

/-! ## Facts about the sweep and about sequences of events -/

theorem sweepFold_get (now : Int) (u : String) (e : CacheEntry) :
    ∀ (l : List (String × CacheEntry)) (m : Cache), m.get u = some e →
      (∀ d, (u, d) ∈ l → ¬ (now - d.timestamp > CACHE_TTL)) →
      (l.foldl (fun m e => if now - e.2.timestamp > CACHE_TTL then m.delete e.1 else m) m).get u
        = some e := by
  intro l
  induction l with
  | nil => intro m hget _; exact hget
  | cons hd tl ih =>
    intro m hget hl
    obtain ⟨k, d⟩ := hd
    rw [List.foldl_cons]
    apply ih
    · by_cases hexp : now - d.timestamp > CACHE_TTL
      · have hk : u ≠ k := by
          intro h
          subst h
          exact hl d (List.mem_cons_self _ _) hexp
        simp only [hexp, if_true]
        rw [JSMap.get_delete_other m k u hk]
        exact hget
      · simp only [hexp, if_false]
        exact hget
    · intro d' hd'
      exact hl d' (List.mem_cons_of_mem _ hd')

theorem sweep_get_of_valid (now : Int) (cache : Cache) (u : String) (e : CacheEntry)
    (hget : cache.get u = some e) (hvalid : ¬ (now - e.timestamp > 300000)) :
    (sweep now cache).get u = some e := by
  unfold sweep
  apply sweepFold_get now u e cache.entries cache hget
  intro d hd
  have h := JSMap.get_of_mem cache u d hd
  rw [hget] at h
  cases h
  rw [CACHE_TTL_eq]
  exact hvalid

/-- The event is a `CLEAR_CACHE` message. -/
def Event.isClearCache : Event → Bool
  | Event.clearCache => true
  | _ => false

/-- Every clock reading taken while the event is handled is below `bound`. -/
def Event.readingsBelow (bound : Int) : Event → Prop
  | Event.resolve env _ => env.nowLookup < bound ∧ env.nowInsert < bound
  | Event.sweep now => now < bound
  | Event.getCacheStats clock => ∀ i, clock i < bound
  | Event.clearCache => True

theorem step_keeps_entry (cache : Cache) (ev : Event) (u : String) (e : CacheEntry)
    (hget : cache.get u = some e) (hclear : ev.isClearCache = false)
    (hread : ev.readingsBelow (e.timestamp + 300000)) :
    (step cache ev).get u = some e := by
  cases ev with
  | resolve env u' =>
    simp only [step]
    simp only [Event.readingsBelow] at hread
    rcases resolveOrpUrl_cases env cache u' with ⟨e', _, _, h⟩ | ⟨hv, _, h⟩ | ⟨_, _, _, h⟩ |
      ⟨_, _, _, h⟩
    · rw [h]; exact hget
    · rw [h]
      have hne : u ≠ u' := by
        intro huu
        subst huu
        exact hv e hget (by linarith [hread.1])
      simp only
      rw [JSMap.get_set_other cache u' u _ hne]
      exact hget
    · rw [h, viaFallback_cache]; exact hget
    · rw [h]; exact hget
  | sweep now =>
    simp only [Event.readingsBelow] at hread
    exact sweep_get_of_valid now cache u e hget (by linarith)
  | getCacheStats clock => exact hget
  | clearCache => simp [Event.isClearCache] at hclear

theorem run_keeps_entry (events : List Event) (u : String) (e : CacheEntry) :
    ∀ (cache : Cache), cache.get u = some e →
      (∀ ev ∈ events, ev.isClearCache = false) →
      (∀ ev ∈ events, ev.readingsBelow (e.timestamp + 300000)) →
      (run cache events).get u = some e := by
  induction events with
  | nil => intro cache hget _ _; exact hget
  | cons ev rest ih =>
    intro cache hget hclear hread
    unfold run
    rw [List.foldl_cons]
    apply ih
    · exact step_keeps_entry cache ev u e hget (hclear ev (List.mem_cons_self _ _))
        (hread ev (List.mem_cons_self _ _))
    · intro ev' hev'; exact hclear ev' (List.mem_cons_of_mem _ hev')
    · intro ev' hev'; exact hread ev' (List.mem_cons_of_mem _ hev')

/-! ## Facts about `fallbackResolve` -/

theorem probeLoop_probes_ne_nil (probe : String → ProbeOutcome) (path : String)
    (ports : List Nat) (h : ports ≠ []) : (probeLoop probe path ports).2 ≠ [] := by
  cases ports with
  | nil => exact absurd rfl h
  | cons port rest =>
    unfold probeLoop
    cases probe (testUrl port path) <;> simp

theorem fallbackResolve_of_no_match (probe : String → ProbeOutcome) (s : String)
    (hm : matchOrp s = none) : fallbackResolve probe (JSVal.str s) = (JSVal.null, []) := by
  simp [fallbackResolve, hm]

theorem fallbackResolve_of_match (probe : String → ProbeOutcome) (s auth : String)
    (group2 : Option String) (hm : matchOrp s = some (auth, group2)) :
    fallbackResolve probe (JSVal.str s) = probeLoop probe (fallbackPath group2) standardPorts := by
  simp [fallbackResolve, hm]

theorem fallbackResolve_of_not_string (probe : String → ProbeOutcome) (v : JSVal)
    (hv : ∀ s, v ≠ JSVal.str s) : fallbackResolve probe v = (JSVal.null, []) := by
  cases v with
  | str s => exact absurd rfl (hv s)
  | _ => rfl

theorem fallbackResolve_value_of_no_probe (probe : String → ProbeOutcome) (v : JSVal)
    (h : (fallbackResolve probe v).2 = []) : (fallbackResolve probe v).1 = JSVal.null := by
  cases v with
  | str s =>
    cases hm : matchOrp s with
    | none => rw [fallbackResolve_of_no_match probe s hm]
    | some g =>
      obtain ⟨auth, group2⟩ := g
      rw [fallbackResolve_of_match probe s auth group2 hm] at h
      exact absurd h (probeLoop_probes_ne_nil probe _ standardPorts (by decide))
  | _ => rfl

/-! ## Claims about the cache stage and the daemon stage -/

/-- C1. Pipeline short-circuit: when the cache holds an entry for exactly `u` whose age
`now - timestamp` is below 300000 ms, `resolveOrpUrl(u)` returns that entry's url and
issues no network call, neither the daemon `POST` nor a `HEAD` probe. -/
theorem resolveOrpUrl_cache_hit (env : Env) (cache : Cache) (u : String) (e : CacheEntry)
    (hget : cache.get u = some e) (hfresh : env.nowLookup - e.timestamp < 300000) :
    (resolveOrpUrl env cache u).value = e.url ∧ (resolveOrpUrl env cache u).calls = [] := by
  rw [resolveOrpUrl_of_hit env cache u e hget hfresh]
  exact ⟨rfl, rfl⟩

/-- Witness of C1: an entry of age 299999 ms is served although the daemon is down and no
port answers. -/
theorem resolveOrpUrl_cache_hit_witness :
    (resolveOrpUrl ⟨300999, 300999, DaemonOutcome.networkError, noPort⟩ exampleCache
        exampleUri).value = JSVal.str "http://localhost:9001/profile" ∧
      (resolveOrpUrl ⟨300999, 300999, DaemonOutcome.networkError, noPort⟩ exampleCache
        exampleUri).calls = [] :=
  resolveOrpUrl_cache_hit ⟨300999, 300999, DaemonOutcome.networkError, noPort⟩ exampleCache
    exampleUri ⟨JSVal.str "http://localhost:9001/profile", 1000⟩ (by decide) (by decide)

/-- A first resolution of `exampleUri`: nothing cached, the daemon accepts at clock
reading `1000`. -/
def firstEnv : Env := ⟨0, 1000, DaemonOutcome.response true (some exampleBody), noPort⟩

/-- A later moment at which the daemon is down and no port answers. -/
def offlineEnv (now : Int) : Env := ⟨now, now, DaemonOutcome.networkError, noPort⟩

/-- Events between the two resolutions of the witness of C2: another URI is resolved, the
sweep runs, the statistics are read and `exampleUri` is resolved once more. -/
def quietEvents : List Event :=
  [Event.resolve ⟨2000, 2001, DaemonOutcome.response true (some exampleBody), noPort⟩
      "orp://node-2/inbox",
    Event.sweep 200000,
    Event.getCacheStats (fun _ => 250000),
    Event.resolve (offlineEnv 260000) exampleUri]

/-- C2. Cache correctness over time: if `resolveOrpUrl(u)` succeeded through the daemon
with the insertion clock reading `T = env0.nowInsert`, then after any sequence of completed
resolutions, sweeps and `GET_CACHE_STATS` requests, none of them a `CLEAR_CACHE` and all at
clock readings below `T + 300000`, a further `resolveOrpUrl(u)` at a reading `T + Δ` with
`Δ < 300000` returns the same URL without any network call. -/
theorem cache_correct_over_time (env0 : Env) (cache0 : Cache) (u : String)
    (events : List Event) (envLater : Env)
    (hfirst : (resolveOrpUrl env0 cache0 u).exit = ExitPoint.daemonResolved)
    (hclear : ∀ ev ∈ events, ev.isClearCache = false)
    (hread : ∀ ev ∈ events, ev.readingsBelow (env0.nowInsert + 300000))
    (hlater : envLater.nowLookup - env0.nowInsert < 300000) :
    (resolveOrpUrl envLater (run (resolveOrpUrl env0 cache0 u).cache events) u).value
        = (resolveOrpUrl env0 cache0 u).value ∧
      (resolveOrpUrl envLater (run (resolveOrpUrl env0 cache0 u).cache events) u).calls
        = [] := by
  rcases resolveOrpUrl_cases env0 cache0 u with ⟨e', _, _, h⟩ | ⟨_, _, h⟩ | ⟨_, _, _, h⟩ |
    ⟨_, _, _, h⟩
  · rw [h] at hfirst; cases hfirst
  · rw [h]
    simp only
    have hget : (run (cache0.set u ⟨daemonResolvedUrl env0.daemon, env0.nowInsert⟩) events).get u
        = some ⟨daemonResolvedUrl env0.daemon, env0.nowInsert⟩ :=
      run_keeps_entry events u ⟨daemonResolvedUrl env0.daemon, env0.nowInsert⟩ _
        (JSMap.get_set_self cache0 u _) hclear hread
    rw [resolveOrpUrl_of_hit envLater _ u _ hget hlater]
    exact ⟨rfl, rfl⟩
  · rw [h, viaFallback_exit] at hfirst; cases hfirst
  · rw [h] at hfirst; cases hfirst

/-- Witness of C2: resolved at `T = 1000`, looked up again 299999 ms later while the
network is down. -/
theorem cache_correct_over_time_witness :
    (resolveOrpUrl (offlineEnv 300999)
        (run (resolveOrpUrl firstEnv JSMap.empty exampleUri).cache quietEvents) exampleUri).value
        = (resolveOrpUrl firstEnv JSMap.empty exampleUri).value ∧
      (resolveOrpUrl (offlineEnv 300999)
        (run (resolveOrpUrl firstEnv JSMap.empty exampleUri).cache quietEvents) exampleUri).calls
        = [] :=
  cache_correct_over_time firstEnv JSMap.empty exampleUri quietEvents (offlineEnv 300999)
    (by decide)
    (by
      intro ev hev
      simp only [quietEvents, List.mem_cons, List.mem_singleton, List.not_mem_nil,
        or_false] at hev
      rcases hev with rfl | rfl | rfl | rfl <;> rfl)
    (by
      intro ev hev
      simp only [quietEvents, List.mem_cons, List.mem_singleton, List.not_mem_nil,
        or_false] at hev
      rcases hev with rfl | rfl | rfl | rfl
      · exact ⟨by decide, by decide⟩
      · show (200000 : Int) < 1000 + 300000
        decide
      · intro _
        show (250000 : Int) < 1000 + 300000
        decide
      · exact ⟨by decide, by decide⟩)
    (by decide)

/-- C3. Expired entries are never served: when the entry for `u` has age
`now - timestamp >= 300000` (exactly 300000 included), `resolveOrpUrl(u)` does not leave
through the cache; its first network call is the daemon request, its value is the daemon's
`resolved_url`, `null`, or the prober's result, and unless the daemon resolves the URI the
expired entry stays stored as it was. -/
theorem resolveOrpUrl_expired_not_served (env : Env) (cache : Cache) (u : String)
    (e : CacheEntry) (hget : cache.get u = some e)
    (hexpired : env.nowLookup - e.timestamp ≥ 300000) :
    (resolveOrpUrl env cache u).exit ≠ ExitPoint.cacheHit ∧
      (resolveOrpUrl env cache u).calls.head? = some (daemonPost u) ∧
      ((resolveOrpUrl env cache u).exit = ExitPoint.daemonResolved →
        daemonAccepts env.daemon = true ∧
          (resolveOrpUrl env cache u).value = daemonResolvedUrl env.daemon) ∧
      ((resolveOrpUrl env cache u).exit = ExitPoint.daemonRejected →
        (resolveOrpUrl env cache u).value = JSVal.null) ∧
      ((resolveOrpUrl env cache u).exit = ExitPoint.fallback →
        (resolveOrpUrl env cache u).value = (fallbackResolve env.probe (JSVal.str u)).1) ∧
      ((resolveOrpUrl env cache u).exit ≠ ExitPoint.daemonResolved →
        (resolveOrpUrl env cache u).cache.get u = some e) := by
  rcases resolveOrpUrl_cases env cache u with ⟨e', hget', hfresh, _⟩ | ⟨_, ha, h⟩ |
    ⟨_, _, _, h⟩ | ⟨_, _, _, h⟩
  · rw [hget] at hget'
    cases hget'
    exact absurd hfresh (by linarith)
  · rw [h]
    simp [ha]
  · rw [h]
    simp [viaFallback, hget]
  · rw [h]
    simp [hget]

/-- Witness of C3: an entry of age exactly 300000 ms is not served; the daemon is asked
and, being down with no port answering, the call returns `null` while the entry stays. -/
theorem resolveOrpUrl_expired_not_served_witness :
    (resolveOrpUrl (offlineEnv 301000) exampleCache exampleUri).exit ≠ ExitPoint.cacheHit ∧
      (resolveOrpUrl (offlineEnv 301000) exampleCache exampleUri).value = JSVal.null ∧
      (resolveOrpUrl (offlineEnv 301000) exampleCache exampleUri).cache.get exampleUri
        = some ⟨JSVal.str "http://localhost:9001/profile", 1000⟩ :=
  have h := resolveOrpUrl_expired_not_served (offlineEnv 301000) exampleCache exampleUri
    ⟨JSVal.str "http://localhost:9001/profile", 1000⟩ (by decide) (by decide)
  ⟨h.1, by decide, h.2.2.2.2.2 (by decide)⟩

theorem noValidEntry_empty (u : String) (now : Int) :
    NoValidEntry (JSMap.empty : Cache) u now := by
  intro e h
  cases h

/-- C4. Daemon success inserts and returns: with no valid cache entry for `u`, an OK
response whose body has `success: true` and a non-empty string `resolved_url: r` makes
`resolveOrpUrl(u)` return `r` after the single daemon request; afterwards the cache maps `u`
to `{url: r, timestamp: clock reading at insertion}`, an earlier entry for `u` is replaced
(the size grows only when `u` was absent) and every other key reads as before. -/
theorem daemon_success_inserts (env : Env) (cache : Cache) (u : String) (body : JSVal)
    (r : String) (hmiss : NoValidEntry cache u env.nowLookup)
    (hd : env.daemon = DaemonOutcome.response true (some body))
    (hs : body.getProp "success" = some (JSVal.bool true))
    (hr : body.getProp "resolved_url" = some (JSVal.str r)) (hne : r ≠ "") :
    (resolveOrpUrl env cache u).value = JSVal.str r ∧
      (resolveOrpUrl env cache u).calls = [daemonPost u] ∧
      (resolveOrpUrl env cache u).cache.get u = some ⟨JSVal.str r, env.nowInsert⟩ ∧
      (∀ k, k ≠ u → (resolveOrpUrl env cache u).cache.get k = cache.get k) ∧
      (resolveOrpUrl env cache u).cache.size
        = if (cache.get u).isSome then cache.size else cache.size + 1 := by
  have ha : daemonAccepts env.daemon = true := by
    simp [hd, daemonAccepts, hs, hr, JSVal.truthy, hne]
  have hu : daemonResolvedUrl env.daemon = JSVal.str r := by
    simp [hd, daemonResolvedUrl, hr]
  rw [resolveOrpUrl_of_miss env cache u hmiss, afterCacheMiss_of_accepts env cache u ha, hu]
  exact ⟨rfl, rfl, JSMap.get_set_self cache u _,
    fun k hk => JSMap.get_set_other cache u k _ hk, JSMap.size_set cache u _⟩

/-- Witness of C4 (Scenario A): `orp://node-1/profile` is resolved by the daemon to
`http://localhost:9001/profile` and cached, starting from the empty cache; starting from a
cache whose entry for the URI is 300000 ms old, the entry is replaced by one with the new
clock reading and the cache still has one entry. -/
theorem daemon_success_inserts_witness :
    ((resolveOrpUrl firstEnv JSMap.empty "orp://node-1/profile").value
        = JSVal.str "http://localhost:9001/profile" ∧
      (resolveOrpUrl firstEnv JSMap.empty "orp://node-1/profile").cache.get
        "orp://node-1/profile" = some ⟨JSVal.str "http://localhost:9001/profile", 1000⟩) ∧
    ((resolveOrpUrl ⟨301000, 301005, DaemonOutcome.response true (some exampleBody), noPort⟩
        exampleCache "orp://node-1/profile").cache.get "orp://node-1/profile"
        = some ⟨JSVal.str "http://localhost:9001/profile", 301005⟩ ∧
      (resolveOrpUrl ⟨301000, 301005, DaemonOutcome.response true (some exampleBody), noPort⟩
        exampleCache "orp://node-1/profile").cache.size = 1) :=
  have h := daemon_success_inserts firstEnv JSMap.empty "orp://node-1/profile" exampleBody
    "http://localhost:9001/profile" (by decide) rfl (by decide) (by decide) (by decide)
  have h2 := daemon_success_inserts
    ⟨301000, 301005, DaemonOutcome.response true (some exampleBody), noPort⟩ exampleCache
    "orp://node-1/profile" exampleBody "http://localhost:9001/profile" (by decide) rfl
    (by decide) (by decide) (by decide)
  ⟨⟨h.1, h.2.2.1⟩, ⟨h2.2.2.1, h2.2.2.2.2.trans (by decide)⟩⟩

/-- C5. Daemon acceptance criterion: on a cache miss where the daemon call completes with
a response, `resolveOrpUrl` leaves through the daemon-success `return` exactly when the status
is OK and the decoded body has a truthy `success` and a truthy (non-empty) `resolved_url`;
equivalently, exactly then it returns a URL having issued the daemon request only. In that
case the value is the body's `resolved_url` and it is cached; when one of the three
conditions fails the daemon stage does not succeed and the cache is left as it was. -/
theorem daemon_acceptance_criterion (env : Env) (cache : Cache) (u : String) (ok : Bool)
    (json : Option JSVal) (hmiss : NoValidEntry cache u env.nowLookup)
    (hd : env.daemon = DaemonOutcome.response ok json) :
    ((resolveOrpUrl env cache u).exit = ExitPoint.daemonResolved ↔
        daemonAccepts (DaemonOutcome.response ok json) = true) ∧
      (((resolveOrpUrl env cache u).value.truthy = true ∧
          (resolveOrpUrl env cache u).calls = [daemonPost u]) ↔
        daemonAccepts (DaemonOutcome.response ok json) = true) ∧
      (daemonAccepts (DaemonOutcome.response ok json) = true →
        (resolveOrpUrl env cache u).value = daemonResolvedUrl (DaemonOutcome.response ok json) ∧
          (resolveOrpUrl env cache u).cache.get u
            = some ⟨daemonResolvedUrl (DaemonOutcome.response ok json), env.nowInsert⟩) ∧
      (daemonAccepts (DaemonOutcome.response ok json) = false →
        (resolveOrpUrl env cache u).cache = cache ∧
          ((resolveOrpUrl env cache u).exit = ExitPoint.daemonRejected ∨
            (resolveOrpUrl env cache u).exit = ExitPoint.fallback)) := by
  rw [← hd]
  have htruthy : daemonAccepts env.daemon = true → (daemonResolvedUrl env.daemon).truthy = true := by
    intro ha
    rw [hd] at ha ⊢
    cases json with
    | none => simp [daemonAccepts] at ha
    | some body =>
      simp only [daemonAccepts, Bool.and_eq_true] at ha
      exact ha.2
  rcases resolveOrpUrl_cases env cache u with ⟨e, hget, hfresh, _⟩ | ⟨_, ha, h⟩ |
    ⟨_, ha, _, h⟩ | ⟨_, ha, _, h⟩
  · exact absurd hfresh (hmiss e hget)
  · rw [h]
    simp [ha, htruthy ha, JSMap.get_set_self]
  · rw [h]
    refine ⟨by simp [ha, viaFallback], ?_, by simp [ha], by simp [ha, viaFallback]⟩
    rw [ha]
    constructor
    · rintro ⟨hv, hc⟩
      rw [viaFallback_calls] at hc
      have hnil : (fallbackResolve env.probe (JSVal.str u)).2 = [] := by
        simpa using hc
      rw [viaFallback_value, fallbackResolve_value_of_no_probe env.probe _ hnil] at hv
      simp [JSVal.truthy] at hv
    · intro hf; cases hf
  · rw [h]
    simp [ha, JSVal.truthy]

/-- Witness of C5: status OK with `{success: true}` and no `resolved_url` is not accepted,
`null` is returned and nothing is cached. -/
theorem daemon_acceptance_criterion_witness :
    daemonAccepts (DaemonOutcome.response true
        (some (JSVal.obj [("success", JSVal.bool true)]))) = false ∧
      (resolveOrpUrl ⟨0, 0, DaemonOutcome.response true
          (some (JSVal.obj [("success", JSVal.bool true)])), noPort⟩ JSMap.empty
        exampleUri).cache = JSMap.empty :=
  ⟨by decide,
    ((daemon_acceptance_criterion ⟨0, 0, DaemonOutcome.response true
        (some (JSVal.obj [("success", JSVal.bool true)])), noPort⟩ JSMap.empty exampleUri true
      (some (JSVal.obj [("success", JSVal.bool true)])) (noValidEntry_empty _ _) rfl).2.2.2
      (by decide)).1⟩

/-- The daemon answers with a non-OK status (for instance 500) while port 8080 serves the
path. -/
def status500Env : Env := ⟨0, 0, DaemonOutcome.response false none, port8080Serves⟩

/-- The daemon answers 200 with the body `{success: false}` while port 8080 serves the
path. -/
def refusedEnv : Env :=
  ⟨0, 0, DaemonOutcome.response true (some (JSVal.obj [("success", JSVal.bool false)])),
    port8080Serves⟩

/-- The daemon is unreachable (`fetch` rejects) while port 8080 serves the path. -/
def unreachableEnv : Env := ⟨0, 0, DaemonOutcome.networkError, port8080Serves⟩

/-- C6, counterexample to the claim as stated: with the empty cache, a daemon that answers
500, or 200 with `{success: false}`, is not accepted, and the prober would find
`http://localhost:8080/profile`; yet `resolveOrpUrl` returns `null` having issued the daemon
request only, without any probe. -/
theorem fallback_on_rejection_counterexample :
    daemonAccepts status500Env.daemon = false ∧
      daemonAccepts refusedEnv.daemon = false ∧
      (fallbackResolve port8080Serves (JSVal.str exampleUri)).1
        = JSVal.str "http://localhost:8080/profile" ∧
      (resolveOrpUrl status500Env JSMap.empty exampleUri).value = JSVal.null ∧
      (resolveOrpUrl status500Env JSMap.empty exampleUri).calls = [daemonPost exampleUri] ∧
      (resolveOrpUrl refusedEnv JSMap.empty exampleUri).value = JSVal.null ∧
      (resolveOrpUrl refusedEnv JSMap.empty exampleUri).calls = [daemonPost exampleUri] := by
  decide

/-- C6, amended. With no valid cache entry for `u`: when the daemon call throws (`fetch`
rejects, the body of an OK response fails to decode, or it decodes to `null`),
`resolveOrpUrl` invokes the prober after the daemon request and returns the prober's result;
when the daemon answers and is not accepted (non-OK status, falsy `success`, or falsy
`resolved_url`), it returns `null` after the daemon request alone. The cache is unchanged in
both cases. -/
theorem fallback_on_daemon_exception (env : Env) (cache : Cache) (u : String)
    (hmiss : NoValidEntry cache u env.nowLookup) :
    (daemonThrows env.daemon = true →
        (resolveOrpUrl env cache u).value = (fallbackResolve env.probe (JSVal.str u)).1 ∧
          (resolveOrpUrl env cache u).calls
            = daemonPost u :: (fallbackResolve env.probe (JSVal.str u)).2.map NetCall.head ∧
          (resolveOrpUrl env cache u).cache = cache) ∧
      (daemonThrows env.daemon = false → daemonAccepts env.daemon = false →
        (resolveOrpUrl env cache u).value = JSVal.null ∧
          (resolveOrpUrl env cache u).calls = [daemonPost u] ∧
          (resolveOrpUrl env cache u).cache = cache) := by
  rw [resolveOrpUrl_of_miss env cache u hmiss]
  constructor
  · intro ht
    rw [afterCacheMiss_of_throws env cache u ht]
    exact ⟨rfl, rfl, rfl⟩
  · intro ht ha
    rw [afterCacheMiss_of_rejects env cache u ha ht]
    exact ⟨rfl, rfl, rfl⟩

/-- Witness of the amended C6: the daemon is unreachable and port 8080 serves `/profile`. -/
theorem fallback_on_daemon_exception_witness :
    (resolveOrpUrl unreachableEnv JSMap.empty exampleUri).value
        = JSVal.str "http://localhost:8080/profile" ∧
      (resolveOrpUrl unreachableEnv JSMap.empty exampleUri).calls
        = [daemonPost exampleUri, NetCall.head "http://localhost:8080/profile"] :=
  have h := (fallback_on_daemon_exception unreachableEnv JSMap.empty exampleUri
    (noValidEntry_empty _ _)).1 (by decide)
  ⟨h.1.trans (by decide), h.2.1.trans (by decide)⟩

/-- C7. The cache is written only on daemon success: `resolveOrpUrl` leaves through the
daemon-success `return` exactly when there is no valid entry and the daemon is accepted, and
every other invocation (cache hit, daemon rejection, prober result, total failure) leaves
the cache exactly as it was. In particular, after a call that ended in the prober for a
URI `u` that had no entry, the cache still has no entry for `u`, and no later call for `u`
on that cache leaves through the cache stage. -/
theorem cache_written_only_on_daemon_success (env : Env) (cache : Cache) (u : String) :
    ((resolveOrpUrl env cache u).exit = ExitPoint.daemonResolved ↔
        NoValidEntry cache u env.nowLookup ∧ daemonAccepts env.daemon = true) ∧
      ((resolveOrpUrl env cache u).exit ≠ ExitPoint.daemonResolved →
        (resolveOrpUrl env cache u).cache = cache) ∧
      ((resolveOrpUrl env cache u).exit = ExitPoint.fallback → cache.get u = none →
        (resolveOrpUrl env cache u).cache.get u = none ∧
          ∀ later : Env,
            (resolveOrpUrl later (resolveOrpUrl env cache u).cache u).exit
              ≠ ExitPoint.cacheHit) := by
  rcases resolveOrpUrl_cases env cache u with ⟨e, hget, hfresh, h⟩ | ⟨hv, ha, h⟩ |
    ⟨hv, ha, _, h⟩ | ⟨hv, ha, _, h⟩
  · rw [h]
    refine ⟨?_, fun _ => rfl, fun hx => by cases hx⟩
    constructor
    · intro hx; cases hx
    · rintro ⟨hv, _⟩
      exact absurd hfresh (hv e hget)
  · rw [h]
    exact ⟨⟨fun _ => ⟨hv, ha⟩, fun _ => rfl⟩, fun hx => absurd rfl hx, fun hx => by cases hx⟩
  · rw [h]
    refine ⟨by simp [viaFallback, ha], fun _ => rfl, ?_⟩
    intro _ hnone
    rw [viaFallback_cache]
    refine ⟨hnone, fun later => ?_⟩
    rw [resolveOrpUrl_of_miss later cache u (by intro e he; rw [hnone] at he; cases he)]
    rcases Bool.eq_false_or_eq_true (daemonAccepts later.daemon) with ha' | ha'
    · rw [afterCacheMiss_of_accepts later cache u ha']
      simp
    · rcases Bool.eq_false_or_eq_true (daemonThrows later.daemon) with ht' | ht'
      · rw [afterCacheMiss_of_throws later cache u ht', viaFallback_exit]
        simp
      · rw [afterCacheMiss_of_rejects later cache u ha' ht']
        simp
  · rw [h]
    exact ⟨by simp [ha], fun _ => rfl, fun hx => by cases hx⟩

/-- Witness of C7 (Scenario B): the daemon call throws, ports 8080 and 8081 fail, port 8082
answers 200; the call returns `http://localhost:8082/profile` and the cache, empty before,
has no entry for the URI afterwards. -/
theorem cache_written_only_on_daemon_success_witness :
    (resolveOrpUrl ⟨0, 0, DaemonOutcome.networkError, only8082⟩ JSMap.empty exampleUri).value
        = JSVal.str "http://localhost:8082/profile" ∧
      (resolveOrpUrl ⟨0, 0, DaemonOutcome.networkError, only8082⟩ JSMap.empty exampleUri).cache
        = JSMap.empty ∧
      (resolveOrpUrl ⟨0, 0, DaemonOutcome.networkError, only8082⟩ JSMap.empty
        exampleUri).cache.get exampleUri = none :=
  have h := cache_written_only_on_daemon_success ⟨0, 0, DaemonOutcome.networkError, only8082⟩
    JSMap.empty exampleUri
  ⟨by decide, h.2.1 (by decide), (h.2.2 (by decide) rfl).1⟩

/-! ## Claims about the fallback prober -/

theorem probeLoop_none_ok (probe : String → ProbeOutcome) (path : String) (ports : List Nat)
    (h : ∀ q ∈ ports, probe (testUrl q path) ≠ ProbeOutcome.ok) :
    probeLoop probe path ports = (JSVal.null, ports.map (fun q => testUrl q path)) := by
  induction ports with
  | nil => rfl
  | cons port rest ih =>
    have hport := h port (List.mem_cons_self _ _)
    have hrest := ih (fun q hq => h q (List.mem_cons_of_mem _ hq))
    unfold probeLoop
    cases hp : probe (testUrl port path) with
    | ok => exact absurd hp hport
    | notOk => simp [hrest]
    | thrown => simp [hrest]

theorem probeLoop_first_ok (probe : String → ProbeOutcome) (path : String)
    (before : List Nat) (p : Nat) (after : List Nat)
    (hbefore : ∀ q ∈ before, probe (testUrl q path) ≠ ProbeOutcome.ok)
    (hp : probe (testUrl p path) = ProbeOutcome.ok) :
    probeLoop probe path (before ++ p :: after)
      = (JSVal.str (testUrl p path), (before ++ [p]).map (fun q => testUrl q path)) := by
  induction before with
  | nil => simp [probeLoop, hp]
  | cons port rest ih =>
    have hport := hbefore port (List.mem_cons_self _ _)
    have hrest := ih (fun q hq => hbefore q (List.mem_cons_of_mem _ hq))
    rw [List.cons_append]
    unfold probeLoop
    cases hq : probe (testUrl port path) with
    | ok => exact absurd hq hport
    | notOk => simp [hrest]
    | thrown => simp [hrest]

/-- C8. The prober is ordered first-match: for a parseable URI and any outcomes of the
probes, the candidate ports are 8080, 8081, 8082, 3000, 5000; when a port answers OK and
every port before it in that order does not (non-OK status or thrown error), the result is
that port's URL and the probes issued are exactly those of the ports up to and including
it, in order; when no port answers OK the result is `null` after exactly the five probes
in order. -/
theorem fallbackResolve_ordered_first_match (probe : String → ProbeOutcome) (u auth : String)
    (group2 : Option String) (hparse : matchOrp u = some (auth, group2)) :
    standardPorts = [8080, 8081, 8082, 3000, 5000] ∧
      (∀ (before : List Nat) (p : Nat) (after : List Nat),
        standardPorts = before ++ p :: after →
        (∀ q ∈ before, probe (testUrl q (fallbackPath group2)) ≠ ProbeOutcome.ok) →
        probe (testUrl p (fallbackPath group2)) = ProbeOutcome.ok →
        fallbackResolve probe (JSVal.str u)
          = (JSVal.str (testUrl p (fallbackPath group2)),
              (before ++ [p]).map (fun q => testUrl q (fallbackPath group2)))) ∧
      ((∀ q ∈ standardPorts, probe (testUrl q (fallbackPath group2)) ≠ ProbeOutcome.ok) →
        fallbackResolve probe (JSVal.str u)
            = (JSVal.null, standardPorts.map (fun q => testUrl q (fallbackPath group2))) ∧
          (fallbackResolve probe (JSVal.str u)).2.length = 5) := by
  refine ⟨rfl, ?_, ?_⟩
  · intro before p after hsplit hbefore hp
    rw [fallbackResolve_of_match probe u auth group2 hparse, hsplit]
    exact probeLoop_first_ok probe _ before p after hbefore hp
  · intro hnone
    rw [fallbackResolve_of_match probe u auth group2 hparse,
      probeLoop_none_ok probe _ standardPorts hnone]
    exact ⟨rfl, rfl⟩

/-- Witness of C8: only port 8082 answers OK for `orp://node-1/profile`; there are exactly
three probes, to 8080, 8081 and 8082 in that order, and the 8082 URL is returned. -/
theorem fallbackResolve_ordered_first_match_witness :
    fallbackResolve only8082 (JSVal.str "orp://node-1/profile")
      = (JSVal.str "http://localhost:8082/profile",
          ["http://localhost:8080/profile", "http://localhost:8081/profile",
            "http://localhost:8082/profile"]) :=
  (fallbackResolve_ordered_first_match only8082 "orp://node-1/profile" "node-1"
    (some "/profile") (by decide)).2.1 [8080, 8081] 8082 [3000, 5000] rfl (by decide)
    (by decide)

/-- The string has the form `orp://<authority>[/<path>]`: after the literal `orp://` comes a
non-empty authority containing no `/`, followed by nothing or by a path starting
with `/`. -/
def WellFormedOrp (s : String) : Prop :=
  ∃ authority path : List Char,
    s.toList = "orp://".toList ++ authority ++ path ∧ authority ≠ [] ∧ '/' ∉ authority ∧
      (path = [] ∨ ∃ rest, path = '/' :: rest)

theorem dropLiteral_eq_some (lit : List Char) :
    ∀ (s rest : List Char), dropLiteral lit s = some rest → s = lit ++ rest := by
  induction lit with
  | nil => intro s rest h; simpa [dropLiteral] using h
  | cons p ps ih =>
    intro s rest h
    cases s with
    | nil => simp [dropLiteral] at h
    | cons c cs =>
      by_cases hpc : p = c
      · subst hpc
        simp only [dropLiteral, if_true] at h
        rw [ih cs rest h]
        rfl
      · simp [dropLiteral, hpc] at h

theorem dropLiteral_append (lit rest : List Char) : dropLiteral lit (lit ++ rest) = some rest := by
  induction lit with
  | nil => cases rest <;> rfl
  | cons p ps ih => simp [dropLiteral, ih]

theorem dropWhile_notSlash_shape (l : List Char) :
    l.dropWhile (fun c => c != '/') = [] ∨
      ∃ rest, l.dropWhile (fun c => c != '/') = '/' :: rest := by
  induction l with
  | nil => exact Or.inl rfl
  | cons c cs ih =>
    by_cases hc : c = '/'
    · subst hc
      exact Or.inr ⟨cs, by simp [List.dropWhile_cons]⟩
    · simpa [List.dropWhile_cons, hc] using ih

theorem not_mem_takeWhile_notSlash (l : List Char) :
    '/' ∉ l.takeWhile (fun c => c != '/') := by
  intro h
  have := List.mem_takeWhile_imp h
  simp at this

theorem split_authority_path (authority path : List Char) (hslash : '/' ∉ authority)
    (hpath : path = [] ∨ ∃ rest, path = '/' :: rest) :
    (authority ++ path).takeWhile (fun c => c != '/') = authority ∧
      (authority ++ path).dropWhile (fun c => c != '/') = path := by
  induction authority with
  | nil =>
    rcases hpath with rfl | ⟨rest, rfl⟩
    · exact ⟨rfl, rfl⟩
    · simp [List.takeWhile_cons, List.dropWhile_cons]
  | cons c cs ih =>
    have hc : c ≠ '/' := fun h => hslash (h ▸ List.mem_cons_self _ _)
    have hcs : '/' ∉ cs := fun h => hslash (List.mem_cons_of_mem _ h)
    obtain ⟨h1, h2⟩ := ih hcs
    simp [List.takeWhile_cons, List.dropWhile_cons, hc, h1, h2]

theorem wellFormed_of_matchOrp (s : String) (g : String × Option String)
    (hm : matchOrp s = some g) : WellFormedOrp s := by
  unfold matchOrp at hm
  cases hd : dropLiteral "orp://".toList s.toList with
  | none =>
    rw [hd] at hm
    cases hm
  | some rest =>
    have hs := dropLiteral_eq_some _ _ _ hd
    rw [hd] at hm
    by_cases hauth : rest.takeWhile (fun c => c != '/') = []
    · simp only [hauth, if_true] at hm
      cases hm
    · refine ⟨rest.takeWhile (fun c => c != '/'), rest.dropWhile (fun c => c != '/'), ?_, hauth,
        not_mem_takeWhile_notSlash rest, dropWhile_notSlash_shape rest⟩
      rw [List.append_assoc, List.takeWhile_append_dropWhile]
      exact hs

/-- C9. Parsing fails closed: for every string that is not of the form
`orp://<authority>[/<path>]` with a non-empty authority containing no `/`, and for every
value that is not a string, `fallbackResolve` returns `null` and issues no probe (the
function always returns a value; nothing is thrown to the caller). -/
theorem fallbackResolve_fails_closed (probe : String → ProbeOutcome) :
    (∀ s : String, ¬ WellFormedOrp s →
        fallbackResolve probe (JSVal.str s) = (JSVal.null, [])) ∧
      (∀ v : JSVal, (∀ s, v ≠ JSVal.str s) → fallbackResolve probe v = (JSVal.null, [])) := by
  constructor
  · intro s hs
    cases hm : matchOrp s with
    | none => exact fallbackResolve_of_no_match probe s hm
    | some g => exact absurd (wellFormed_of_matchOrp s g hm) hs
  · intro v hv
    exact fallbackResolve_of_not_string probe v hv

theorem not_wellFormed_of_no_match (s : String) (h : matchOrp s = none)
    (hline : ∀ c ∈ s.toList, isLineTerminator c = false) : ¬ WellFormedOrp s := by
  rintro ⟨authority, path, hs, hne, hslash, hpath⟩
  obtain ⟨h1, h2⟩ := split_authority_path authority path hslash hpath
  have hd : dropLiteral "orp://".toList s.toList = some (authority ++ path) := by
    rw [hs, List.append_assoc]
    exact dropLiteral_append _ _
  unfold matchOrp at h
  rw [hd] at h
  simp only [h1, h2, hne, if_false] at h
  rcases hpath with rfl | ⟨rest, rfl⟩
  · cases h
  · have hall : rest.all (fun c => !isLineTerminator c) = true := by
      rw [List.all_eq_true]
      intro c hc
      have := hline c (by rw [hs]; simp [hc])
      simp [this]
    simp only [hall, if_true] at h
    cases h

/-- Witness of C9: the strings `orp://`, `orp:///profile` and `http://x/y` are not of the
required form, and a number is not a string; each yields `null` with no probe, even when
every port would answer. -/
theorem fallbackResolve_fails_closed_witness :
    fallbackResolve (fun _ => ProbeOutcome.ok) (JSVal.str "orp://") = (JSVal.null, []) ∧
      fallbackResolve (fun _ => ProbeOutcome.ok) (JSVal.str "orp:///profile")
        = (JSVal.null, []) ∧
      fallbackResolve (fun _ => ProbeOutcome.ok) (JSVal.str "http://x/y") = (JSVal.null, []) ∧
      fallbackResolve (fun _ => ProbeOutcome.ok) (JSVal.num 42) = (JSVal.null, []) :=
  ⟨(fallbackResolve_fails_closed (fun _ => ProbeOutcome.ok)).1 "orp://"
      (not_wellFormed_of_no_match _ (by decide) (by decide)),
    (fallbackResolve_fails_closed (fun _ => ProbeOutcome.ok)).1 "orp:///profile"
      (not_wellFormed_of_no_match _ (by decide) (by decide)),
    (fallbackResolve_fails_closed (fun _ => ProbeOutcome.ok)).1 "http://x/y"
      (not_wellFormed_of_no_match _ (by decide) (by decide)),
    (fallbackResolve_fails_closed (fun _ => ProbeOutcome.ok)).2 (JSVal.num 42)
      (fun s h => by cases h)⟩

theorem probeLoop_urls (probe : String → ProbeOutcome) (path : String) (ports : List Nat) :
    (∀ url ∈ (probeLoop probe path ports).2, ∃ port ∈ ports, url = testUrl port path) ∧
      ((probeLoop probe path ports).1 = JSVal.null ∨
        ∃ port ∈ ports, (probeLoop probe path ports).1 = JSVal.str (testUrl port path)) := by
  induction ports with
  | nil => simp [probeLoop]
  | cons port rest ih =>
    obtain ⟨ih1, ih2⟩ := ih
    unfold probeLoop
    cases hp : probe (testUrl port path) with
    | ok => simp
    | notOk =>
      refine ⟨?_, ?_⟩
      · intro url hurl
        rcases List.mem_cons.1 hurl with rfl | hmem
        · exact ⟨port, List.mem_cons_self _ _, rfl⟩
        · obtain ⟨q, hq, hqe⟩ := ih1 url hmem
          exact ⟨q, List.mem_cons_of_mem _ hq, hqe⟩
      · rcases ih2 with h | ⟨q, hq, hqe⟩
        · exact Or.inl h
        · exact Or.inr ⟨q, List.mem_cons_of_mem _ hq, hqe⟩
    | thrown =>
      refine ⟨?_, ?_⟩
      · intro url hurl
        rcases List.mem_cons.1 hurl with rfl | hmem
        · exact ⟨port, List.mem_cons_self _ _, rfl⟩
        · obtain ⟨q, hq, hqe⟩ := ih1 url hmem
          exact ⟨q, List.mem_cons_of_mem _ hq, hqe⟩
      · rcases ih2 with h | ⟨q, hq, hqe⟩
        · exact Or.inl h
        · exact Or.inr ⟨q, List.mem_cons_of_mem _ hq, hqe⟩

theorem probeLoop_first_probe (probe : String → ProbeOutcome) (path : String) (port : Nat)
    (rest : List Nat) : (probeLoop probe path (port :: rest)).2.head? = some (testUrl port path) := by
  unfold probeLoop
  cases probe (testUrl port path) <;> rfl

theorem matchOrp_of_split (u : String) (authority path : List Char)
    (hu : u.toList = "orp://".toList ++ authority ++ path) (hne : authority ≠ [])
    (hslash : '/' ∉ authority) (hpath : path = [] ∨ ∃ rest, path = '/' :: rest)
    (hacc : (matchOrp u).isSome = true) :
    matchOrp u = some (String.mk authority, if path = [] then none else some (String.mk path)) := by
  obtain ⟨h1, h2⟩ := split_authority_path authority path hslash hpath
  have hd : dropLiteral "orp://".toList u.toList = some (authority ++ path) := by
    rw [hu, List.append_assoc]
    exact dropLiteral_append _ _
  unfold matchOrp at hacc ⊢
  rw [hd] at hacc ⊢
  simp only [h1, h2, hne, if_false] at hacc ⊢
  rcases hpath with rfl | ⟨rest, rfl⟩
  · rfl
  · by_cases hall : rest.all (fun c => !isLineTerminator c) = true
    · simp only [hall, if_true]
      simp
    · simp only [hall, if_false] at hacc
      cases hacc

/-- C10. Fallback target shape: for a URI `orp://<authority><path>` accepted by the parser
(non-empty authority without `/`, path empty or starting at the first `/` after the
authority), every URL that `fallbackResolve` probes is `"http://localhost:" + port + path`
for a candidate port, the value returned is `null` or such a URL, and the first probe goes to
port 8080; the path is `/` when the URI has none. -/
theorem fallback_target_shape (probe : String → ProbeOutcome) (u : String)
    (authority path : List Char)
    (hu : u.toList = "orp://".toList ++ authority ++ path) (hne : authority ≠ [])
    (hslash : '/' ∉ authority) (hpath : path = [] ∨ ∃ rest, path = '/' :: rest)
    (hacc : (matchOrp u).isSome = true) :
    (∀ url ∈ (fallbackResolve probe (JSVal.str u)).2, ∃ port ∈ standardPorts,
        url = "http://localhost:" ++ toString port
          ++ (if path = [] then "/" else String.mk path)) ∧
      ((fallbackResolve probe (JSVal.str u)).1 = JSVal.null ∨
        ∃ port ∈ standardPorts, (fallbackResolve probe (JSVal.str u)).1
          = JSVal.str ("http://localhost:" ++ toString port
              ++ (if path = [] then "/" else String.mk path))) ∧
      (fallbackResolve probe (JSVal.str u)).2.head?
        = some ("http://localhost:" ++ toString 8080
            ++ (if path = [] then "/" else String.mk path)) := by
  have hm := matchOrp_of_split u authority path hu hne hslash hpath hacc
  have hp : fallbackPath (if path = [] then none else some (String.mk path))
      = if path = [] then "/" else String.mk path := by
    rcases hpath with rfl | ⟨rest, rfl⟩
    · rfl
    · simp [fallbackPath, String.ext_iff]
  rw [fallbackResolve_of_match probe u _ _ hm, hp]
  exact ⟨(probeLoop_urls probe _ standardPorts).1, (probeLoop_urls probe _ standardPorts).2,
    probeLoop_first_probe probe _ 8080 _⟩

/-- Witness of C10: `orp://node-1` has no path; its probes start with
`http://localhost:8080/` and every probe is `http://localhost:<port>/`. -/
theorem fallback_target_shape_witness :
    (fallbackResolve noPort (JSVal.str "orp://node-1")).2.head?
        = some "http://localhost:8080/" ∧
      (fallbackResolve noPort (JSVal.str "orp://node-1")).2
        = ["http://localhost:8080/", "http://localhost:8081/", "http://localhost:8082/",
            "http://localhost:3000/", "http://localhost:5000/"] :=
  ⟨(fallback_target_shape noPort "orp://node-1" "node-1".toList [] (by decide) (by decide)
      (by decide) (Or.inl rfl) (by decide)).2.2.trans (by decide),
    by decide⟩

/-! ## Malformed URIs, the sweep and expired entries -/

/-- C11, counterexample to the claim as stated: with the empty cache and the daemon down,
`resolveOrpUrl("orp://")` issues the daemon request; and when the daemon accepts the request
the call returns the daemon's URL and caches it. The parser of `fallbackResolve` rejects
`orp://`. -/
theorem malformed_uri_network_counterexample :
    matchOrp "orp://" = none ∧
      (resolveOrpUrl (offlineEnv 0) JSMap.empty "orp://").calls = [daemonPost "orp://"] ∧
      (resolveOrpUrl firstEnv JSMap.empty "orp://").value
        = JSVal.str "http://localhost:9001/profile" ∧
      (resolveOrpUrl firstEnv JSMap.empty "orp://").calls = [daemonPost "orp://"] := by
  decide

/-- C11, amended. For `orp://` and for every URI the parser rejects, `resolveOrpUrl` never
issues a probe: every network call it makes is the daemon request, which it does issue
when there is no valid cache entry; and it returns `null` unless the daemon accepts the
request or a valid cache entry exists. -/
theorem malformed_uri_no_probe (env : Env) (cache : Cache) (u : String)
    (hrej : matchOrp u = none) :
    (∀ call ∈ (resolveOrpUrl env cache u).calls, call = daemonPost u) ∧
      (NoValidEntry cache u env.nowLookup →
        (resolveOrpUrl env cache u).calls = [daemonPost u]) ∧
      (NoValidEntry cache u env.nowLookup → daemonAccepts env.daemon = false →
        (resolveOrpUrl env cache u).value = JSVal.null) := by
  have hfb : fallbackResolve env.probe (JSVal.str u) = (JSVal.null, []) :=
    fallbackResolve_of_no_match env.probe u hrej
  rcases resolveOrpUrl_cases env cache u with ⟨e, hget, hfresh, h⟩ | ⟨hv, ha, h⟩ |
    ⟨hv, ha, _, h⟩ | ⟨hv, ha, _, h⟩
  · rw [h]
    refine ⟨by simp, ?_, ?_⟩
    · intro hv; exact absurd hfresh (hv e hget)
    · intro hv; exact absurd hfresh (hv e hget)
  · rw [h]
    simp [ha]
  · rw [h]
    simp [viaFallback, hfb]
  · rw [h]
    simp

/-- Witness of the amended C11: `orp://` with the daemon down and every port answering:
one daemon request, no probe, `null`. -/
theorem malformed_uri_no_probe_witness :
    (resolveOrpUrl ⟨0, 0, DaemonOutcome.networkError, fun _ => ProbeOutcome.ok⟩ JSMap.empty
        "orp://").calls = [daemonPost "orp://"] ∧
      (resolveOrpUrl ⟨0, 0, DaemonOutcome.networkError, fun _ => ProbeOutcome.ok⟩ JSMap.empty
        "orp://").value = JSVal.null :=
  have h := malformed_uri_no_probe ⟨0, 0, DaemonOutcome.networkError, fun _ => ProbeOutcome.ok⟩
    JSMap.empty "orp://" (by decide)
  ⟨h.2.1 (by decide), h.2.2 (by decide) (by decide)⟩

theorem getEntries_eq_none {β : Type} (k : String) (l : List (String × β))
    (hk : k ∉ l.map Prod.fst) : getEntries k l = none := by
  induction l with
  | nil => rfl
  | cons hd tl ih =>
    obtain ⟨k1, v1⟩ := hd
    simp only [List.map_cons, List.mem_cons, not_or] at hk
    simp [getEntries, Ne.symm hk.1, ih hk.2]

theorem getEntries_filter {β : Type} (p : String × β → Bool) (k : String) :
    ∀ (l : List (String × β)), (l.map Prod.fst).Nodup →
      getEntries k (l.filter p) = (getEntries k l).filter (fun v => p (k, v)) := by
  intro l
  induction l with
  | nil => intro _; rfl
  | cons hd tl ih =>
    intro hnd
    obtain ⟨k1, v1⟩ := hd
    simp only [List.map_cons, List.nodup_cons] at hnd
    by_cases hk : k1 = k
    · subst hk
      have hnone : getEntries k1 (tl.filter p) = none :=
        getEntries_eq_none k1 _ (fun hmem =>
          hnd.1 ((List.filter_sublist tl).map Prod.fst |>.subset hmem))
      by_cases hp : p (k1, v1) = true
      · simp [List.filter_cons, hp, getEntries, Option.filter]
      · simp [List.filter_cons, hp, getEntries, Option.filter, hnone]
    · by_cases hp : p (k1, v1) = true
      · simp [List.filter_cons, hp, getEntries, hk, ih hnd.2]
      · simp [List.filter_cons, hp, getEntries, hk, ih hnd.2]

theorem sweepFold_entries (now : Int) :
    ∀ (l : List (String × CacheEntry)) (m : Cache),
      (l.foldl (fun m e => if now - e.2.timestamp > CACHE_TTL then m.delete e.1 else m) m).entries
        = m.entries.filter (fun e =>
            !(l.any (fun d => d.1 == e.1 && decide (now - d.2.timestamp > CACHE_TTL)))) := by
  intro l
  induction l with
  | nil => intro m; simp
  | cons hd tl ih =>
    intro m
    obtain ⟨k, d⟩ := hd
    rw [List.foldl_cons, ih]
    by_cases hexp : now - d.timestamp > CACHE_TTL
    · simp only [hexp, if_true, JSMap.delete, List.filter_filter]
      apply List.filter_congr
      intro e _
      by_cases hke : k = e.1
      · simp [hke, hexp]
      · have hek : e.1 ≠ k := fun h => hke h.symm
        have h1 : (e.1 != k) = true := by simpa using hek
        have h2 : (k == e.1) = false := by simpa using hke
        simp only [List.any_cons, h2, Bool.false_and, Bool.false_or]
        rw [Bool.and_comm, h1, Bool.true_and]
    · simp only [hexp, if_false]
      apply List.filter_congr
      intro e _
      simp [hexp]

/-- The sweep keeps exactly the entries whose age is at most `CACHE_TTL`, in their order. -/
theorem sweep_entries (now : Int) (cache : Cache) :
    (sweep now cache).entries
      = cache.entries.filter (fun e => !decide (now - e.2.timestamp > CACHE_TTL)) := by
  unfold sweep
  rw [sweepFold_entries]
  apply List.filter_congr
  intro e he
  congr 1
  by_cases hexp : now - e.2.timestamp > CACHE_TTL
  · simp only [hexp, decide_True, List.any_eq_true]
    exact ⟨e, he, by simp [hexp]⟩
  · simp only [hexp, decide_False]
    rw [Bool.eq_false_iff]
    intro hany
    rw [List.any_eq_true] at hany
    obtain ⟨d, hd, hcond⟩ := hany
    simp only [Bool.and_eq_true, beq_iff_eq, decide_eq_true_eq] at hcond
    have h1 := JSMap.get_of_mem cache d.1 d.2 hd
    have h2 := JSMap.get_of_mem cache e.1 e.2 he
    rw [hcond.1, h2] at h1
    have h3 : e.2 = d.2 := Option.some.inj h1
    rw [h3] at hexp
    exact hexp hcond.2

theorem sweep_get (now : Int) (cache : Cache) (k : String) :
    (sweep now cache).get k
      = (cache.get k).filter (fun e => !decide (now - e.timestamp > CACHE_TTL)) := by
  unfold JSMap.get
  rw [sweep_entries, getEntries_filter _ k cache.entries cache.nodup]

/-- A cache with two entries: `exampleUri` inserted at `1000` and a second URI inserted at
`200000`. -/
def twoEntryCache : Cache :=
  exampleCache.set "orp://node-2/inbox" ⟨JSVal.str "http://localhost:9002/inbox", 200000⟩

/-- C12. Sweep invariant: after the periodic sweep has run at clock reading `now`, no
stored entry has `now - timestamp > 300000`, every entry with `now - timestamp < 300000` is
still stored with its url and timestamp unchanged, and the sweep stores nothing that was not
stored before. -/
theorem sweep_invariant (now : Int) (cache : Cache) :
    (∀ k e, (sweep now cache).get k = some e → ¬ (now - e.timestamp > 300000)) ∧
      (∀ k e, cache.get k = some e → now - e.timestamp < 300000 →
        (sweep now cache).get k = some e) ∧
      (∀ k e, (sweep now cache).get k = some e → cache.get k = some e) := by
  refine ⟨?_, ?_, ?_⟩
  · intro k e h
    rw [sweep_get, CACHE_TTL_eq] at h
    cases hc : cache.get k with
    | none => simp [hc, Option.filter] at h
    | some e' =>
      simp only [hc, Option.filter] at h
      split at h
      · cases h
        simp_all
      · cases h
  · intro k e h hyoung
    rw [sweep_get, CACHE_TTL_eq, h]
    have hn : ¬ (now - e.timestamp > 300000) := by linarith
    simp [Option.filter, hn]
  · intro k e h
    rw [sweep_get] at h
    cases hc : cache.get k with
    | none => simp [hc, Option.filter] at h
    | some e' =>
      simp only [hc, Option.filter] at h
      split at h
      · exact h
      · cases h

/-- Witness of C12: a sweep at `400000` removes the entry inserted at `1000` (age 399000)
and keeps the entry inserted at `200000` (age 200000) unchanged. -/
theorem sweep_invariant_witness :
    (sweep 400000 twoEntryCache).get exampleUri = none ∧
      (sweep 400000 twoEntryCache).get "orp://node-2/inbox"
        = some ⟨JSVal.str "http://localhost:9002/inbox", 200000⟩ :=
  ⟨by decide,
    (sweep_invariant 400000 twoEntryCache).2.1 "orp://node-2/inbox"
      ⟨JSVal.str "http://localhost:9002/inbox", 200000⟩ (by decide) (by decide)⟩

/-- C13, the code at the failing input: the entry of `exampleCache` was inserted at `1000`;
at clock reading `301000` its age is exactly 300000 ms. The sweep run at `301000` leaves it
stored, while a lookup at the same instant does not treat it as valid: `resolveOrpUrl` does
not leave through the cache and sends the daemon request. -/
theorem sweep_keeps_entry_of_age_ttl :
    (301000 : Int) - 1000 ≥ 300000 ∧
      (sweep 301000 exampleCache).get exampleUri
        = some ⟨JSVal.str "http://localhost:9001/profile", 1000⟩ ∧
      (resolveOrpUrl (offlineEnv 301000) (sweep 301000 exampleCache) exampleUri).exit
        ≠ ExitPoint.cacheHit ∧
      (resolveOrpUrl (offlineEnv 301000) (sweep 301000 exampleCache) exampleUri).calls.head?
        = some (daemonPost exampleUri) := by
  decide

/-- C14, counterexample to the claim as stated: the entry for `exampleUri` is 300000 ms
old at clock reading `301000`; the daemon is down and no port answers, so the fresh resolution
fails with `null`, and after the call the expired entry is still stored. -/
theorem lazy_removal_counterexample :
    exampleCache.get exampleUri = some ⟨JSVal.str "http://localhost:9001/profile", 1000⟩ ∧
      (301000 : Int) - 1000 ≥ 300000 ∧
      (resolveOrpUrl (offlineEnv 301000) exampleCache exampleUri).value = JSVal.null ∧
      (resolveOrpUrl (offlineEnv 301000) exampleCache exampleUri).cache.get exampleUri
        = some ⟨JSVal.str "http://localhost:9001/profile", 1000⟩ := by
  decide

/-- C14, amended. When `resolveOrpUrl(u)` finds the entry for `u` expired, the lookup does
not remove it: if the daemon does not accept the request the cache is left exactly as it was,
the expired entry included; if the daemon accepts, the entry is overwritten by
`{url: resolved_url, timestamp: clock reading at insertion}`. The number of entries is the
same after the call in both cases. -/
theorem expired_entry_kept_by_lookup (env : Env) (cache : Cache) (u : String)
    (e : CacheEntry) (hget : cache.get u = some e)
    (hexpired : env.nowLookup - e.timestamp ≥ 300000) :
    (daemonAccepts env.daemon = false →
        (resolveOrpUrl env cache u).cache = cache ∧
          (resolveOrpUrl env cache u).cache.get u = some e) ∧
      (daemonAccepts env.daemon = true →
        (resolveOrpUrl env cache u).cache.get u
          = some ⟨daemonResolvedUrl env.daemon, env.nowInsert⟩) ∧
      (resolveOrpUrl env cache u).cache.size = cache.size := by
  rcases resolveOrpUrl_cases env cache u with ⟨e', hget', hfresh, _⟩ | ⟨_, ha, h⟩ |
    ⟨_, ha, _, h⟩ | ⟨_, ha, _, h⟩
  · rw [hget] at hget'
    cases hget'
    exact absurd hfresh (by linarith)
  · rw [h]
    refine ⟨by simp [ha], fun _ => JSMap.get_set_self cache u _, ?_⟩
    simp only
    rw [JSMap.size_set, hget]
    rfl
  · rw [h]
    simp [viaFallback, ha, hget]
  · rw [h]
    simp [ha, hget]

/-- Witness of the amended C14: the expired entry survives a failed resolution. -/
theorem expired_entry_kept_by_lookup_witness :
    (resolveOrpUrl (offlineEnv 301000) exampleCache exampleUri).cache = exampleCache ∧
      (resolveOrpUrl (offlineEnv 301000) exampleCache exampleUri).cache.size = 1 :=
  have h := expired_entry_kept_by_lookup (offlineEnv 301000) exampleCache exampleUri
    ⟨JSVal.str "http://localhost:9001/profile", 1000⟩ (by decide) (by decide)
  ⟨(h.1 (by decide)).1, h.2.2.trans (by decide)⟩

/-! ## Exceptions: the pipeline with its `try` blocks made explicit -/

/-- The exceptions that can arise inside the pipeline: a `TypeError` (property read on
`null` or `undefined`, call of something that is not a function), a rejected `fetch`, and
a body that `response.json()` cannot decode. -/
inductive JSError where
  | typeError
  | networkError
  | syntaxError
  deriving DecidableEq, Repr

/-- How a block of code or an `async` function ends: it returns a value (the promise is
fulfilled) or it throws (the promise is rejected). -/
inductive Completion (α : Type) where
  | returned (value : α)
  | thrown (error : JSError)
  deriving DecidableEq, Repr

/-- The body of the outer `try` of `fallbackResolve` (lines 109-136), without its `catch`:
for an argument that is not a string the call `orpUrl.match(...)` throws a `TypeError`
before any probe is issued; the probes of the loop have their own `try` (see `probeLoop`). -/
def fallbackTryBody (probe : String → ProbeOutcome) (orpUrl : JSVal) :
    Completion (JSVal × List String) :=
  match orpUrl with
  | JSVal.str s =>
    match matchOrp s with
    | none => Completion.returned (JSVal.null, [])
    | some (_fortIdentifier, group2) =>
      Completion.returned (probeLoop probe (fallbackPath group2) standardPorts)
  | _ => Completion.thrown JSError.typeError

/-- The function `fallbackResolve` as the `try` body followed by its `catch`
(lines 138-141), which returns `null`. -/
def fallbackResolveRaw (probe : String → ProbeOutcome) (orpUrl : JSVal) :
    Completion (JSVal × List String) :=
  match fallbackTryBody probe orpUrl with
  | Completion.returned r => Completion.returned r
  | Completion.thrown _ => Completion.returned (JSVal.null, [])

/-- The body of the `try` of `resolveOrpUrl` (lines 67-94), without its `catch`, once the
request has been sent: `some url` when line 90 is reached (the url is cached and returned),
`none` for the `return null` of line 94, and the exception otherwise. -/
def daemonTryBody (env : Env) : Completion (Option JSVal) :=
  match env.daemon with
  | DaemonOutcome.networkError => Completion.thrown JSError.networkError
  | DaemonOutcome.response false _ => Completion.returned none
  | DaemonOutcome.response true none => Completion.thrown JSError.syntaxError
  | DaemonOutcome.response true (some result) =>
    match result.getProp "success" with
    | none => Completion.thrown JSError.typeError
    | some success =>
      if success.truthy then
        match result.getProp "resolved_url" with
        | none => Completion.thrown JSError.typeError
        | some resolvedUrl =>
          if resolvedUrl.truthy then Completion.returned (some resolvedUrl)
          else Completion.returned none
      else Completion.returned none

/-- Result of `resolveOrpUrl` for an arbitrary argument: how the promise settles, the
entry passed to `resolutionCache.set(orpUrl, ...)` if line 85 ran, whether the daemon
request was sent, and the URLs probed. -/
structure RawOutcome where
  completion : Completion JSVal
  insert : Option CacheEntry
  posted : Bool
  probes : List String
  deriving DecidableEq, Repr

/-- Lines 67-101 of `resolveOrpUrl` for an arbitrary argument: the `try` body and the
`catch` block, whose `return await fallbackResolve(orpUrl)` would pass on a rejection of
`fallbackResolve`. -/
def afterCacheMissRaw (env : Env) (orpUrl : JSVal) : RawOutcome :=
  match daemonTryBody env with
  | Completion.returned (some resolvedUrl) =>
    ⟨Completion.returned resolvedUrl, some ⟨resolvedUrl, env.nowInsert⟩, true, []⟩
  | Completion.returned none => ⟨Completion.returned JSVal.null, none, true, []⟩
  | Completion.thrown _ =>
    match fallbackResolveRaw env.probe orpUrl with
    | Completion.returned r => ⟨Completion.returned r.1, none, true, r.2⟩
    | Completion.thrown error => ⟨Completion.thrown error, none, true, []⟩

/-- The function `resolveOrpUrl(orpUrl)` for an arbitrary argument, given the result
`cached` of `resolutionCache.get(orpUrl)` (`none` for `undefined`). -/
def resolveOrpUrlRaw (env : Env) (cached : Option CacheEntry) (orpUrl : JSVal) : RawOutcome :=
  match cached with
  | some entry =>
    if env.nowLookup - entry.timestamp < CACHE_TTL then
      ⟨Completion.returned entry.url, none, false, []⟩
    else afterCacheMissRaw env orpUrl
  | none => afterCacheMissRaw env orpUrl

/-- The cache after a call for the string key `u`: line 85 sets the entry, if it ran. -/
def applyInsert (cache : Cache) (u : String) : Option CacheEntry → Cache
  | some entry => cache.set u entry
  | none => cache

/-- The network calls of a call for the string `u`, in order. -/
def rawCalls (u : String) (raw : RawOutcome) : List NetCall :=
  (if raw.posted then [daemonPost u] else []) ++ raw.probes.map NetCall.head

theorem fallbackResolveRaw_eq (probe : String → ProbeOutcome) (v : JSVal) :
    fallbackResolveRaw probe v = Completion.returned (fallbackResolve probe v) := by
  cases v with
  | str s =>
    cases hm : matchOrp s with
    | none => simp [fallbackResolveRaw, fallbackTryBody, fallbackResolve, hm]
    | some g => simp [fallbackResolveRaw, fallbackTryBody, fallbackResolve, hm]
  | _ => rfl

theorem afterCacheMissRaw_eq (env : Env) (cache : Cache) (u : String) :
    (afterCacheMissRaw env (JSVal.str u)).completion
        = Completion.returned (afterCacheMiss env cache u).value ∧
      applyInsert cache u (afterCacheMissRaw env (JSVal.str u)).insert
        = (afterCacheMiss env cache u).cache ∧
      rawCalls u (afterCacheMissRaw env (JSVal.str u)) = (afterCacheMiss env cache u).calls := by
  unfold afterCacheMissRaw daemonTryBody afterCacheMiss
  cases hd : env.daemon with
  | networkError =>
    simp [fallbackResolveRaw_eq, viaFallback, applyInsert, rawCalls]
  | response ok json =>
    cases ok with
    | false => simp [applyInsert, rawCalls]
    | true =>
      cases json with
      | none => simp [fallbackResolveRaw_eq, viaFallback, applyInsert, rawCalls]
      | some body =>
        cases hs : body.getProp "success" with
        | none => simp [hs, fallbackResolveRaw_eq, viaFallback, applyInsert, rawCalls]
        | some success =>
          cases hst : success.truthy with
          | false => simp [hs, hst, applyInsert, rawCalls]
          | true =>
            cases hr : body.getProp "resolved_url" with
            | none => simp [hs, hst, hr, fallbackResolveRaw_eq, viaFallback, applyInsert, rawCalls]
            | some resolvedUrl =>
              cases hrt : resolvedUrl.truthy with
              | false => simp [hs, hst, hr, hrt, applyInsert, rawCalls]
              | true => simp [hs, hst, hr, hrt, applyInsert, rawCalls]

theorem resolveOrpUrlRaw_eq (env : Env) (cache : Cache) (u : String) :
    (resolveOrpUrlRaw env (cache.get u) (JSVal.str u)).completion
        = Completion.returned (resolveOrpUrl env cache u).value ∧
      applyInsert cache u (resolveOrpUrlRaw env (cache.get u) (JSVal.str u)).insert
        = (resolveOrpUrl env cache u).cache ∧
      rawCalls u (resolveOrpUrlRaw env (cache.get u) (JSVal.str u))
        = (resolveOrpUrl env cache u).calls := by
  unfold resolveOrpUrlRaw resolveOrpUrl
  cases hget : cache.get u with
  | none => exact afterCacheMissRaw_eq env cache u
  | some entry =>
    by_cases hfresh : env.nowLookup - entry.timestamp < CACHE_TTL
    · simp [hfresh, applyInsert, rawCalls]
    · simp only [hfresh, if_false]
      exact afterCacheMissRaw_eq env cache u

/-! ## The message listener and the network-layer handler -/

/-- What the handlers use from the browser: `chrome.runtime.getURL`, the global
`encodeURIComponent` (applied to well-formed strings only, where it does not throw) and the
`message` of a caught error. -/
structure Browser where
  getURL : String → String
  encodeURIComponent : String → String
  errorMessage : JSError → String

/-- The argument of one `sendResponse` call of the message listener: line 151
`{ success: true, resolvedUrl }`, line 154 `{ success: false, error }`, lines 162-170 the
statistics, line 175 `{ success: true }`. -/
inductive Response where
  | resolved (resolvedUrl : JSVal)
  | failed (error : String)
  | stats (s : StatsResponse)
  | cleared
  deriving DecidableEq, Repr

/-- One record of the statistics as the object literal of lines 164-169. -/
def StatsEntry.toJS (e : StatsEntry) : JSVal :=
  JSVal.obj [("url", JSVal.str e.url), ("resolvedUrl", e.resolvedUrl),
    ("timestamp", JSVal.num e.timestamp), ("age", JSVal.num e.age)]

/-- The response as the object literal written in the source. -/
def Response.toJS : Response → JSVal
  | Response.resolved resolvedUrl =>
    JSVal.obj [("success", JSVal.bool true), ("resolvedUrl", resolvedUrl)]
  | Response.failed error =>
    JSVal.obj [("success", JSVal.bool false), ("error", JSVal.str error)]
  | Response.stats s =>
    JSVal.obj [("cacheSize", JSVal.num s.cacheSize),
      ("entries", JSVal.arr (s.entries.map StatsEntry.toJS))]
  | Response.cleared => JSVal.obj [("success", JSVal.bool true)]

/-- A message received by the listener: `message.type` and `message.url`. The content script,
the only sender of `RESOLVE_ORP_URL`, passes the `href` of an anchor, a string. -/
structure Message where
  type : JSVal
  url : String

/-- What one run of the message listener does: the `sendResponse` calls in order (for
`RESOLVE_ORP_URL` the call happens when the resolution has completed), whether the listener
returned `true`, the cache afterwards and the network calls. -/
structure ListenerOutcome where
  responses : List Response
  returnedTrue : Bool
  cache : Cache
  calls : List NetCall

/-- The listener of `chrome.runtime.onMessage` (lines 147-177); `clock` gives the readings of
`Date.now()` used for the statistics. The three `if` statements are run in sequence; the
first one ends with `return true`. -/
def onMessage (b : Browser) (clock : Nat → Int) (env : Env) (cache : Cache)
    (message : Message) : ListenerOutcome :=
  if message.type = JSVal.str "RESOLVE_ORP_URL" then
    ⟨[match (resolveOrpUrlRaw env (cache.get message.url) (JSVal.str message.url)).completion with
        | Completion.returned resolvedUrl => Response.resolved resolvedUrl
        | Completion.thrown error => Response.failed (b.errorMessage error)],
      true,
      applyInsert cache message.url
        (resolveOrpUrlRaw env (cache.get message.url) (JSVal.str message.url)).insert,
      rawCalls message.url
        (resolveOrpUrlRaw env (cache.get message.url) (JSVal.str message.url))⟩
  else
    ⟨(if message.type = JSVal.str "GET_CACHE_STATS" then
          [Response.stats (getCacheStats clock cache)] else [])
        ++ (if message.type = JSVal.str "CLEAR_CACHE" then [Response.cleared] else []),
      false,
      if message.type = JSVal.str "CLEAR_CACHE" then cache.clear else cache,
      []⟩

/-- The `return` statement through which the `onBeforeRequest` listener left: line 34
(redirect to the resolved URL), line 37 (error page with `?url=`), line 44 (error page with
`?error=`, in the `catch`), line 51 (`{}`). -/
inductive HandlerExit where
  | redirected
  | errorPageUrl
  | errorPageException
  | passThrough
  deriving DecidableEq, Repr

/-- What one run of the `onBeforeRequest` listener does: the `redirectUrl` of the object it
returns (`none` for `{}`), the `return` taken, the cache afterwards and the network calls. -/
structure RequestOutcome where
  redirectUrl : Option JSVal
  exit : HandlerExit
  cache : Cache
  calls : List NetCall

/-- The test `url.startsWith('orp://')`. -/
def startsWithOrp (url : String) : Bool :=
  (dropLiteral "orp://".toList url.toList).isSome

/-- The listener of `chrome.webRequest.onBeforeRequest` (lines 19-52) for a request to
`url`. -/
def onBeforeRequest (b : Browser) (env : Env) (cache : Cache) (url : String) :
    RequestOutcome :=
  if startsWithOrp url then
    match (resolveOrpUrlRaw env (cache.get url) (JSVal.str url)).completion with
    | Completion.returned resolvedUrl =>
      if resolvedUrl.truthy then
        ⟨some resolvedUrl, HandlerExit.redirected,
          applyInsert cache url (resolveOrpUrlRaw env (cache.get url) (JSVal.str url)).insert,
          rawCalls url (resolveOrpUrlRaw env (cache.get url) (JSVal.str url))⟩
      else
        ⟨some (JSVal.str (b.getURL "error.html" ++ "?url=" ++ b.encodeURIComponent url)),
          HandlerExit.errorPageUrl,
          applyInsert cache url (resolveOrpUrlRaw env (cache.get url) (JSVal.str url)).insert,
          rawCalls url (resolveOrpUrlRaw env (cache.get url) (JSVal.str url))⟩
    | Completion.thrown error =>
      ⟨some (JSVal.str (b.getURL "error.html" ++ "?error="
          ++ b.encodeURIComponent (b.errorMessage error))),
        HandlerExit.errorPageException,
        applyInsert cache url (resolveOrpUrlRaw env (cache.get url) (JSVal.str url)).insert,
        rawCalls url (resolveOrpUrlRaw env (cache.get url) (JSVal.str url))⟩
  else ⟨none, HandlerExit.passThrough, cache, []⟩

/-- UTF-8 bytes of a character. -/
def utf8Bytes (c : Char) : List Nat :=
  if c.toNat < 0x80 then [c.toNat]
  else if c.toNat < 0x800 then [0xC0 + c.toNat / 64, 0x80 + c.toNat % 64]
  else if c.toNat < 0x10000 then
    [0xE0 + c.toNat / 4096, 0x80 + c.toNat / 64 % 64, 0x80 + c.toNat % 64]
  else
    [0xF0 + c.toNat / 262144, 0x80 + c.toNat / 4096 % 64, 0x80 + c.toNat / 64 % 64,
      0x80 + c.toNat % 64]

/-- The upper-case hexadecimal digit of a number below 16. -/
def hexDigit (n : Nat) : Char :=
  if n < 10 then Char.ofNat (48 + n) else Char.ofNat (55 + n)

/-- The characters `encodeURIComponent` leaves as they are: letters, digits and
`- _ . ! ~ * ' ( )`. -/
def isUriUnescaped (c : Char) : Bool :=
  (65 ≤ c.toNat && c.toNat ≤ 90) || (97 ≤ c.toNat && c.toNat ≤ 122)
    || (48 ≤ c.toNat && c.toNat ≤ 57)
    || c.toNat ∈ [45, 95, 46, 33, 126, 42, 39, 40, 41]

/-- The function `encodeURIComponent` of ECMAScript on a well-formed string: every other
character becomes `%XX` for each of its UTF-8 bytes. -/
def percentEncode (s : String) : String :=
  String.mk (s.toList.flatMap (fun c =>
    if isUriUnescaped c then [c]
    else (utf8Bytes c).flatMap (fun byte => ['%', hexDigit (byte / 16), hexDigit (byte % 16)])))

/-- A browser for the examples: extension id `openred`. -/
def exampleBrowser : Browser :=
  ⟨fun path => "chrome-extension://openred/" ++ path, percentEncode, fun _ => "Failed to fetch"⟩

/-- The message `{type: "RESOLVE_ORP_URL", url}`. -/
def resolveMessage (url : String) : Message := ⟨JSVal.str "RESOLVE_ORP_URL", url⟩

/-- The message `{type: "GET_CACHE_STATS"}`; the listener does not read `url`. -/
def statsMessage : Message := ⟨JSVal.str "GET_CACHE_STATS", ""⟩

/-- The message `{type: "CLEAR_CACHE"}`; the listener does not read `url`. -/
def clearMessage : Message := ⟨JSVal.str "CLEAR_CACHE", ""⟩

/-! ## Facts about the listeners -/

theorem onMessage_resolve (b : Browser) (clock : Nat → Int) (env : Env) (cache : Cache)
    (url : String) :
    (onMessage b clock env cache (resolveMessage url)).responses
        = [Response.resolved (resolveOrpUrl env cache url).value] ∧
      (onMessage b clock env cache (resolveMessage url)).returnedTrue = true ∧
      (onMessage b clock env cache (resolveMessage url)).cache
        = (resolveOrpUrl env cache url).cache ∧
      (onMessage b clock env cache (resolveMessage url)).calls
        = (resolveOrpUrl env cache url).calls := by
  obtain ⟨h1, h2, h3⟩ := resolveOrpUrlRaw_eq env cache url
  simp [onMessage, resolveMessage, h1, h2, h3]

theorem onMessage_stats (b : Browser) (clock : Nat → Int) (env : Env) (cache : Cache) :
    (onMessage b clock env cache statsMessage).responses
        = [Response.stats (getCacheStats clock cache)] ∧
      (onMessage b clock env cache statsMessage).returnedTrue = false ∧
      (onMessage b clock env cache statsMessage).cache = cache ∧
      (onMessage b clock env cache statsMessage).calls = [] := by
  simp [onMessage, statsMessage]

theorem onMessage_clear (b : Browser) (clock : Nat → Int) (env : Env) (cache : Cache) :
    (onMessage b clock env cache clearMessage).responses = [Response.cleared] ∧
      (onMessage b clock env cache clearMessage).returnedTrue = false ∧
      (onMessage b clock env cache clearMessage).cache = JSMap.empty ∧
      (onMessage b clock env cache clearMessage).calls = [] := by
  simp [onMessage, clearMessage, JSMap.clear]

/-- The events of `step` are the effects of the listener and of the pipeline on the
cache. -/
theorem step_eq_listener (b : Browser) (clock : Nat → Int) (env : Env) (cache : Cache)
    (url : String) :
    step cache (Event.resolve env url) = (onMessage b clock env cache (resolveMessage url)).cache ∧
      step cache (Event.getCacheStats clock) = (onMessage b clock env cache statsMessage).cache ∧
      step cache Event.clearCache = (onMessage b clock env cache clearMessage).cache := by
  refine ⟨(onMessage_resolve b clock env cache url).2.2.1.symm,
    (onMessage_stats b clock env cache).2.2.1.symm, ?_⟩
  rw [(onMessage_clear b clock env cache).2.2.1]
  rfl

theorem onBeforeRequest_of_orp (b : Browser) (env : Env) (cache : Cache) (url : String)
    (horp : startsWithOrp url = true) :
    onBeforeRequest b env cache url =
      if (resolveOrpUrl env cache url).value.truthy then
        ⟨some (resolveOrpUrl env cache url).value, HandlerExit.redirected,
          (resolveOrpUrl env cache url).cache, (resolveOrpUrl env cache url).calls⟩
      else
        ⟨some (JSVal.str (b.getURL "error.html" ++ "?url=" ++ b.encodeURIComponent url)),
          HandlerExit.errorPageUrl,
          (resolveOrpUrl env cache url).cache, (resolveOrpUrl env cache url).calls⟩ := by
  obtain ⟨h1, h2, h3⟩ := resolveOrpUrlRaw_eq env cache url
  simp only [onBeforeRequest, horp, if_true, h1, h2, h3]

theorem resolveOrpUrl_of_empty (env : Env) (u : String) :
    (resolveOrpUrl env JSMap.empty u).exit ≠ ExitPoint.cacheHit ∧
      (resolveOrpUrl env JSMap.empty u).calls.head? = some (daemonPost u) := by
  rcases resolveOrpUrl_cases env JSMap.empty u with ⟨e, hget, _, _⟩ | ⟨_, _, h⟩ |
    ⟨_, _, _, h⟩ | ⟨_, _, _, h⟩
  · cases hget
  · rw [h]; simp
  · rw [h]; simp [viaFallback]
  · rw [h]; simp

theorem enumFrom_map_snd {α β : Type} (f : α → β) (l : List α) :
    ∀ n : Nat, (l.enumFrom n).map (fun ie => f ie.2) = l.map f := by
  induction l with
  | nil => intro n; rfl
  | cons hd tl ih => intro n; simp [List.enumFrom, ih]

theorem getCacheStats_constant_clock (now : Int) (cache : Cache) :
    getCacheStats (fun _ => now) cache
      = ⟨cache.entries.length,
          cache.entries.map (fun e => ⟨e.1, e.2.url, e.2.timestamp, now - e.2.timestamp⟩)⟩ := by
  unfold getCacheStats JSMap.size List.enum
  rw [← enumFrom_map_snd
    (fun e : String × CacheEntry =>
      (⟨e.1, e.2.url, e.2.timestamp, now - e.2.timestamp⟩ : StatsEntry)) cache.entries 0]

theorem JSMap.mem_of_get {β : Type} (m : JSMap β) (k : String) (v : β)
    (hget : m.get k = some v) : (k, v) ∈ m.entries := by
  obtain ⟨l, hl⟩ := m
  simp only [JSMap.get] at hget
  show (k, v) ∈ l
  clear hl
  induction l with
  | nil => simp [getEntries] at hget
  | cons hd tl ih =>
    obtain ⟨k1, v1⟩ := hd
    by_cases hk : k1 = k
    · subst hk
      simp only [getEntries, if_true, Option.some.injEq] at hget
      subst hget
      exact List.mem_cons_self _ _
    · simp only [getEntries, hk, if_false] at hget
      exact List.mem_cons_of_mem _ (ih hget)

theorem afterCacheMissRaw_completion (env : Env) (orpUrl : JSVal) :
    ∃ v, (afterCacheMissRaw env orpUrl).completion = Completion.returned v ∧
      (v = JSVal.null ∨ v = daemonResolvedUrl env.daemon ∨
        v = (fallbackResolve env.probe orpUrl).1) := by
  unfold afterCacheMissRaw daemonTryBody
  cases hd : env.daemon with
  | networkError => simp [fallbackResolveRaw_eq]
  | response ok json =>
    cases ok with
    | false => simp
    | true =>
      cases json with
      | none => simp [fallbackResolveRaw_eq]
      | some body =>
        cases hs : body.getProp "success" with
        | none => simp [hs, fallbackResolveRaw_eq]
        | some success =>
          cases hst : success.truthy with
          | false => simp [hs, hst]
          | true =>
            cases hr : body.getProp "resolved_url" with
            | none => simp [hs, hst, hr, fallbackResolveRaw_eq]
            | some resolvedUrl =>
              cases hrt : resolvedUrl.truthy with
              | false => simp [hs, hst, hr, hrt]
              | true => simp [hs, hst, hr, hrt, daemonResolvedUrl]

theorem resolveOrpUrlRaw_completion (env : Env) (cached : Option CacheEntry) (orpUrl : JSVal) :
    ∃ v, (resolveOrpUrlRaw env cached orpUrl).completion = Completion.returned v ∧
      (v = JSVal.null ∨ (∃ entry, cached = some entry ∧ v = entry.url) ∨
        v = daemonResolvedUrl env.daemon ∨ v = (fallbackResolve env.probe orpUrl).1) := by
  have hmiss : ∃ v, (afterCacheMissRaw env orpUrl).completion = Completion.returned v ∧
      (v = JSVal.null ∨ (∃ entry, cached = some entry ∧ v = entry.url) ∨
        v = daemonResolvedUrl env.daemon ∨ v = (fallbackResolve env.probe orpUrl).1) := by
    obtain ⟨v, hv, h⟩ := afterCacheMissRaw_completion env orpUrl
    exact ⟨v, hv, by tauto⟩
  unfold resolveOrpUrlRaw
  cases cached with
  | none => exact hmiss
  | some entry =>
    by_cases hfresh : env.nowLookup - entry.timestamp < CACHE_TTL
    · simp only [hfresh, if_true]
      exact ⟨entry.url, rfl, Or.inr (Or.inl ⟨entry, rfl, rfl⟩)⟩
    · simp only [hfresh, if_false]
      exact hmiss

/-! ## Claims about the listeners -/

/-- C15, the code at the failing input: the daemon answers 500 for `exampleUri` and the
cache is empty, so the pipeline returns `null`; the listener nevertheless answers the
`RESOLVE_ORP_URL` message with `{ success: true, resolvedUrl: null }`: success is reported,
no URL is present and no error is carried. -/
theorem resolve_response_success_without_url :
    (resolveOrpUrl status500Env JSMap.empty exampleUri).value = JSVal.null ∧
      (onMessage exampleBrowser (fun _ => 0) status500Env JSMap.empty
          (resolveMessage exampleUri)).responses = [Response.resolved JSVal.null] ∧
      (Response.resolved JSVal.null).toJS
        = JSVal.obj [("success", JSVal.bool true), ("resolvedUrl", JSVal.null)] := by
  decide

/-- C16. Exactly one response per request: for every `RESOLVE_ORP_URL` message and every
outcome of the resolution, the listener calls `sendResponse` exactly once, with the result
of the pipeline, and returns `true`; it does not go on to the `GET_CACHE_STATS` and
`CLEAR_CACHE` branches: no statistics and no acknowledgement are sent and the cache is the
one the resolution left. -/
theorem resolve_message_one_response (b : Browser) (clock : Nat → Int) (env : Env)
    (cache : Cache) (url : String) :
    (onMessage b clock env cache (resolveMessage url)).responses.length = 1 ∧
      (onMessage b clock env cache (resolveMessage url)).responses
        = [Response.resolved (resolveOrpUrl env cache url).value] ∧
      (onMessage b clock env cache (resolveMessage url)).returnedTrue = true ∧
      (∀ r ∈ (onMessage b clock env cache (resolveMessage url)).responses,
        r ≠ Response.cleared ∧ ∀ s, r ≠ Response.stats s) ∧
      (onMessage b clock env cache (resolveMessage url)).cache
        = (resolveOrpUrl env cache url).cache := by
  obtain ⟨h1, h2, h3, _⟩ := onMessage_resolve b clock env cache url
  rw [h1, h2, h3]
  refine ⟨rfl, rfl, rfl, ?_, rfl⟩
  intro r hr
  rw [List.mem_singleton] at hr
  subst hr
  constructor
  · intro h
    cases h
  · intro s h
    cases h

/-- C17. The network-layer handler answers with exactly one redirect: for a request whose
URL starts with `orp://`, the returned object has a `redirectUrl`, equal to the pipeline's
result when that is a URL (truthy) and otherwise to the bundled error page URL followed by
`?url=` and `encodeURIComponent` of the original URI; the empty pass-through object is never
returned for such a URL. -/
theorem network_handler_one_redirect (b : Browser) (env : Env) (cache : Cache) (url : String)
    (horp : startsWithOrp url = true) :
    ((resolveOrpUrl env cache url).value.truthy = true →
        (onBeforeRequest b env cache url).redirectUrl = some (resolveOrpUrl env cache url).value) ∧
      ((resolveOrpUrl env cache url).value.truthy = false →
        (onBeforeRequest b env cache url).redirectUrl
          = some (JSVal.str (b.getURL "error.html" ++ "?url=" ++ b.encodeURIComponent url))) ∧
      (onBeforeRequest b env cache url).redirectUrl ≠ none ∧
      (onBeforeRequest b env cache url).exit ≠ HandlerExit.passThrough := by
  rw [onBeforeRequest_of_orp b env cache url horp]
  cases (resolveOrpUrl env cache url).value.truthy <;> simp

/-- Witness of C17: the daemon resolves `orp://node-1/profile`, and the handler redirects
to the resolved URL; the daemon answers 500, and the handler redirects to the error page
with the encoded original URI. -/
theorem network_handler_one_redirect_witness :
    (onBeforeRequest exampleBrowser firstEnv JSMap.empty "orp://node-1/profile").redirectUrl
        = some (JSVal.str "http://localhost:9001/profile") ∧
      (onBeforeRequest exampleBrowser status500Env JSMap.empty
          "orp://node-1/profile").redirectUrl
        = some (JSVal.str
            "chrome-extension://openred/error.html?url=orp%3A%2F%2Fnode-1%2Fprofile") :=
  ⟨((network_handler_one_redirect exampleBrowser firstEnv JSMap.empty "orp://node-1/profile"
      (by decide)).1 (by decide)).trans (by decide),
    ((network_handler_one_redirect exampleBrowser status500Env JSMap.empty
      "orp://node-1/profile" (by decide)).2.1 (by decide)).trans (by decide)⟩

/-- C18. No exception escapes the pipeline: for every argument (strings of any shape and
values that are not strings), every result of the cache lookup and every behaviour of the
network, the promise of `resolveOrpUrl` is fulfilled, never rejected, with `null`, a cached
url, the daemon's `resolved_url` or the prober's result, and `fallbackResolve` is fulfilled
as well; hence the message listener never sends the `{ success: false, error }` response of
its `catch` and the network-layer handler never leaves through its `catch`. -/
theorem no_exception_escapes (env : Env) (cached : Option CacheEntry) (orpUrl : JSVal) :
    (∃ v, (resolveOrpUrlRaw env cached orpUrl).completion = Completion.returned v ∧
        (v = JSVal.null ∨ (∃ entry, cached = some entry ∧ v = entry.url) ∨
          v = daemonResolvedUrl env.daemon ∨ v = (fallbackResolve env.probe orpUrl).1)) ∧
      (∃ r, fallbackResolveRaw env.probe orpUrl = Completion.returned r) ∧
      (∀ (b : Browser) (clock : Nat → Int) (cache : Cache) (message : Message),
        ∀ r ∈ (onMessage b clock env cache message).responses,
          ∀ error, r ≠ Response.failed error) ∧
      (∀ (b : Browser) (cache : Cache) (url : String),
        (onBeforeRequest b env cache url).exit ≠ HandlerExit.errorPageException) := by
  refine ⟨resolveOrpUrlRaw_completion env cached orpUrl,
    ⟨_, fallbackResolveRaw_eq env.probe orpUrl⟩, ?_, ?_⟩
  · intro b clock cache message r hr error
    obtain ⟨v, hv, _⟩ :=
      resolveOrpUrlRaw_completion env (cache.get message.url) (JSVal.str message.url)
    unfold onMessage at hr
    by_cases ht : message.type = JSVal.str "RESOLVE_ORP_URL"
    · simp only [ht, if_true, hv, List.mem_singleton] at hr
      subst hr
      intro h
      cases h
    · simp only [ht, if_false, List.mem_append] at hr
      rcases hr with hr | hr
      · split at hr
        · rw [List.mem_singleton] at hr
          subst hr
          intro h
          cases h
        · cases hr
      · split at hr
        · rw [List.mem_singleton] at hr
          subst hr
          intro h
          cases h
        · cases hr
  · intro b cache url
    obtain ⟨v, hv, _⟩ := resolveOrpUrlRaw_completion env (cache.get url) (JSVal.str url)
    unfold onBeforeRequest
    by_cases horp : startsWithOrp url = true
    · simp only [horp, if_true, hv]
      split <;> simp
    · simp [horp]

/-- C19. `GET_CACHE_STATS` is a faithful snapshot: when the clock reads `now` while the
response is built, the listener sends one response whose `cacheSize` is the number of stored
entries (expired ones included) and whose `entries` list has that length and holds, in
storage order, the record `{url: key, resolvedUrl: entry url, timestamp: entry timestamp,
age: now - timestamp}` of each stored key; the cache is unchanged. -/
theorem get_cache_stats_snapshot (b : Browser) (env : Env) (cache : Cache) (now : Int) :
    (onMessage b (fun _ => now) env cache statsMessage).responses
        = [Response.stats (getCacheStats (fun _ => now) cache)] ∧
      (getCacheStats (fun _ => now) cache).cacheSize = cache.entries.length ∧
      (getCacheStats (fun _ => now) cache).entries.length = cache.entries.length ∧
      (getCacheStats (fun _ => now) cache).entries
        = cache.entries.map (fun e => ⟨e.1, e.2.url, e.2.timestamp, now - e.2.timestamp⟩) ∧
      (∀ k e, cache.get k = some e →
        (⟨k, e.url, e.timestamp, now - e.timestamp⟩ : StatsEntry)
          ∈ (getCacheStats (fun _ => now) cache).entries) ∧
      (∀ record ∈ (getCacheStats (fun _ => now) cache).entries,
        ∃ e, cache.get record.url = some e ∧
          record = ⟨record.url, e.url, e.timestamp, now - e.timestamp⟩) ∧
      (onMessage b (fun _ => now) env cache statsMessage).cache = cache := by
  rw [getCacheStats_constant_clock]
  refine ⟨(onMessage_stats b _ env cache).1.trans (by rw [getCacheStats_constant_clock]),
    rfl, by simp, rfl, ?_, ?_, (onMessage_stats b _ env cache).2.2.1⟩
  · intro k e hget
    exact List.mem_map.2 ⟨(k, e), JSMap.mem_of_get cache k e hget, rfl⟩
  · intro record hrec
    obtain ⟨⟨k, e⟩, hmem, rfl⟩ := List.mem_map.1 hrec
    exact ⟨e, JSMap.get_of_mem cache k e hmem, rfl⟩

/-- Witness of C19: the two-entry cache read at `400000`: two records, in storage order,
with ages 399000 and 200000; the first entry is expired and still listed. -/
theorem get_cache_stats_snapshot_witness :
    (⟨"orp://node-1/profile", JSVal.str "http://localhost:9001/profile", 1000, 399000⟩ :
        StatsEntry) ∈ (getCacheStats (fun _ => 400000) twoEntryCache).entries ∧
      getCacheStats (fun _ => 400000) twoEntryCache
        = ⟨2, [⟨"orp://node-1/profile", JSVal.str "http://localhost:9001/profile", 1000, 399000⟩,
            ⟨"orp://node-2/inbox", JSVal.str "http://localhost:9002/inbox", 200000, 200000⟩]⟩ :=
  ⟨(get_cache_stats_snapshot exampleBrowser firstEnv twoEntryCache 400000).2.2.2.2.1
      "orp://node-1/profile" ⟨JSVal.str "http://localhost:9001/profile", 1000⟩ (by decide),
    by decide⟩

/-- C20. `CLEAR_CACHE` empties the cache: after the message the cache has zero entries and
the one response sent is `{ success: true }`; a `GET_CACHE_STATS` handled next reports
`cacheSize` 0 and an empty `entries` list, and the next `resolveOrpUrl` of any URI does
not leave through the cache and starts with the daemon request. -/
theorem clear_cache_empties (b : Browser) (clock : Nat → Int) (env : Env) (cache : Cache) :
    (onMessage b clock env cache clearMessage).cache.size = 0 ∧
      (onMessage b clock env cache clearMessage).responses = [Response.cleared] ∧
      Response.cleared.toJS = JSVal.obj [("success", JSVal.bool true)] ∧
      (∀ (clock2 : Nat → Int) (env2 : Env),
        (onMessage b clock2 env2 (onMessage b clock env cache clearMessage).cache
            statsMessage).responses = [Response.stats ⟨0, []⟩]) ∧
      (∀ (env2 : Env) (u : String),
        (resolveOrpUrl env2 (onMessage b clock env cache clearMessage).cache u).exit
            ≠ ExitPoint.cacheHit ∧
          (resolveOrpUrl env2 (onMessage b clock env cache clearMessage).cache u).calls.head?
            = some (daemonPost u)) := by
  obtain ⟨h1, _, h3, _⟩ := onMessage_clear b clock env cache
  rw [h1, h3]
  refine ⟨rfl, rfl, rfl, ?_, fun env2 u => resolveOrpUrl_of_empty env2 u⟩
  intro clock2 env2
  rw [(onMessage_stats b clock2 env2 JSMap.empty).1]
  rfl

/-! ## Stage order, cache contents and the authority -/

theorem probeLoop_probes_take (probe : String → ProbeOutcome) (path : String) :
    ∀ ports : List Nat, ∃ n, n ≤ ports.length ∧ (ports ≠ [] → 1 ≤ n) ∧
      (probeLoop probe path ports).2 = (ports.take n).map (fun p => testUrl p path) := by
  intro ports
  induction ports with
  | nil => exact ⟨0, le_refl _, fun h => absurd rfl h, rfl⟩
  | cons port rest ih =>
    obtain ⟨n, hn, _, hprobes⟩ := ih
    unfold probeLoop
    cases probe (testUrl port path) with
    | ok => exact ⟨1, by simp, fun _ => le_refl _, by simp⟩
    | notOk =>
      exact ⟨n + 1, by simpa using hn, fun _ => by omega, by simp [hprobes]⟩
    | thrown =>
      exact ⟨n + 1, by simpa using hn, fun _ => by omega, by simp [hprobes]⟩

/-- Stage order when every request settles (an `Env` gives each request an outcome): the
network calls of one `resolveOrpUrl` invocation are none at all, or the single daemon
`POST`, or the daemon `POST` followed by the `HEAD` probes of the first `n` candidate ports
8080, 8081, 8082, 3000, 5000 in that order, with `1 ≤ n ≤ 5`; probes occur only when the
daemon call has failed by throwing. There are at most six calls and the daemon call can
only be the first. -/
theorem stage_order_bounded (env : Env) (cache : Cache) (u : String) :
    ((resolveOrpUrl env cache u).calls = [] ∨
        (resolveOrpUrl env cache u).calls = [daemonPost u] ∨
        ∃ (n : Nat) (path : String), 1 ≤ n ∧ n ≤ 5 ∧
          (resolveOrpUrl env cache u).calls
            = daemonPost u ::
                ([8080, 8081, 8082, 3000, 5000].take n).map
                  (fun port => NetCall.head (testUrl port path)) ∧
          daemonAccepts env.daemon = false ∧ daemonThrows env.daemon = true) ∧
      (resolveOrpUrl env cache u).calls.length ≤ 6 ∧
      (∀ call ∈ (resolveOrpUrl env cache u).calls.tail, ∃ url, call = NetCall.head url) := by
  rcases resolveOrpUrl_cases env cache u with ⟨e, _, _, h⟩ | ⟨_, _, h⟩ | ⟨_, ha, ht, h⟩ |
    ⟨_, _, _, h⟩
  · rw [h]; simp
  · rw [h]; simp
  · rw [h, viaFallback_calls]
    cases hm : matchOrp u with
    | none =>
      rw [fallbackResolve_of_no_match env.probe u hm]
      simp
    | some g =>
      obtain ⟨auth, group2⟩ := g
      rw [fallbackResolve_of_match env.probe u auth group2 hm]
      obtain ⟨n, hn, hpos, hprobes⟩ :=
        probeLoop_probes_take env.probe (fallbackPath group2) standardPorts
      have hn5 : n ≤ 5 := hn
      have h1 : 1 ≤ n := hpos (by decide)
      rw [hprobes]
      refine ⟨Or.inr (Or.inr ⟨n, fallbackPath group2, h1, hn5, ?_, ha, ht⟩), ?_, ?_⟩
      · simp [standardPorts, List.map_map, Function.comp_def]
      · simp only [List.length_cons, List.length_map, List.length_take]
        have : min n standardPorts.length ≤ 5 := le_trans (min_le_left _ _) hn5
        omega
      · intro call hcall
        simp only [List.tail_cons, List.mem_map] at hcall
        obtain ⟨url, _, rfl⟩ := hcall
        exact ⟨url, rfl⟩
  · rw [h]; simp

/-! ## Requests that never settle -/

/-- A promise awaited by the pipeline: it settles with an outcome, or it stays pending for
ever. `fetch` has no time limit of its own and `timeout` is not one of its options, so the
member `timeout: 2000` of line 124 bounds nothing, and the `POST` of line 69 names no limit
at all. -/
inductive Awaited (α : Type) where
  | settles (outcome : α)
  | pending
  deriving DecidableEq, Repr

/-- The daemon exchange with its two awaits: `await fetch(...)` of line 69 stays pending, or
it resolves with an OK response whose `await response.json()` of line 81 stays pending, or
both settle the way a `DaemonOutcome` describes. -/
inductive DaemonAwaited where
  | fetchPending
  | jsonPending
  | settles (outcome : DaemonOutcome)
  deriving DecidableEq, Repr

/-- The environment of one invocation when a request may stay unanswered: the two clock
readings, the daemon exchange and the behaviour of a `HEAD` request to each URL. -/
structure AwaitEnv where
  nowLookup : Int
  nowInsert : Int
  daemon : DaemonAwaited
  probe : String → Awaited ProbeOutcome

/-- An environment in which every request settles. -/
def AwaitEnv.ofEnv (env : Env) : AwaitEnv :=
  ⟨env.nowLookup, env.nowInsert, DaemonAwaited.settles env.daemon,
    fun url => Awaited.settles (env.probe url)⟩

/-- How far one call of `resolveOrpUrl` gets: its promise settles with an outcome, or the
function stays suspended at an `await`, having issued the listed network calls. -/
inductive Invocation where
  | returns (outcome : Outcome)
  | pending (calls : List NetCall)

/-- The network calls issued, in order. -/
def Invocation.calls : Invocation → List NetCall
  | Invocation.returns outcome => outcome.calls
  | Invocation.pending calls => calls

/-- The outcome, when the promise of `resolveOrpUrl` settles. -/
def Invocation.outcome : Invocation → Option Outcome
  | Invocation.returns outcome => some outcome
  | Invocation.pending _ => none

/-- The loop of `fallbackResolve` when a `HEAD` request may stay unanswered: the value
returned (`none` when the loop stays suspended at the `await` of line 122) and the URLs
fetched, in order. -/
def probeLoopAwaiting (probe : String → Awaited ProbeOutcome) (path : String) :
    List Nat → Option JSVal × List String
  | [] => (some JSVal.null, [])
  | port :: rest =>
    match probe (testUrl port path) with
    | Awaited.pending => (none, [testUrl port path])
    | Awaited.settles ProbeOutcome.ok => (some (JSVal.str (testUrl port path)), [testUrl port path])
    | Awaited.settles _ =>
      ((probeLoopAwaiting probe path rest).1,
        testUrl port path :: (probeLoopAwaiting probe path rest).2)

/-- The function `fallbackResolve(orpUrl)` when a `HEAD` request may stay unanswered. -/
def fallbackResolveAwaiting (probe : String → Awaited ProbeOutcome) (orpUrl : JSVal) :
    Option JSVal × List String :=
  match orpUrl with
  | JSVal.str s =>
    match matchOrp s with
    | none => (some JSVal.null, [])
    | some (_fortIdentifier, group2) =>
      probeLoopAwaiting probe (fallbackPath group2) standardPorts
  | _ => (some JSVal.null, [])

/-- The `catch` block of `resolveOrpUrl` (line 100), `return await fallbackResolve(orpUrl)`. -/
def viaFallbackAwaiting (env : AwaitEnv) (cache : Cache) (orpUrl : String) : Invocation :=
  match (fallbackResolveAwaiting env.probe (JSVal.str orpUrl)).1 with
  | some value =>
    Invocation.returns ⟨value, cache,
      daemonPost orpUrl :: (fallbackResolveAwaiting env.probe (JSVal.str orpUrl)).2.map NetCall.head,
      ExitPoint.fallback⟩
  | none =>
    Invocation.pending
      (daemonPost orpUrl :: (fallbackResolveAwaiting env.probe (JSVal.str orpUrl)).2.map NetCall.head)

/-- Lines 67-101 of `resolveOrpUrl` when a request may stay unanswered. -/
def afterCacheMissAwaiting (env : AwaitEnv) (cache : Cache) (orpUrl : String) : Invocation :=
  match env.daemon with
  | DaemonAwaited.fetchPending => Invocation.pending [daemonPost orpUrl]
  | DaemonAwaited.jsonPending => Invocation.pending [daemonPost orpUrl]
  | DaemonAwaited.settles DaemonOutcome.networkError => viaFallbackAwaiting env cache orpUrl
  | DaemonAwaited.settles (DaemonOutcome.response false _) =>
    Invocation.returns ⟨JSVal.null, cache, [daemonPost orpUrl], ExitPoint.daemonRejected⟩
  | DaemonAwaited.settles (DaemonOutcome.response true none) =>
    viaFallbackAwaiting env cache orpUrl
  | DaemonAwaited.settles (DaemonOutcome.response true (some result)) =>
    match result.getProp "success" with
    | none => viaFallbackAwaiting env cache orpUrl
    | some success =>
      if success.truthy then
        match result.getProp "resolved_url" with
        | none => viaFallbackAwaiting env cache orpUrl
        | some resolvedUrl =>
          if resolvedUrl.truthy then
            Invocation.returns
              ⟨resolvedUrl, cache.set orpUrl ⟨resolvedUrl, env.nowInsert⟩, [daemonPost orpUrl],
                ExitPoint.daemonResolved⟩
          else
            Invocation.returns
              ⟨JSVal.null, cache, [daemonPost orpUrl], ExitPoint.daemonRejected⟩
      else
        Invocation.returns ⟨JSVal.null, cache, [daemonPost orpUrl], ExitPoint.daemonRejected⟩

/-- The function `resolveOrpUrl(orpUrl)` for a string argument when a request may stay
unanswered. -/
def resolveOrpUrlAwaiting (env : AwaitEnv) (cache : Cache) (orpUrl : String) : Invocation :=
  match cache.get orpUrl with
  | some cached =>
    if env.nowLookup - cached.timestamp < CACHE_TTL then
      Invocation.returns ⟨cached.url, cache, [], ExitPoint.cacheHit⟩
    else afterCacheMissAwaiting env cache orpUrl
  | none => afterCacheMissAwaiting env cache orpUrl

/-- The request behind a network call settles: for the `POST`, both awaits of the daemon
exchange; for a `HEAD`, the `fetch` of that URL. -/
def requestSettles (env : AwaitEnv) : NetCall → Bool
  | NetCall.post _ _ _ =>
    match env.daemon with
    | DaemonAwaited.settles _ => true
    | _ => false
  | NetCall.head url =>
    match env.probe url with
    | Awaited.settles _ => true
    | Awaited.pending => false

/-- The daemon accepts the connection and never answers; no port is probed. -/
def silentDaemonEnv : AwaitEnv :=
  ⟨0, 0, DaemonAwaited.fetchPending, fun _ => Awaited.settles ProbeOutcome.thrown⟩

/-- The daemon is unreachable and port 8080 accepts the connection and never answers; the
other ports refuse. -/
def silentPortEnv : AwaitEnv :=
  ⟨0, 0, DaemonAwaited.settles DaemonOutcome.networkError,
    fun url =>
      if url = "http://localhost:8080/profile" then Awaited.pending
      else Awaited.settles ProbeOutcome.thrown⟩

theorem probeLoopAwaiting_settled (probe : String → ProbeOutcome) (path : String)
    (ports : List Nat) :
    probeLoopAwaiting (fun url => Awaited.settles (probe url)) path ports
      = (some (probeLoop probe path ports).1, (probeLoop probe path ports).2) := by
  induction ports with
  | nil => rfl
  | cons port rest ih =>
    unfold probeLoopAwaiting probeLoop
    cases hp : probe (testUrl port path) <;> simp [hp, ih]

theorem probeLoopAwaiting_probes_take (probe : String → Awaited ProbeOutcome) (path : String) :
    ∀ ports : List Nat, ∃ n, n ≤ ports.length ∧ (ports ≠ [] → 1 ≤ n) ∧
      (probeLoopAwaiting probe path ports).2 = (ports.take n).map (fun p => testUrl p path) := by
  intro ports
  induction ports with
  | nil => exact ⟨0, le_refl _, fun h => absurd rfl h, rfl⟩
  | cons port rest ih =>
    obtain ⟨n, hn, _, hprobes⟩ := ih
    unfold probeLoopAwaiting
    cases hp : probe (testUrl port path) with
    | pending => exact ⟨1, by simp, fun _ => le_refl _, by simp⟩
    | settles outcome =>
      cases outcome with
      | ok => exact ⟨1, by simp, fun _ => le_refl _, by simp⟩
      | notOk => exact ⟨n + 1, by simpa using hn, fun _ => by omega, by simp [hprobes]⟩
      | thrown => exact ⟨n + 1, by simpa using hn, fun _ => by omega, by simp [hprobes]⟩

theorem probeLoopAwaiting_returns_iff (probe : String → Awaited ProbeOutcome) (path : String)
    (ports : List Nat) :
    (probeLoopAwaiting probe path ports).1.isSome = true ↔
      ∀ url ∈ (probeLoopAwaiting probe path ports).2, probe url ≠ Awaited.pending := by
  induction ports with
  | nil => simp [probeLoopAwaiting]
  | cons port rest ih =>
    unfold probeLoopAwaiting
    cases hp : probe (testUrl port path) with
    | pending => simp [hp]
    | settles outcome =>
      cases outcome with
      | ok => simp [hp]
      | notOk => simp [hp, ih]
      | thrown => simp [hp, ih]

theorem fallbackResolveAwaiting_of_no_match (probe : String → Awaited ProbeOutcome) (s : String)
    (hm : matchOrp s = none) :
    fallbackResolveAwaiting probe (JSVal.str s) = (some JSVal.null, []) := by
  simp [fallbackResolveAwaiting, hm]

theorem fallbackResolveAwaiting_of_match (probe : String → Awaited ProbeOutcome)
    (s auth : String) (group2 : Option String) (hm : matchOrp s = some (auth, group2)) :
    fallbackResolveAwaiting probe (JSVal.str s)
      = probeLoopAwaiting probe (fallbackPath group2) standardPorts := by
  simp [fallbackResolveAwaiting, hm]

theorem fallbackResolveAwaiting_settled (probe : String → ProbeOutcome) (v : JSVal) :
    fallbackResolveAwaiting (fun url => Awaited.settles (probe url)) v
      = (some (fallbackResolve probe v).1, (fallbackResolve probe v).2) := by
  cases v with
  | str s =>
    cases hm : matchOrp s with
    | none => simp [fallbackResolveAwaiting, fallbackResolve, hm]
    | some g =>
      obtain ⟨auth, group2⟩ := g
      simp [fallbackResolveAwaiting, fallbackResolve, hm, probeLoopAwaiting_settled]
  | _ => rfl

theorem viaFallbackAwaiting_ofEnv (env : Env) (cache : Cache) (u : String) :
    viaFallbackAwaiting (AwaitEnv.ofEnv env) cache u = Invocation.returns (viaFallback env cache u) := by
  unfold viaFallbackAwaiting viaFallback AwaitEnv.ofEnv
  simp only [fallbackResolveAwaiting_settled]

theorem afterCacheMissAwaiting_of_throws (env : AwaitEnv) (cache : Cache) (u : String)
    (d : DaemonOutcome) (hd : env.daemon = DaemonAwaited.settles d)
    (h : daemonThrows d = true) :
    afterCacheMissAwaiting env cache u = viaFallbackAwaiting env cache u := by
  unfold afterCacheMissAwaiting
  cases d with
  | networkError => simp [hd]
  | response ok json =>
    cases ok with
    | false => simp [daemonThrows] at h
    | true =>
      cases json with
      | none => simp [hd]
      | some body => cases body <;> simp_all [daemonThrows, JSVal.getProp]

theorem afterCacheMissAwaiting_of_answer (env : AwaitEnv) (cache : Cache) (u : String)
    (d : DaemonOutcome) (probe : String → ProbeOutcome)
    (hd : env.daemon = DaemonAwaited.settles d) (h : daemonThrows d = false) :
    afterCacheMissAwaiting env cache u
      = Invocation.returns (afterCacheMiss ⟨env.nowLookup, env.nowInsert, d, probe⟩ cache u) := by
  unfold afterCacheMissAwaiting afterCacheMiss
  cases d with
  | networkError => simp [daemonThrows] at h
  | response ok json =>
    cases ok with
    | false => simp [hd]
    | true =>
      cases json with
      | none => simp [daemonThrows] at h
      | some body =>
        cases body <;> simp_all [daemonThrows, JSVal.getProp, JSVal.truthy]
        split_ifs <;> rfl

theorem afterCacheMissAwaiting_ofEnv (env : Env) (cache : Cache) (u : String) :
    afterCacheMissAwaiting (AwaitEnv.ofEnv env) cache u
      = Invocation.returns (afterCacheMiss env cache u) := by
  cases ht : daemonThrows env.daemon with
  | true =>
    rw [afterCacheMissAwaiting_of_throws (AwaitEnv.ofEnv env) cache u env.daemon rfl ht,
      afterCacheMiss_of_throws env cache u ht, viaFallbackAwaiting_ofEnv]
  | false =>
    exact afterCacheMissAwaiting_of_answer (AwaitEnv.ofEnv env) cache u env.daemon env.probe rfl ht

theorem resolveOrpUrlAwaiting_ofEnv (env : Env) (cache : Cache) (u : String) :
    resolveOrpUrlAwaiting (AwaitEnv.ofEnv env) cache u
      = Invocation.returns (resolveOrpUrl env cache u) := by
  unfold resolveOrpUrlAwaiting resolveOrpUrl
  cases hget : cache.get u with
  | none => exact afterCacheMissAwaiting_ofEnv env cache u
  | some e =>
    by_cases hfresh : env.nowLookup - e.timestamp < CACHE_TTL
    · simp [AwaitEnv.ofEnv, hfresh]
    · simpa [AwaitEnv.ofEnv, hfresh] using afterCacheMissAwaiting_ofEnv env cache u

theorem afterCacheMiss_calls_of_answer (env : Env) (cache : Cache) (u : String)
    (h : daemonThrows env.daemon = false) : (afterCacheMiss env cache u).calls = [daemonPost u] := by
  cases ha : daemonAccepts env.daemon with
  | true => rw [afterCacheMiss_of_accepts env cache u ha]
  | false => rw [afterCacheMiss_of_rejects env cache u ha h]

theorem daemonAccepts_of_throws (d : DaemonOutcome) (h : daemonThrows d = true) :
    daemonAccepts d = false := by
  cases ha : daemonAccepts d with
  | false => rfl
  | true => rw [daemonThrows_of_accepts d ha] at h; cases h

/-- The ways through `resolveOrpUrl` when a request may stay unanswered. -/
theorem resolveOrpUrlAwaiting_cases (env : AwaitEnv) (cache : Cache) (u : String) :
    (∃ e : CacheEntry, resolveOrpUrlAwaiting env cache u
        = Invocation.returns ⟨e.url, cache, [], ExitPoint.cacheHit⟩) ∨
    ((env.daemon = DaemonAwaited.fetchPending ∨ env.daemon = DaemonAwaited.jsonPending) ∧
        resolveOrpUrlAwaiting env cache u = Invocation.pending [daemonPost u]) ∨
    (∃ d, env.daemon = DaemonAwaited.settles d ∧ daemonThrows d = false ∧
        ∃ o, resolveOrpUrlAwaiting env cache u = Invocation.returns o ∧
          o.calls = [daemonPost u]) ∨
    (∃ d, env.daemon = DaemonAwaited.settles d ∧ daemonThrows d = true ∧
        resolveOrpUrlAwaiting env cache u = viaFallbackAwaiting env cache u) := by
  have hmiss : (env.daemon = DaemonAwaited.fetchPending ∨ env.daemon = DaemonAwaited.jsonPending) ∧
        afterCacheMissAwaiting env cache u = Invocation.pending [daemonPost u] ∨
      (∃ d, env.daemon = DaemonAwaited.settles d ∧ daemonThrows d = false ∧
        ∃ o, afterCacheMissAwaiting env cache u = Invocation.returns o ∧
          o.calls = [daemonPost u]) ∨
      (∃ d, env.daemon = DaemonAwaited.settles d ∧ daemonThrows d = true ∧
        afterCacheMissAwaiting env cache u = viaFallbackAwaiting env cache u) := by
    cases hd : env.daemon with
    | fetchPending => exact Or.inl ⟨Or.inl rfl, by simp [afterCacheMissAwaiting, hd]⟩
    | jsonPending => exact Or.inl ⟨Or.inr rfl, by simp [afterCacheMissAwaiting, hd]⟩
    | settles d =>
      right
      cases ht : daemonThrows d with
      | false =>
        exact Or.inl ⟨d, rfl, ht, _,
          afterCacheMissAwaiting_of_answer env cache u d (fun _ => ProbeOutcome.thrown) hd ht,
          afterCacheMiss_calls_of_answer _ cache u ht⟩
      | true =>
        exact Or.inr ⟨d, rfl, ht, afterCacheMissAwaiting_of_throws env cache u d hd ht⟩
  unfold resolveOrpUrlAwaiting
  cases hget : cache.get u with
  | none => exact Or.inr hmiss
  | some e =>
    by_cases hfresh : env.nowLookup - e.timestamp < CACHE_TTL
    · exact Or.inl ⟨e, by simp [hfresh]⟩
    · simpa [hfresh] using Or.inr hmiss

theorem viaFallbackAwaiting_calls (env : AwaitEnv) (cache : Cache) (u : String) :
    (viaFallbackAwaiting env cache u).calls
      = daemonPost u :: (fallbackResolveAwaiting env.probe (JSVal.str u)).2.map NetCall.head := by
  unfold viaFallbackAwaiting
  cases (fallbackResolveAwaiting env.probe (JSVal.str u)).1 <;> rfl

theorem viaFallbackAwaiting_outcome (env : AwaitEnv) (cache : Cache) (u : String) :
    (viaFallbackAwaiting env cache u).outcome.isSome
      = (fallbackResolveAwaiting env.probe (JSVal.str u)).1.isSome := by
  unfold viaFallbackAwaiting
  cases (fallbackResolveAwaiting env.probe (JSVal.str u)).1 <;> rfl

theorem fallbackResolveAwaiting_probes_take (probe : String → Awaited ProbeOutcome) (u : String) :
    (fallbackResolveAwaiting probe (JSVal.str u)).2 = [] ∨
      ∃ (n : Nat) (path : String), 1 ≤ n ∧ n ≤ 5 ∧
        (fallbackResolveAwaiting probe (JSVal.str u)).2
          = ([8080, 8081, 8082, 3000, 5000].take n).map (fun port => testUrl port path) := by
  cases hm : matchOrp u with
  | none => exact Or.inl (by rw [fallbackResolveAwaiting_of_no_match probe u hm])
  | some g =>
    obtain ⟨auth, group2⟩ := g
    obtain ⟨n, hn, hpos, hprobes⟩ :=
      probeLoopAwaiting_probes_take probe (fallbackPath group2) standardPorts
    rw [fallbackResolveAwaiting_of_match probe u auth group2 hm]
    exact Or.inr ⟨n, fallbackPath group2, hpos (by decide), hn, hprobes⟩

theorem fallbackResolveAwaiting_returns_iff (probe : String → Awaited ProbeOutcome) (u : String) :
    (fallbackResolveAwaiting probe (JSVal.str u)).1.isSome = true ↔
      ∀ url ∈ (fallbackResolveAwaiting probe (JSVal.str u)).2, probe url ≠ Awaited.pending := by
  cases hm : matchOrp u with
  | none => rw [fallbackResolveAwaiting_of_no_match probe u hm]; simp
  | some g =>
    obtain ⟨auth, group2⟩ := g
    rw [fallbackResolveAwaiting_of_match probe u auth group2 hm]
    exact probeLoopAwaiting_returns_iff probe (fallbackPath group2) standardPorts

theorem requestSettles_head (env : AwaitEnv) (url : String) :
    requestSettles env (NetCall.head url) = true ↔ env.probe url ≠ Awaited.pending := by
  unfold requestSettles
  cases hp : env.probe url <;> simp [hp]

/-- C25, counterexample to the claim as stated: an invocation need not terminate. With an
empty cache, when the daemon accepts the `POST` and never answers, `resolveOrpUrl` stays
suspended after that one call; when the daemon is unreachable and port 8080 accepts the
`HEAD` request and never answers, it stays suspended after the `POST` and the first probe.
In neither case does its promise settle. -/
theorem invocation_never_returns_counterexample :
    (resolveOrpUrlAwaiting silentDaemonEnv JSMap.empty exampleUri).outcome.isNone = true ∧
      (resolveOrpUrlAwaiting silentDaemonEnv JSMap.empty exampleUri).calls
        = [daemonPost exampleUri] ∧
      (resolveOrpUrlAwaiting silentPortEnv JSMap.empty exampleUri).outcome.isNone = true ∧
      (resolveOrpUrlAwaiting silentPortEnv JSMap.empty exampleUri).calls
        = [daemonPost exampleUri, NetCall.head "http://localhost:8080/profile"] := by
  decide

/-- The invocation returns exactly when every request it has issued settles. -/
theorem resolveOrpUrlAwaiting_returns_iff (env : AwaitEnv) (cache : Cache) (u : String) :
    (resolveOrpUrlAwaiting env cache u).outcome.isSome = true ↔
      ∀ call ∈ (resolveOrpUrlAwaiting env cache u).calls, requestSettles env call = true := by
  have hpost : ∀ d, env.daemon = DaemonAwaited.settles d →
      requestSettles env (daemonPost u) = true := by
    intro d hd
    simp [requestSettles, daemonPost, hd]
  rcases resolveOrpUrlAwaiting_cases env cache u with
    ⟨e, h⟩ | ⟨hp, h⟩ | ⟨d, hd, ht, o, h, ho⟩ | ⟨d, hd, ht, h⟩
  · rw [h]; simp [Invocation.calls, Invocation.outcome]
  · rw [h]
    have hfalse : requestSettles env (daemonPost u) = false := by
      rcases hp with hp | hp <;> simp [requestSettles, daemonPost, hp]
    simp [Invocation.calls, Invocation.outcome, hfalse]
  · rw [h]; simp [Invocation.calls, Invocation.outcome, ho, hpost d hd]
  · rw [h, viaFallbackAwaiting_calls, viaFallbackAwaiting_outcome,
      fallbackResolveAwaiting_returns_iff]
    constructor
    · intro hall call hcall
      rcases List.mem_cons.1 hcall with rfl | hmem
      · exact hpost d hd
      · obtain ⟨url, hurl, rfl⟩ := List.mem_map.1 hmem
        exact (requestSettles_head env url).2 (hall url hurl)
    · intro hall url hurl
      exact (requestSettles_head env url).1
        (hall _ (List.mem_cons_of_mem _ (List.mem_map_of_mem _ hurl)))

/-- The network calls of one invocation, in order and number, whether or not it returns. -/
theorem resolveOrpUrlAwaiting_calls_shape (env : AwaitEnv) (cache : Cache) (u : String) :
    ((resolveOrpUrlAwaiting env cache u).calls = [] ∨
        (resolveOrpUrlAwaiting env cache u).calls = [daemonPost u] ∨
        ∃ (n : Nat) (path : String) (d : DaemonOutcome), 1 ≤ n ∧ n ≤ 5 ∧
          (resolveOrpUrlAwaiting env cache u).calls
            = daemonPost u ::
                ([8080, 8081, 8082, 3000, 5000].take n).map
                  (fun port => NetCall.head (testUrl port path)) ∧
          env.daemon = DaemonAwaited.settles d ∧
          daemonAccepts d = false ∧ daemonThrows d = true) ∧
      (resolveOrpUrlAwaiting env cache u).calls.length ≤ 6 ∧
      (∀ call ∈ (resolveOrpUrlAwaiting env cache u).calls.tail,
        ∃ url, call = NetCall.head url) := by
  refine ⟨?_, ?_, ?_⟩ <;>
    rcases resolveOrpUrlAwaiting_cases env cache u with
      ⟨e, h⟩ | ⟨hp, h⟩ | ⟨d, hd, ht, o, h, ho⟩ | ⟨d, hd, ht, h⟩
  · exact Or.inl (by rw [h]; rfl)
  · exact Or.inr (Or.inl (by rw [h]; rfl))
  · exact Or.inr (Or.inl (by rw [h]; exact ho))
  · rw [h, viaFallbackAwaiting_calls]
    rcases fallbackResolveAwaiting_probes_take env.probe u with hnil | ⟨n, path, h1, h5, hprobes⟩
    · exact Or.inr (Or.inl (by rw [hnil]; rfl))
    · refine Or.inr (Or.inr ⟨n, path, d, h1, h5, ?_, hd, daemonAccepts_of_throws d ht, ht⟩)
      rw [hprobes]
      simp [List.map_map, Function.comp_def]
  · rw [h]; simp [Invocation.calls]
  · rw [h]; simp [Invocation.calls]
  · rw [h]; simp [Invocation.calls, ho]
  · rw [h, viaFallbackAwaiting_calls]
    rcases fallbackResolveAwaiting_probes_take env.probe u with hnil | ⟨n, path, h1, h5, hprobes⟩
    · rw [hnil]; simp
    · rw [hprobes]
      simp only [List.length_cons, List.length_map, List.length_take]
      have : min n [8080, 8081, 8082, 3000, 5000].length ≤ 5 := le_trans (min_le_left _ _) h5
      omega
  · rw [h]; simp [Invocation.calls]
  · rw [h]; simp [Invocation.calls]
  · rw [h]; simp [Invocation.calls, ho]
  · rw [h, viaFallbackAwaiting_calls]
    intro call hcall
    simp only [List.tail_cons, List.mem_map] at hcall
    obtain ⟨url, _, rfl⟩ := hcall
    exact ⟨url, rfl⟩

/-- When the daemon exchange never settles, an invocation that issues a call at all issues
the `POST` alone and stays suspended. -/
theorem resolveOrpUrlAwaiting_of_silent_daemon (env : AwaitEnv) (cache : Cache) (u : String)
    (hsilent : requestSettles env (daemonPost u) = false)
    (hcalls : (resolveOrpUrlAwaiting env cache u).calls ≠ []) :
    resolveOrpUrlAwaiting env cache u = Invocation.pending [daemonPost u] := by
  have hpost : ∀ d, env.daemon = DaemonAwaited.settles d →
      requestSettles env (daemonPost u) = true := by
    intro d hd
    simp [requestSettles, daemonPost, hd]
  rcases resolveOrpUrlAwaiting_cases env cache u with
    ⟨e, h⟩ | ⟨_, h⟩ | ⟨d, hd, _, _⟩ | ⟨d, hd, _, _⟩
  · rw [h] at hcalls; exact absurd rfl hcalls
  · exact h
  · rw [hpost d hd] at hsilent; cases hsilent
  · rw [hpost d hd] at hsilent; cases hsilent

/-- C25, amended. Stage order and bounded work, for every URI, cache state and network
behaviour, requests that are never answered included: the network calls of one
`resolveOrpUrl` invocation are none at all, or the single daemon `POST`, or the daemon
`POST` followed by the `HEAD` probes of the first `n` candidate ports 8080, 8081, 8082,
3000, 5000 in that order, with `1 ≤ n ≤ 5`; probes occur only when the daemon exchange has
settled by throwing. There are at most six calls and the daemon call can only be the
first. The invocation returns whenever every request it has issued settles, and then with
the outcome and the calls of `resolveOrpUrl`; the daemon `POST` carries no time limit, and
an invocation whose daemon exchange never settles stays suspended after that one call. -/
theorem stage_order_bounded_returns_when_settled (env : AwaitEnv) (cache : Cache)
    (u : String) :
    ((resolveOrpUrlAwaiting env cache u).calls = [] ∨
        (resolveOrpUrlAwaiting env cache u).calls = [daemonPost u] ∨
        ∃ (n : Nat) (path : String) (d : DaemonOutcome), 1 ≤ n ∧ n ≤ 5 ∧
          (resolveOrpUrlAwaiting env cache u).calls
            = daemonPost u ::
                ([8080, 8081, 8082, 3000, 5000].take n).map
                  (fun port => NetCall.head (testUrl port path)) ∧
          env.daemon = DaemonAwaited.settles d ∧
          daemonAccepts d = false ∧ daemonThrows d = true) ∧
      (resolveOrpUrlAwaiting env cache u).calls.length ≤ 6 ∧
      (∀ call ∈ (resolveOrpUrlAwaiting env cache u).calls.tail,
        ∃ url, call = NetCall.head url) ∧
      ((∀ call ∈ (resolveOrpUrlAwaiting env cache u).calls, requestSettles env call = true) →
        (resolveOrpUrlAwaiting env cache u).outcome.isSome = true) ∧
      (∀ settled : Env, env = AwaitEnv.ofEnv settled →
        resolveOrpUrlAwaiting env cache u = Invocation.returns (resolveOrpUrl settled cache u) ∧
          (resolveOrpUrlAwaiting env cache u).calls = (resolveOrpUrl settled cache u).calls) ∧
      (requestSettles env (daemonPost u) = false →
        (resolveOrpUrlAwaiting env cache u).calls ≠ [] →
        resolveOrpUrlAwaiting env cache u = Invocation.pending [daemonPost u]) := by
  obtain ⟨horder, hlength, htail⟩ := resolveOrpUrlAwaiting_calls_shape env cache u
  refine ⟨horder, hlength, htail, (resolveOrpUrlAwaiting_returns_iff env cache u).2, ?_,
    resolveOrpUrlAwaiting_of_silent_daemon env cache u⟩
  intro settled h
  subst h
  rw [resolveOrpUrlAwaiting_ofEnv]
  exact ⟨rfl, rfl⟩

/-- Witness of C25: with an empty cache, an unreachable daemon and five ports that refuse
the connection, every request settles, and the invocation returns after the `POST` and the
five probes. -/
theorem stage_order_bounded_returns_when_settled_witness :
    (resolveOrpUrlAwaiting (AwaitEnv.ofEnv (offlineEnv 0)) JSMap.empty exampleUri).outcome.isSome
        = true ∧
      (resolveOrpUrlAwaiting (AwaitEnv.ofEnv (offlineEnv 0)) JSMap.empty exampleUri).calls.length
        = 6 :=
  ⟨(stage_order_bounded_returns_when_settled (AwaitEnv.ofEnv (offlineEnv 0)) JSMap.empty
      exampleUri).2.2.2.1 (by decide),
    by decide⟩

theorem sweep_get_sub (now : Int) (cache : Cache) (k : String) (e : CacheEntry)
    (h : (sweep now cache).get k = some e) : cache.get k = some e := by
  rw [sweep_get] at h
  cases hc : cache.get k with
  | none => simp [hc, Option.filter] at h
  | some e' =>
    simp only [hc, Option.filter] at h
    split at h
    · exact h
    · cases h

/-- Every stored entry was written by a recorded resolution of exactly its key whose
daemon call was accepted: it holds that call's `resolved_url` and insertion clock reading. -/
def Provenance (history : List Event) (cache : Cache) : Prop :=
  ∀ u e, cache.get u = some e →
    ∃ env, Event.resolve env u ∈ history ∧ daemonAccepts env.daemon = true ∧
      e.url = daemonResolvedUrl env.daemon ∧ e.timestamp = env.nowInsert

theorem daemonResolvedUrl_truthy (d : DaemonOutcome) (h : daemonAccepts d = true) :
    (daemonResolvedUrl d).truthy = true := by
  cases d with
  | networkError => simp [daemonAccepts] at h
  | response ok json =>
    cases json with
    | none => simp [daemonAccepts] at h
    | some body =>
      simp only [daemonAccepts, Bool.and_eq_true] at h
      exact h.2

theorem provenance_step (history : List Event) (cache : Cache) (ev : Event)
    (hp : Provenance history cache) : Provenance (history ++ [ev]) (step cache ev) := by
  have hmono : ∀ u e, cache.get u = some e →
      ∃ env, Event.resolve env u ∈ history ++ [ev] ∧ daemonAccepts env.daemon = true ∧
        e.url = daemonResolvedUrl env.daemon ∧ e.timestamp = env.nowInsert := by
    intro u e hget
    obtain ⟨env, hmem, hrest⟩ := hp u e hget
    exact ⟨env, List.mem_append_left _ hmem, hrest⟩
  cases ev with
  | resolve env u' =>
    intro u e hget
    simp only [step] at hget
    rcases resolveOrpUrl_cases env cache u' with ⟨_, _, _, h⟩ | ⟨_, ha, h⟩ | ⟨_, _, _, h⟩ |
      ⟨_, _, _, h⟩
    · rw [h] at hget; exact hmono u e hget
    · rw [h] at hget
      simp only at hget
      by_cases hu : u = u'
      · subst hu
        rw [JSMap.get_set_self] at hget
        cases hget
        exact ⟨env, by simp, ha, rfl, rfl⟩
      · rw [JSMap.get_set_other cache u' u _ hu] at hget
        exact hmono u e hget
    · rw [h, viaFallback_cache] at hget; exact hmono u e hget
    · rw [h] at hget; exact hmono u e hget
  | sweep now =>
    intro u e hget
    exact hmono u e (sweep_get_sub now cache u e hget)
  | getCacheStats clock =>
    intro u e hget
    exact hmono u e hget
  | clearCache =>
    intro u e hget
    cases hget

theorem provenance_run (events : List Event) :
    ∀ (history : List Event) (cache : Cache), Provenance history cache →
      Provenance (history ++ events) (run cache events) := by
  induction events with
  | nil => intro history cache hp; simpa [run] using hp
  | cons ev rest ih =>
    intro history cache hp
    have h := ih (history ++ [ev]) (step cache ev) (provenance_step history cache ev hp)
    simpa [run, List.append_assoc] using h

/-- C27. Cache content invariant: in the cache reached from the empty cache by any
sequence of resolutions, sweeps, `CLEAR_CACHE` and `GET_CACHE_STATS` messages, under any
daemon and port behaviour, every entry stored under a key `u` has a truthy url that is the
`resolved_url` of an accepted (OK, success-flagged) daemon response to a request for exactly
`u` made in that sequence, and its timestamp is the insertion clock reading of that request;
hence a cache hit returns such a url: never nothing, and never a value taken from the
prober. -/
theorem cache_content_invariant (events : List Event) :
    (∀ u e, (run JSMap.empty events).get u = some e →
        e.url.truthy = true ∧
          ∃ env, Event.resolve env u ∈ events ∧ daemonAccepts env.daemon = true ∧
            e.url = daemonResolvedUrl env.daemon ∧ e.timestamp = env.nowInsert) ∧
      (∀ (later : Env) (u : String),
        (resolveOrpUrl later (run JSMap.empty events) u).exit = ExitPoint.cacheHit →
          (resolveOrpUrl later (run JSMap.empty events) u).value.truthy = true ∧
            ∃ env, Event.resolve env u ∈ events ∧ daemonAccepts env.daemon = true ∧
              (resolveOrpUrl later (run JSMap.empty events) u).value
                = daemonResolvedUrl env.daemon) := by
  have hp : Provenance events (run JSMap.empty events) := by
    have h := provenance_run events [] JSMap.empty (fun u e hget => by cases hget)
    simpa using h
  have hentry : ∀ u e, (run JSMap.empty events).get u = some e →
      e.url.truthy = true ∧
        ∃ env, Event.resolve env u ∈ events ∧ daemonAccepts env.daemon = true ∧
          e.url = daemonResolvedUrl env.daemon ∧ e.timestamp = env.nowInsert := by
    intro u e hget
    obtain ⟨env, hmem, ha, hurl, hts⟩ := hp u e hget
    exact ⟨by rw [hurl]; exact daemonResolvedUrl_truthy _ ha, env, hmem, ha, hurl, hts⟩
  refine ⟨hentry, ?_⟩
  intro later u hexit
  rcases resolveOrpUrl_cases later (run JSMap.empty events) u with ⟨e, hget, _, h⟩ |
    ⟨_, _, h⟩ | ⟨_, _, _, h⟩ | ⟨_, _, _, h⟩
  · rw [h]
    obtain ⟨ht, env, hmem, ha, hurl, _⟩ := hentry u e hget
    exact ⟨ht, env, hmem, ha, hurl⟩
  · rw [h] at hexit; cases hexit
  · rw [h, viaFallback_exit] at hexit; cases hexit
  · rw [h] at hexit; cases hexit

/-- Witness of C27: after the first resolution and the quiet events, a lookup of
`exampleUri` while the network is down is a cache hit returning the daemon's URL. -/
theorem cache_content_invariant_witness :
    (resolveOrpUrl (offlineEnv 300999)
        (run JSMap.empty (Event.resolve firstEnv exampleUri :: quietEvents)) exampleUri).value.truthy
        = true ∧
      (resolveOrpUrl (offlineEnv 300999)
        (run JSMap.empty (Event.resolve firstEnv exampleUri :: quietEvents)) exampleUri).value
        = JSVal.str "http://localhost:9001/profile" :=
  ⟨((cache_content_invariant (Event.resolve firstEnv exampleUri :: quietEvents)).2
      (offlineEnv 300999) exampleUri (by decide)).1,
    by decide⟩

/-- C28. The fallback result ignores the authority: two parseable URIs
`orp://a<path>` and `orp://b<path>` with the same path (possibly empty) and any two
authorities get the same probes and the same result from `fallbackResolve` under the same
behaviour of the ports. -/
theorem fallback_ignores_authority (probe : String → ProbeOutcome) (u1 u2 : String)
    (a b path : List Char)
    (h1 : u1.toList = "orp://".toList ++ a ++ path)
    (h2 : u2.toList = "orp://".toList ++ b ++ path)
    (ha : a ≠ []) (hb : b ≠ []) (hsa : '/' ∉ a) (hsb : '/' ∉ b)
    (hpath : path = [] ∨ ∃ rest, path = '/' :: rest)
    (hacc1 : (matchOrp u1).isSome = true) (hacc2 : (matchOrp u2).isSome = true) :
    fallbackResolve probe (JSVal.str u1) = fallbackResolve probe (JSVal.str u2) := by
  rw [fallbackResolve_of_match probe u1 _ _ (matchOrp_of_split u1 a path h1 ha hsa hpath hacc1),
    fallbackResolve_of_match probe u2 _ _ (matchOrp_of_split u2 b path h2 hb hsb hpath hacc2)]

/-- Witness of C28: `orp://node-1/profile` and `orp://another-fort/profile` when only port
8082 serves `/profile`. -/
theorem fallback_ignores_authority_witness :
    fallbackResolve only8082 (JSVal.str "orp://node-1/profile")
      = fallbackResolve only8082 (JSVal.str "orp://another-fort/profile") :=
  fallback_ignores_authority only8082 "orp://node-1/profile" "orp://another-fort/profile"
    "node-1".toList "another-fort".toList "/profile".toList (by decide) (by decide) (by decide)
    (by decide) (by decide) (by decide) (Or.inr ⟨"profile".toList, by decide⟩) (by decide)
    (by decide)

/-! ## Route guard of the web interface (`App.tsx`) -/

/-- The authenticated user as far as the guards read it. -/
structure User where
  needsOnboarding : Bool
  deriving DecidableEq, Repr

/-- What a route guard renders: the global loading screen, a `<Navigate to=... replace />`
element, or its children. -/
inductive Rendered (α : Type) where
  | globalLoading
  | navigate (target : String) (replace : Bool)
  | children (content : α)
  deriving DecidableEq, Repr

/-- The component `ProtectedRoute` of `App` (lines 97-101); `user = none` stands for a
falsy `user`. -/
def ProtectedRoute {α : Type} (authLoading : Bool) (user : Option User) (children : α) :
    Rendered α :=
  if authLoading then Rendered.globalLoading
  else
    match user with
    | none => Rendered.navigate "/auth/login" true
    | some _ => Rendered.children children

/-- C24, counterexample to the claim as stated: with authentication loaded and no user, the
guard around the dashboard renders a redirect to `/auth/login`; it does not render a
redirect to `/login`. -/
theorem protected_route_login_counterexample :
    ProtectedRoute false none "Dashboard" = Rendered.navigate "/auth/login" true ∧
      ProtectedRoute false none "Dashboard" ≠ Rendered.navigate "/login" true := by
  decide

/-- C24, amended. With authentication finished loading and no user, `ProtectedRoute`
renders a redirect with `replace` whose target path is `/auth/login`, whatever its
children are; when a user is present it renders its children unchanged. -/
theorem protected_route_guard {α : Type} (children : α) (user : User) :
    ProtectedRoute false none children = Rendered.navigate "/auth/login" true ∧
      ProtectedRoute false (some user) children = Rendered.children children :=
  ⟨rfl, rfl⟩

/-! ## Bare-text rewriting of `autoDetectOrpUrls` as a string function -/

/-- The characters matched by `\s` in a JavaScript regular expression. -/
def isJsWhitespace (c : Char) : Bool :=
  c.toNat ∈ [9, 10, 11, 12, 13, 32, 160, 0x1680, 0x2028, 0x2029, 0x202F, 0x205F, 0x3000, 0xFEFF]
    || (0x2000 ≤ c.toNat && c.toNat ≤ 0x200A)

/-- The character class `[^\s<>"']` of `orpRegex`. -/
def isOrpTokenChar (c : Char) : Bool :=
  !(isJsWhitespace c || c.toNat = 60 || c.toNat = 62 || c.toNat = 34 || c.toNat = 39)

/-- An attempt to match `orpRegex`, that is `orp:\/\/[^\s<>"']+`, at the start of the
input: the matched text and the rest of the input. The class is greedy and nothing follows
it in the expression, so the match takes the longest run of class characters. -/
def matchOrpToken (l : List Char) : Option (List Char × List Char) :=
  match dropLiteral "orp://".toList l with
  | none => none
  | some rest =>
    if rest.takeWhile isOrpTokenChar = [] then none
    else some ("orp://".toList ++ rest.takeWhile isOrpTokenChar, rest.dropWhile isOrpTokenChar)

/-- The replacement function of line 107: the markup of an anchor for a match. -/
def anchorMarkup (m : List Char) : List Char :=
  "<a href=\"".toList ++ m ++ "\" class=\"auto-detected-orp-link\">".toList ++ m
    ++ "</a>".toList

/-- The call `nodeValue.replace(orpRegex, ...)` with the global flag: the input is scanned
from the left; where a match starts its replacement is emitted and the scan goes on after
the match, otherwise the character is copied. `skip` counts the characters of the current
match that are still to be passed over. -/
def replaceFrom : Nat → List Char → List Char
  | _, [] => []
  | skip + 1, _ :: cs => replaceFrom skip cs
  | 0, c :: cs =>
    match matchOrpToken (c :: cs) with
    | some (m, _) => anchorMarkup m ++ replaceFrom (m.length - 1) cs
    | none => c :: replaceFrom 0 cs

/-- The string `newHTML` built by `autoDetectOrpUrls` for a text node value. -/
def newHTML (nodeValue : String) : String :=
  String.mk (replaceFrom 0 nodeValue.toList)

end OpenRed


namespace OpenRed

/-- Here a match of `orpRegex` starts: the input begins with `orp://` followed by a
character other than whitespace, `<`, `>`, `"` and `'`. -/
def StartsOrpToken (l : List Char) : Prop :=
  ∃ c rest, l = "orp://".toList ++ c :: rest ∧ isOrpTokenChar c = true

/-- The rewriting of a text node value in the words of the specification: reading from the
left, a character where no match starts is copied verbatim; where a match starts, the
maximal run `orp://` + one or more class characters (it ends at the end of the input or
before a character outside the class) is replaced by its anchor markup, and the reading
goes on after it. -/
inductive SpecRewrite : List Char → List Char → Prop where
  | done : SpecRewrite [] []
  | copy (c : Char) (cs out : List Char) :
      ¬ StartsOrpToken (c :: cs) → SpecRewrite cs out → SpecRewrite (c :: cs) (c :: out)
  | token (run rest out : List Char) :
      run ≠ [] → (∀ c ∈ run, isOrpTokenChar c = true) →
      (rest = [] ∨ ∃ c rest2, rest = c :: rest2 ∧ isOrpTokenChar c = false) →
      SpecRewrite rest out →
      SpecRewrite ("orp://".toList ++ run ++ rest)
        (anchorMarkup ("orp://".toList ++ run) ++ out)

theorem takeWhile_run_rest (p : Char → Bool) (run rest : List Char)
    (hrun : ∀ c ∈ run, p c = true)
    (hrest : rest = [] ∨ ∃ c rest2, rest = c :: rest2 ∧ p c = false) :
    (run ++ rest).takeWhile p = run ∧ (run ++ rest).dropWhile p = rest := by
  induction run with
  | nil =>
    rcases hrest with rfl | ⟨c, rest2, rfl, hc⟩
    · exact ⟨rfl, rfl⟩
    · simp [List.takeWhile_cons, List.dropWhile_cons, hc]
  | cons c cs ih =>
    have hc := hrun c (List.mem_cons_self _ _)
    obtain ⟨h1, h2⟩ := ih (fun d hd => hrun d (List.mem_cons_of_mem _ hd))
    simp [List.takeWhile_cons, List.dropWhile_cons, hc, h1, h2]

theorem dropWhile_shape (p : Char → Bool) (l : List Char) :
    l.dropWhile p = [] ∨ ∃ c rest2, l.dropWhile p = c :: rest2 ∧ p c = false := by
  induction l with
  | nil => exact Or.inl rfl
  | cons c cs ih =>
    by_cases hc : p c = true
    · simpa [List.dropWhile_cons, hc] using ih
    · exact Or.inr ⟨c, cs, by simp [List.dropWhile_cons, hc], by simpa using hc⟩

theorem matchOrpToken_of_token (run rest : List Char) (hne : run ≠ [])
    (hrun : ∀ c ∈ run, isOrpTokenChar c = true)
    (hrest : rest = [] ∨ ∃ c rest2, rest = c :: rest2 ∧ isOrpTokenChar c = false) :
    matchOrpToken ("orp://".toList ++ run ++ rest) = some ("orp://".toList ++ run, rest) := by
  obtain ⟨h1, h2⟩ := takeWhile_run_rest isOrpTokenChar run rest hrun hrest
  unfold matchOrpToken
  rw [List.append_assoc, dropLiteral_append]
  simp only [h1, h2, hne, if_false]

theorem matchOrpToken_some (l m rest : List Char) (h : matchOrpToken l = some (m, rest)) :
    ∃ run, run ≠ [] ∧ (∀ c ∈ run, isOrpTokenChar c = true) ∧
      (rest = [] ∨ ∃ c rest2, rest = c :: rest2 ∧ isOrpTokenChar c = false) ∧
      m = "orp://".toList ++ run ∧ l = "orp://".toList ++ run ++ rest := by
  unfold matchOrpToken at h
  cases hd : dropLiteral "orp://".toList l with
  | none => rw [hd] at h; cases h
  | some tail =>
    rw [hd] at h
    have hl := dropLiteral_eq_some _ _ _ hd
    by_cases hrun : tail.takeWhile isOrpTokenChar = []
    · simp only [hrun, if_true] at h
      cases h
    · simp only [hrun, if_false, Option.some.injEq, Prod.mk.injEq] at h
      obtain ⟨hm, hr⟩ := h
      refine ⟨tail.takeWhile isOrpTokenChar, hrun, fun c hc => List.mem_takeWhile_imp hc, ?_,
        hm.symm, ?_⟩
      · rw [← hr]
        exact dropWhile_shape isOrpTokenChar tail
      · rw [← hr, List.append_assoc, List.takeWhile_append_dropWhile]
        exact hl

theorem matchOrpToken_none_iff (l : List Char) :
    matchOrpToken l = none ↔ ¬ StartsOrpToken l := by
  constructor
  · intro h hstart
    obtain ⟨c, rest, hl, hc⟩ := hstart
    unfold matchOrpToken at h
    rw [hl, dropLiteral_append] at h
    simp [List.takeWhile_cons, hc] at h
  · intro hns
    cases hm : matchOrpToken l with
    | none => rfl
    | some g =>
      obtain ⟨m, rest⟩ := g
      obtain ⟨run, hne, hrun, _, _, hl⟩ := matchOrpToken_some l m rest hm
      cases run with
      | nil => exact absurd rfl hne
      | cons c cs =>
        exact absurd ⟨c, cs ++ rest, by rw [hl]; simp, hrun c (List.mem_cons_self _ _)⟩ hns

theorem replaceFrom_skip (skipped : List Char) (rest : List Char) :
    replaceFrom skipped.length (skipped ++ rest) = replaceFrom 0 rest := by
  induction skipped with
  | nil => rfl
  | cons c cs ih => simpa [replaceFrom] using ih

theorem replaceFrom_copy (c : Char) (cs : List Char) (h : matchOrpToken (c :: cs) = none) :
    replaceFrom 0 (c :: cs) = c :: replaceFrom 0 cs := by
  simp [replaceFrom, h]

theorem replaceFrom_token (l m rest : List Char) (h : matchOrpToken l = some (m, rest)) :
    replaceFrom 0 l = anchorMarkup m ++ replaceFrom 0 rest := by
  obtain ⟨run, _, _, _, hm, hl⟩ := matchOrpToken_some l m rest h
  cases l with
  | nil => simp at hl
  | cons c cs =>
    have hcs : cs = "rp://".toList ++ run ++ rest := by
      have := hl
      simp only [String.toList, List.cons_append, List.cons.injEq] at this
      simpa [String.toList] using this.2
    simp only [replaceFrom, h]
    congr 1
    have hlen : m.length - 1 = ("rp://".toList ++ run).length := by
      rw [hm]
      simp
    rw [hlen, hcs]
    exact replaceFrom_skip _ rest

theorem specRewrite_replaceFrom_aux (n : Nat) :
    ∀ l : List Char, l.length ≤ n → SpecRewrite l (replaceFrom 0 l) := by
  induction n with
  | zero =>
    intro l hl
    cases l with
    | nil => exact SpecRewrite.done
    | cons c cs => simp at hl
  | succ n ih =>
    intro l hl
    cases l with
    | nil => exact SpecRewrite.done
    | cons c cs =>
      cases hm : matchOrpToken (c :: cs) with
      | none =>
        rw [replaceFrom_copy c cs hm]
        exact SpecRewrite.copy c cs _ ((matchOrpToken_none_iff _).1 hm)
          (ih cs (by simpa using hl))
      | some g =>
        obtain ⟨m, rest⟩ := g
        obtain ⟨run, hne, hrun, hrest, hmeq, hleq⟩ := matchOrpToken_some _ m rest hm
        rw [replaceFrom_token _ m rest hm, hleq, hmeq]
        refine SpecRewrite.token run rest _ hne hrun hrest (ih rest ?_)
        have hlen : (c :: cs).length = ("orp://".toList ++ run ++ rest).length := by rw [hleq]
        simp only [List.length_cons, List.length_append] at hlen hl
        have : 0 < "orp://".toList.length := by decide
        omega

theorem specRewrite_unique (l out : List Char) (h : SpecRewrite l out) :
    out = replaceFrom 0 l := by
  induction h with
  | done => rfl
  | copy c cs out hns _ ih =>
    rw [replaceFrom_copy c cs ((matchOrpToken_none_iff _).2 hns), ih]
  | token run rest out hne hrun hrest _ ih =>
    rw [replaceFrom_token _ _ rest (matchOrpToken_of_token run rest hne hrun hrest), ih]

theorem replaceFrom_bare (rest : List Char)
    (hrest : rest = [] ∨ ∃ c rest2, rest = c :: rest2 ∧ isOrpTokenChar c = false) :
    replaceFrom 0 ("orp://".toList ++ rest) = "orp://".toList ++ replaceFrom 0 rest := by
  have h0 : matchOrpToken ('o' :: 'r' :: 'p' :: ':' :: '/' :: '/' :: rest) = none := by
    rw [matchOrpToken_none_iff]
    rintro ⟨c, rest2, hl, hc⟩
    have hr : rest = c :: rest2 := (List.append_right_inj "orp://".toList).1 hl
    rcases hrest with rfl | ⟨d, rest3, rfl, hd⟩
    · cases hr
    · cases hr
      rw [hd] at hc
      cases hc
  show replaceFrom 0 ('o' :: 'r' :: 'p' :: ':' :: '/' :: '/' :: rest)
    = 'o' :: 'r' :: 'p' :: ':' :: '/' :: '/' :: replaceFrom 0 rest
  rw [replaceFrom_copy _ _ h0,
    replaceFrom_copy _ _ (by simp [matchOrpToken, dropLiteral]),
    replaceFrom_copy _ _ (by simp [matchOrpToken, dropLiteral]),
    replaceFrom_copy _ _ (by simp [matchOrpToken, dropLiteral]),
    replaceFrom_copy _ _ (by simp [matchOrpToken, dropLiteral]),
    replaceFrom_copy _ _ (by simp [matchOrpToken, dropLiteral])]

/-- C29. Bare-text rewriting as a string function: for every text-node value `s` the
markup built by `autoDetectOrpUrls` is the rewriting of `s` described by `SpecRewrite`, and
the only one: each leftmost, maximal, non-overlapping match of `orp://` followed by one or
more characters other than whitespace, `<`, `>`, `"` and `'` is replaced by
`<a href="m" class="auto-detected-orp-link">m</a>` and every other character is copied
verbatim, unescaped. A match never contains a double quote or an angle bracket, and a bare
`orp://` with nothing after it, or followed by a character outside the class, is copied
and not replaced. -/
theorem bare_text_rewriting (s : String) :
    SpecRewrite s.toList (newHTML s).toList ∧
      (∀ out, SpecRewrite s.toList out → out = (newHTML s).toList) ∧
      (∀ l m rest, matchOrpToken l = some (m, rest) →
        ∀ c ∈ m, c ≠ Char.ofNat 34 ∧ c ≠ Char.ofNat 60 ∧ c ≠ Char.ofNat 62) ∧
      newHTML "orp://" = "orp://" ∧
      (∀ rest, (rest = [] ∨ ∃ c rest2, rest = c :: rest2 ∧ isOrpTokenChar c = false) →
        replaceFrom 0 ("orp://".toList ++ rest) = "orp://".toList ++ replaceFrom 0 rest) := by
  refine ⟨specRewrite_replaceFrom_aux _ _ (le_refl _),
    fun out h => specRewrite_unique _ out h, ?_, by decide, replaceFrom_bare⟩
  intro l m rest hm c hc
  obtain ⟨run, _, hrun, _, hmeq, _⟩ := matchOrpToken_some l m rest hm
  rw [hmeq, List.mem_append] at hc
  rcases hc with hlit | hr
  · have : ∀ d ∈ "orp://".toList,
        d ≠ Char.ofNat 34 ∧ d ≠ Char.ofNat 60 ∧ d ≠ Char.ofNat 62 := by decide
    exact this c hlit
  · have hallowed := hrun c hr
    refine ⟨?_, ?_, ?_⟩ <;> intro heq <;> rw [heq] at hallowed <;> revert hallowed <;> decide

/-- Witness of C29: `orp://` followed by a space is copied, and in `go orp://a b` the one
match `orp://a` is replaced. -/
theorem bare_text_rewriting_witness :
    replaceFrom 0 ("orp://".toList ++ " x".toList)
        = "orp://".toList ++ replaceFrom 0 " x".toList ∧
      newHTML "go orp://a b"
        = "go <a href=\"orp://a\" class=\"auto-detected-orp-link\">orp://a</a> b" :=
  ⟨(bare_text_rewriting "").2.2.2.2 " x".toList (Or.inr ⟨' ', "x".toList, rfl, by decide⟩),
    by decide⟩

/-! ## The page: a DOM model for the content script (`content.js`) -/

/-- A DOM node: a text node, or an element with its tag name (upper case, as `tagName`
gives it), its attributes other than `class`, its class list and its children. -/
inductive DomNode where
  | text (value : String)
  | element (tag : String) (attrs : List (String × String)) (classes : List String)
      (children : List DomNode)
  deriving Repr, Inhabited

namespace DomNode

mutual
/-- Structural equality test on nodes. -/
def beq : DomNode → DomNode → Bool
  | text a, text b => a == b
  | element t1 a1 c1 k1, element t2 a2 c2 k2 => t1 == t2 && a1 == a2 && c1 == c2 && beqList k1 k2
  | _, _ => false
/-- Structural equality test on lists of nodes. -/
def beqList : List DomNode → List DomNode → Bool
  | [], [] => true
  | x :: xs, y :: ys => beq x y && beqList xs ys
  | _, _ => false
end

mutual
theorem nodeBeq_iff : ∀ a b : DomNode, beq a b = true ↔ a = b
  | text a, b => by cases b <;> simp [beq]
  | element t1 a1 c1 k1, b => by
    cases b with
    | text _ => simp [beq]
    | element t2 a2 c2 k2 => simp [beq, nodeBeqList_iff k1, and_assoc]
theorem nodeBeqList_iff : ∀ a b : List DomNode, beqList a b = true ↔ a = b
  | [], b => by cases b <;> simp [beqList]
  | x :: xs, b => by cases b <;> simp [beqList, nodeBeq_iff x, nodeBeqList_iff xs]
end

instance : DecidableEq DomNode := fun a b =>
  decidable_of_iff (beq a b = true) (nodeBeq_iff a b)

/-- The element has the class `name` (what the selector `.name` matches). -/
def hasClass (name : String) : DomNode → Bool
  | text _ => false
  | element _ _ classes _ => decide (name ∈ classes)

mutual
/-- Some node of the subtree, the root included, satisfies `p`. -/
def anyNode (p : DomNode → Bool) : DomNode → Bool
  | text v => p (text v)
  | element tag attrs classes children =>
    p (element tag attrs classes children) || anyList p children
/-- Some node of the forest satisfies `p`; for the children of an element this is
`element.querySelector(...) !== null`. -/
def anyList (p : DomNode → Bool) : List DomNode → Bool
  | [] => false
  | n :: rest => anyNode p n || anyList p rest
end

end DomNode

/-- What the content script uses from the browser: the `href` property of an anchor as a
function of its `href` attribute (the URL parser's serialisation), the HTML parser behind
the `innerHTML` setter, and the `message` of the `TypeError` thrown when a property of an
absent response is read. -/
structure PageEnv where
  hrefOf : String → String
  parseHtml : String → List DomNode
  typeErrorMessage : String

/-- The attribute `name`, if present. -/
def getAttr (name : String) (attrs : List (String × String)) : Option String :=
  getEntries name attrs

/-- The method `setAttribute(name, value)` on the attribute list. -/
def setAttr (name value : String) (attrs : List (String × String)) : List (String × String) :=
  setEntries name value attrs

/-- The `href` property of an element: empty without the attribute. -/
def hrefProp (env : PageEnv) (attrs : List (String × String)) : String :=
  match getAttr "href" attrs with
  | some v => env.hrefOf v
  | none => ""

/-- The `title` property of an element: empty without the attribute. -/
def titleProp (attrs : List (String × String)) : String :=
  (getAttr "title" attrs).getD ""

/-- The selector `a[href^="orp://"]` on an element: an anchor whose `href` attribute
starts with `orp://`. -/
def isOrpAnchor (tag : String) (attrs : List (String × String)) : Bool :=
  tag = "A" && match getAttr "href" attrs with
    | some v => startsWithOrp v
    | none => false

/-- The selector `a[href^="orp://"]` as a test on nodes. -/
def matchesOrpSelector : DomNode → Bool
  | DomNode.text _ => false
  | DomNode.element tag attrs _ _ => isOrpAnchor tag attrs

/-- The method `classList.add(name)`. -/
def addClass (name : String) (classes : List String) : List String :=
  if name ∈ classes then classes else classes ++ [name]

/-- The icon element built at lines 67-70. -/
def iconNode : DomNode :=
  DomNode.element "SPAN" [("style", "margin-right: 4px;")] ["orp-icon"] [DomNode.text "🌐"]

/-- Lines 75-77: the attributes after the tooltip has been set, if none was set. -/
def enhanceAttrs (env : PageEnv) (attrs : List (String × String)) : List (String × String) :=
  if titleProp attrs = "" then setAttr "title" ("Lien OpenRed P2P - " ++ hrefProp env attrs) attrs
  else attrs

mutual
/-- The function `enhanceOrpLinks` on a subtree. `querySelectorAll` lists the anchors in
document order, so an anchor is treated before the anchors inside it: its test
`link.querySelector('.orp-icon')` sees its descendants as they were before the pass. -/
def enhanceNode (env : PageEnv) : DomNode → DomNode
  | DomNode.text v => DomNode.text v
  | DomNode.element tag attrs classes children =>
    if isOrpAnchor tag attrs then
      DomNode.element tag (enhanceAttrs env attrs) (addClass "orp-link" classes)
        (if DomNode.anyList (DomNode.hasClass "orp-icon") children then enhanceList env children
          else iconNode :: enhanceList env children)
    else DomNode.element tag attrs classes (enhanceList env children)
/-- The function `enhanceOrpLinks` on a list of sibling subtrees. -/
def enhanceList (env : PageEnv) : List DomNode → List DomNode
  | [] => []
  | n :: rest => enhanceNode env n :: enhanceList env rest
end

/-- The function `enhanceOrpLinks()` on a document given by its root element. -/
def enhanceOrpLinks (env : PageEnv) (document : DomNode) : DomNode :=
  enhanceNode env document

/-! ## Facts about `enhanceOrpLinks` -/

theorem getEntries_setEntries_self {β : Type} (k : String) (v : β) (l : List (String × β)) :
    getEntries k (setEntries k v l) = some v := by
  induction l with
  | nil => simp [setEntries, getEntries]
  | cons hd tl ih =>
    obtain ⟨k1, v1⟩ := hd
    by_cases h : k1 = k
    · simp [setEntries, getEntries, h]
    · simp [setEntries, getEntries, h, ih]

theorem getEntries_setEntries_other {β : Type} (k k2 : String) (v : β) (l : List (String × β))
    (hne : k2 ≠ k) : getEntries k2 (setEntries k v l) = getEntries k2 l := by
  induction l with
  | nil => simp [setEntries, getEntries, Ne.symm hne]
  | cons hd tl ih =>
    obtain ⟨k1, v1⟩ := hd
    by_cases h : k1 = k
    · subst h
      simp [setEntries, getEntries, Ne.symm hne]
    · by_cases h1 : k1 = k2
      · subst h1
        simp [setEntries, getEntries, h]
      · simp [setEntries, getEntries, h, h1, ih]

theorem tooltip_ne_empty (href : String) : "Lien OpenRed P2P - " ++ href ≠ "" := by
  intro h
  have := congrArg String.length h
  simp only [String.length_append] at this
  have hlen : "Lien OpenRed P2P - ".length = 19 := by decide
  rw [hlen] at this
  have h0 : "".length = 0 := by decide
  omega

theorem getAttr_href_enhanceAttrs (env : PageEnv) (attrs : List (String × String)) :
    getAttr "href" (enhanceAttrs env attrs) = getAttr "href" attrs := by
  unfold enhanceAttrs
  split
  · exact getEntries_setEntries_other "title" "href" _ attrs (by decide)
  · rfl

theorem isOrpAnchor_enhanceAttrs (env : PageEnv) (tag : String) (attrs : List (String × String)) :
    isOrpAnchor tag (enhanceAttrs env attrs) = isOrpAnchor tag attrs := by
  unfold isOrpAnchor
  rw [getAttr_href_enhanceAttrs]

theorem titleProp_enhanceAttrs (env : PageEnv) (attrs : List (String × String)) :
    titleProp (enhanceAttrs env attrs)
      = if titleProp attrs = "" then "Lien OpenRed P2P - " ++ hrefProp env attrs
        else titleProp attrs := by
  unfold enhanceAttrs
  split
  · simp [titleProp, getAttr, setAttr, getEntries_setEntries_self]
  · rfl

theorem enhanceAttrs_of_title (env : PageEnv) (attrs : List (String × String))
    (h : titleProp attrs ≠ "") : enhanceAttrs env attrs = attrs := by
  unfold enhanceAttrs
  rw [if_neg h]

theorem enhanceAttrs_idem (env : PageEnv) (attrs : List (String × String)) :
    enhanceAttrs env (enhanceAttrs env attrs) = enhanceAttrs env attrs := by
  have h : titleProp (enhanceAttrs env attrs) ≠ "" := by
    rw [titleProp_enhanceAttrs]
    split
    · exact tooltip_ne_empty _
    · assumption
  exact enhanceAttrs_of_title env _ h

theorem addClass_idem (name : String) (classes : List String) :
    addClass name (addClass name classes) = addClass name classes := by
  unfold addClass
  by_cases h : name ∈ classes
  · simp [h]
  · simp [h]

theorem mem_addClass (name c : String) (classes : List String) :
    c ∈ addClass name classes ↔ c = name ∨ c ∈ classes := by
  unfold addClass
  by_cases h : name ∈ classes
  · simp only [h, if_true]
    constructor
    · exact Or.inr
    · rintro (rfl | hc)
      · exact h
      · exact hc
  · simp only [h, if_false, List.mem_append, List.mem_singleton]
    tauto

theorem hasClass_icon_enhanceNode (env : PageEnv) (n : DomNode) :
    DomNode.hasClass "orp-icon" (enhanceNode env n) = DomNode.hasClass "orp-icon" n := by
  cases n with
  | text v => rfl
  | element tag attrs classes children =>
    unfold enhanceNode
    split
    · simp [DomNode.hasClass, mem_addClass]
    · rfl

mutual
theorem anyNode_icon_enhanceNode (env : PageEnv) :
    ∀ n : DomNode, DomNode.anyNode (DomNode.hasClass "orp-icon") n = true →
      DomNode.anyNode (DomNode.hasClass "orp-icon") (enhanceNode env n) = true
  | DomNode.text v => by simp [DomNode.anyNode, DomNode.hasClass]
  | DomNode.element tag attrs classes children => by
    intro h
    have hroot := hasClass_icon_enhanceNode env (DomNode.element tag attrs classes children)
    simp only [DomNode.anyNode, Bool.or_eq_true] at h
    unfold enhanceNode at hroot ⊢
    split
    · rename_i horp
      simp only [horp, if_true] at hroot
      simp only [DomNode.anyNode, Bool.or_eq_true]
      rcases h with h | h
      · left
        rw [← h]
        exact hroot
      · right
        simp [h, anyList_icon_enhanceList env children h]
    · simp only [DomNode.anyNode, Bool.or_eq_true]
      rcases h with h | h
      · exact Or.inl h
      · exact Or.inr (anyList_icon_enhanceList env children h)
theorem anyList_icon_enhanceList (env : PageEnv) :
    ∀ l : List DomNode, DomNode.anyList (DomNode.hasClass "orp-icon") l = true →
      DomNode.anyList (DomNode.hasClass "orp-icon") (enhanceList env l) = true
  | [] => by simp [DomNode.anyList]
  | n :: rest => by
    intro h
    simp only [DomNode.anyList, Bool.or_eq_true] at h
    simp only [enhanceList, DomNode.anyList, Bool.or_eq_true]
    rcases h with h | h
    · exact Or.inl (anyNode_icon_enhanceNode env n h)
    · exact Or.inr (anyList_icon_enhanceList env rest h)
end

theorem enhanceNode_iconNode (env : PageEnv) : enhanceNode env iconNode = iconNode := by
  simp [iconNode, enhanceNode, enhanceList, isOrpAnchor]

theorem enhanceNode_anchor (env : PageEnv) (tag : String) (attrs : List (String × String))
    (classes : List String) (children : List DomNode) (horp : isOrpAnchor tag attrs = true) :
    enhanceNode env (DomNode.element tag attrs classes children)
      = DomNode.element tag (enhanceAttrs env attrs) (addClass "orp-link" classes)
          (if DomNode.anyList (DomNode.hasClass "orp-icon") children then enhanceList env children
            else iconNode :: enhanceList env children) := by
  simp [enhanceNode, horp]

theorem enhanceNode_other (env : PageEnv) (tag : String) (attrs : List (String × String))
    (classes : List String) (children : List DomNode) (horp : isOrpAnchor tag attrs = false) :
    enhanceNode env (DomNode.element tag attrs classes children)
      = DomNode.element tag attrs classes (enhanceList env children) := by
  simp [enhanceNode, horp]

mutual
theorem enhanceNode_idem (env : PageEnv) :
    ∀ n : DomNode, enhanceNode env (enhanceNode env n) = enhanceNode env n
  | DomNode.text v => by simp [enhanceNode]
  | DomNode.element tag attrs classes children => by
    have ih := enhanceList_idem env children
    by_cases horp : isOrpAnchor tag attrs = true
    · have horp2 : isOrpAnchor tag (enhanceAttrs env attrs) = true := by
        rw [isOrpAnchor_enhanceAttrs]; exact horp
      rw [enhanceNode_anchor env tag attrs classes children horp]
      by_cases hicon : DomNode.anyList (DomNode.hasClass "orp-icon") children = true
      · have h2 := anyList_icon_enhanceList env children hicon
        rw [if_pos hicon, enhanceNode_anchor env tag _ _ _ horp2, if_pos h2, enhanceAttrs_idem,
          addClass_idem, ih]
      · have h3 : DomNode.anyList (DomNode.hasClass "orp-icon")
            (iconNode :: enhanceList env children) = true := by
          simp [DomNode.anyList, DomNode.anyNode, iconNode, DomNode.hasClass]
        rw [if_neg hicon, enhanceNode_anchor env tag _ _ _ horp2, if_pos h3, enhanceAttrs_idem,
          addClass_idem]
        simp only [enhanceList, enhanceNode_iconNode, ih]
    · have horp3 : isOrpAnchor tag attrs = false := by simpa using horp
      rw [enhanceNode_other env tag attrs classes children horp3,
        enhanceNode_other env tag attrs classes _ horp3, ih]
theorem enhanceList_idem (env : PageEnv) :
    ∀ l : List DomNode, enhanceList env (enhanceList env l) = enhanceList env l
  | [] => by simp [enhanceList]
  | n :: rest => by
    simp [enhanceList, enhanceNode_idem env n, enhanceList_idem env rest]
end

mutual
/-- The nodes of a subtree in document order, the root first. -/
def DomNode.nodes : DomNode → List DomNode
  | DomNode.text v => [DomNode.text v]
  | DomNode.element tag attrs classes children =>
    DomNode.element tag attrs classes children :: DomNode.nodesOfList children
/-- The nodes of a forest in document order. -/
def DomNode.nodesOfList : List DomNode → List DomNode
  | [] => []
  | n :: rest => DomNode.nodes n ++ DomNode.nodesOfList rest
end

theorem DomNode.self_mem_nodes (n : DomNode) : n ∈ n.nodes := by
  cases n <;> simp [DomNode.nodes]

mutual
theorem enhanceNode_mem_nodes (env : PageEnv) :
    ∀ (root m : DomNode), m ∈ root.nodes → enhanceNode env m ∈ (enhanceNode env root).nodes
  | DomNode.text v, m => by
    intro hm
    simp only [DomNode.nodes, List.mem_singleton] at hm
    subst hm
    exact DomNode.self_mem_nodes _
  | DomNode.element tag attrs classes children, m => by
    intro hm
    simp only [DomNode.nodes, List.mem_cons] at hm
    rcases hm with rfl | hm
    · exact DomNode.self_mem_nodes _
    · have ih := enhanceList_mem_nodes env children m hm
      by_cases horp : isOrpAnchor tag attrs = true
      · rw [enhanceNode_anchor env tag attrs classes children horp]
        by_cases hicon : DomNode.anyList (DomNode.hasClass "orp-icon") children = true
        · rw [if_pos hicon, DomNode.nodes]
          exact List.mem_cons_of_mem _ ih
        · rw [if_neg hicon, DomNode.nodes, DomNode.nodesOfList]
          exact List.mem_cons_of_mem _ (List.mem_append_right _ ih)
      · have horp3 : isOrpAnchor tag attrs = false := by simpa using horp
        rw [enhanceNode_other env tag attrs classes children horp3, DomNode.nodes]
        exact List.mem_cons_of_mem _ ih
theorem enhanceList_mem_nodes (env : PageEnv) :
    ∀ (l : List DomNode) (m : DomNode), m ∈ DomNode.nodesOfList l →
      enhanceNode env m ∈ DomNode.nodesOfList (enhanceList env l)
  | [], m => by simp [DomNode.nodesOfList]
  | n :: rest, m => by
    intro hm
    simp only [DomNode.nodesOfList, List.mem_append] at hm
    simp only [enhanceList, DomNode.nodesOfList, List.mem_append]
    rcases hm with hm | hm
    · exact Or.inl (enhanceNode_mem_nodes env n m hm)
    · exact Or.inr (enhanceList_mem_nodes env rest m hm)
end

theorem filter_icon_enhanceList (env : PageEnv) :
    ∀ l : List DomNode, DomNode.anyList (DomNode.hasClass "orp-icon") l = false →
      (enhanceList env l).filter (DomNode.hasClass "orp-icon") = [] := by
  intro l
  induction l with
  | nil => intro _; rfl
  | cons n rest ih =>
    intro h
    simp only [DomNode.anyList, Bool.or_eq_false_iff] at h
    have hn : DomNode.hasClass "orp-icon" n = false := by
      cases n with
      | text v => rfl
      | element tag attrs classes children =>
        have := h.1
        simp only [DomNode.anyNode, Bool.or_eq_false_iff] at this
        exact this.1
    simp [enhanceList, List.filter_cons, hasClass_icon_enhanceNode, hn, ih h.2]

theorem enhance_iterate (env : PageEnv) (document : DomNode) (n : Nat) :
    Nat.iterate (enhanceOrpLinks env) (n + 1) document = enhanceOrpLinks env document := by
  induction n with
  | zero => rfl
  | succ k ih =>
    rw [Function.iterate_succ_apply', ih]
    exact enhanceNode_idem env document

/-- C22. Static enhancement is idempotent: for every document, running `enhanceOrpLinks`
twice, or any number of times, yields the same document as running it once. Every anchor of
the document whose `href` attribute starts with `orp://` and that had no `.orp-icon`
element inside it is found in the result with the class `orp-link` and exactly one child of
class `orp-icon`; its title is kept when it was non-empty and is otherwise
`"Lien OpenRed P2P - "` followed by its `href`. -/
theorem enhance_idempotent (env : PageEnv) (document : DomNode) :
    enhanceOrpLinks env (enhanceOrpLinks env document) = enhanceOrpLinks env document ∧
      (∀ n : Nat,
        Nat.iterate (enhanceOrpLinks env) (n + 1) document = enhanceOrpLinks env document) ∧
      (∀ tag attrs classes children,
        DomNode.element tag attrs classes children ∈ document.nodes →
        isOrpAnchor tag attrs = true →
        DomNode.anyList (DomNode.hasClass "orp-icon") children = false →
        ∃ attrs2 classes2 children2,
          enhanceNode env (DomNode.element tag attrs classes children)
              = DomNode.element tag attrs2 classes2 children2 ∧
            DomNode.element tag attrs2 classes2 children2
              ∈ (enhanceOrpLinks env document).nodes ∧
            "orp-link" ∈ classes2 ∧
            (children2.filter (DomNode.hasClass "orp-icon")).length = 1 ∧
            (titleProp attrs ≠ "" → titleProp attrs2 = titleProp attrs) ∧
            (titleProp attrs = "" →
              titleProp attrs2 = "Lien OpenRed P2P - " ++ hrefProp env attrs)) := by
  refine ⟨enhanceNode_idem env document, enhance_iterate env document, ?_⟩
  intro tag attrs classes children hmem horp hicon
  refine ⟨enhanceAttrs env attrs, addClass "orp-link" classes,
    iconNode :: enhanceList env children, ?_, ?_, ?_, ?_, ?_, ?_⟩
  · rw [enhanceNode_anchor env tag attrs classes children horp, hicon]
    rfl
  · have h := enhanceNode_mem_nodes env document _ hmem
    rw [enhanceNode_anchor env tag attrs classes children horp, hicon] at h
    exact h
  · exact (mem_addClass _ _ _).2 (Or.inl rfl)
  · rw [List.filter_cons, filter_icon_enhanceList env children hicon]
    rfl
  · intro ht
    rw [titleProp_enhanceAttrs, if_neg ht]
  · intro ht
    rw [titleProp_enhanceAttrs, if_pos ht]

/-- A page environment for the examples: the `href` property equals the attribute, and
the HTML parser is given for the one markup string the examples produce. -/
def examplePage : PageEnv :=
  ⟨fun href => href,
    fun markup =>
      if markup = "<a href=\"orp://node\" class=\"auto-detected-orp-link\">orp://node</a>" then
        [DomNode.element "A" [("href", "orp://node")] ["auto-detected-orp-link"]
          [DomNode.text "orp://node"]]
      else [DomNode.text markup],
    "response is undefined"⟩

/-- The anchor `<a href="orp://x">link</a>`. -/
def plainAnchor : DomNode :=
  DomNode.element "A" [("href", "orp://x")] [] [DomNode.text "link"]

/-- Witness of C22: the anchor `<a href="orp://x">link</a>` in a body gets the icon as first
child, the class and the tooltip, and a second pass changes nothing. -/
theorem enhance_idempotent_witness :
    (∃ attrs2 classes2 children2,
      enhanceNode examplePage plainAnchor = DomNode.element "A" attrs2 classes2 children2 ∧
        DomNode.element "A" attrs2 classes2 children2
          ∈ (enhanceOrpLinks examplePage (DomNode.element "BODY" [] [] [plainAnchor])).nodes ∧
        "orp-link" ∈ classes2 ∧
        (children2.filter (DomNode.hasClass "orp-icon")).length = 1 ∧
        (titleProp [("href", "orp://x")] ≠ "" → titleProp attrs2 = titleProp [("href", "orp://x")]) ∧
        (titleProp [("href", "orp://x")] = "" →
          titleProp attrs2 = "Lien OpenRed P2P - " ++ hrefProp examplePage [("href", "orp://x")])) ∧
      enhanceOrpLinks examplePage (DomNode.element "BODY" [] [] [plainAnchor])
        = DomNode.element "BODY" [] []
            [DomNode.element "A" [("href", "orp://x"), ("title", "Lien OpenRed P2P - orp://x")]
              ["orp-link"] [iconNode, DomNode.text "link"]] :=
  ⟨(enhance_idempotent examplePage (DomNode.element "BODY" [] [] [plainAnchor])).2.2
      "A" [("href", "orp://x")] [] [DomNode.text "link"] (by decide) (by decide) (by decide),
    by decide⟩

/-! ## `autoDetectOrpUrls` on the tree -/

/-- The test `node.nodeValue.match(orpRegex)`: a match starts somewhere in the text. -/
def hasOrpToken : List Char → Bool
  | [] => false
  | c :: cs => (matchOrpToken (c :: cs)).isSome || hasOrpToken cs

mutual
/-- The function `autoDetectOrpUrls` on a node whose parent has the tag `parentTag`: a text
node with a match is replaced by a `span` whose `innerHTML` is `newHTML`, unless its parent
is an `A` element (line 104) or the markup equals the text (line 110). -/
def autoDetectChild (env : PageEnv) (parentTag : String) : DomNode → DomNode
  | DomNode.text v =>
    if hasOrpToken v.toList then
      if parentTag = "A" then DomNode.text v
      else if newHTML v ≠ v then DomNode.element "SPAN" [] [] (env.parseHtml (newHTML v))
      else DomNode.text v
    else DomNode.text v
  | DomNode.element tag attrs classes children =>
    DomNode.element tag attrs classes (autoDetectChildren env tag children)
/-- The function `autoDetectOrpUrls` on the children of an element with tag `parentTag`. -/
def autoDetectChildren (env : PageEnv) (parentTag : String) : List DomNode → List DomNode
  | [] => []
  | n :: rest => autoDetectChild env parentTag n :: autoDetectChildren env parentTag rest
end

/-- The function `autoDetectOrpUrls()` on the element `document.body`: the tree walker
visits the text nodes below it. -/
def autoDetectOrpUrls (env : PageEnv) (body : DomNode) : DomNode :=
  match body with
  | DomNode.text v => DomNode.text v
  | DomNode.element tag attrs classes children =>
    DomNode.element tag attrs classes (autoDetectChildren env tag children)

/-- C23, the code at the failing input: in the body `<a href="x"><b>orp://node</b></a>` the
text node lies inside an anchor, below a `b` element. Its parent is not an `A` element, so
`autoDetectOrpUrls` replaces it by a `span` holding a new anchor: an anchor inside an
anchor. A text node that is a direct child of an anchor is left as it is. -/
theorem auto_detect_rewrites_nested_anchor_text :
    autoDetectOrpUrls examplePage
        (DomNode.element "BODY" [] []
          [DomNode.element "A" [("href", "x")] []
            [DomNode.element "B" [] [] [DomNode.text "orp://node"]]])
      = DomNode.element "BODY" [] []
          [DomNode.element "A" [("href", "x")] []
            [DomNode.element "B" [] []
              [DomNode.element "SPAN" [] []
                [DomNode.element "A" [("href", "orp://node")] ["auto-detected-orp-link"]
                  [DomNode.text "orp://node"]]]]] ∧
      autoDetectOrpUrls examplePage
          (DomNode.element "BODY" [] []
            [DomNode.element "A" [("href", "x")] [] [DomNode.text "orp://node"]])
        = DomNode.element "BODY" [] []
            [DomNode.element "A" [("href", "x")] [] [DomNode.text "orp://node"]] := by
  decide

/-! ## The mutation observer -/

/-- A mutation record as far as the callback reads it. -/
structure MutationRecord where
  type : String
  addedNodes : List DomNode

/-- The tests of lines 221-226 on one added node. -/
def nodeTriggers (env : PageEnv) : DomNode → Bool
  | DomNode.text _ => false
  | DomNode.element tag attrs _ children =>
    (tag = "A" && hrefProp env attrs != "" && startsWithOrp (hrefProp env attrs))
      || DomNode.anyList matchesOrpSelector children

/-- The value of `needsUpdate` after the loops of lines 218-230. -/
def needsUpdate (env : PageEnv) (mutations : List MutationRecord) : Bool :=
  mutations.any (fun m => m.type = "childList" && m.addedNodes.any (nodeTriggers env))

/-- What the observer callback does: the functions it calls, in order, and the document
afterwards. -/
structure ObserverOutcome where
  calls : List String
  document : DomNode

/-- The callback of the `MutationObserver` (lines 215-236). -/
def observerCallback (env : PageEnv) (mutations : List MutationRecord) (document : DomNode) :
    ObserverOutcome :=
  if needsUpdate env mutations then
    ⟨["enhanceOrpLinks", "autoDetectOrpUrls"],
      autoDetectOrpUrls env (enhanceOrpLinks env document)⟩
  else ⟨[], document⟩

theorem startsWithOrp_ne_empty (u : String) (h : startsWithOrp u = true) : u ≠ "" := by
  intro hu
  subst hu
  revert h
  decide

theorem nodeTriggers_iff (env : PageEnv) (n : DomNode) :
    nodeTriggers env n = true ↔
      ∃ tag attrs classes children, n = DomNode.element tag attrs classes children ∧
        ((tag = "A" ∧ startsWithOrp (hrefProp env attrs) = true) ∨
          DomNode.anyList matchesOrpSelector children = true) := by
  cases n with
  | text v =>
    constructor
    · intro h; cases h
    · rintro ⟨_, _, _, _, h, _⟩; cases h
  | element tag attrs classes children =>
    simp only [nodeTriggers, Bool.or_eq_true, Bool.and_eq_true, decide_eq_true_eq, bne_iff_ne]
    constructor
    · rintro (⟨⟨ht, _⟩, hs⟩ | hd)
      · exact ⟨tag, attrs, classes, children, rfl, Or.inl ⟨ht, hs⟩⟩
      · exact ⟨tag, attrs, classes, children, rfl, Or.inr hd⟩
    · rintro ⟨tag2, attrs2, classes2, children2, heq, h⟩
      cases heq
      rcases h with ⟨ht, hs⟩ | hd
      · exact Or.inl ⟨⟨ht, startsWithOrp_ne_empty _ hs⟩, hs⟩
      · exact Or.inr hd

theorem needsUpdate_iff (env : PageEnv) (mutations : List MutationRecord) :
    needsUpdate env mutations = true ↔
      ∃ m ∈ mutations, m.type = "childList" ∧ ∃ n ∈ m.addedNodes,
        ∃ tag attrs classes children, n = DomNode.element tag attrs classes children ∧
          ((tag = "A" ∧ startsWithOrp (hrefProp env attrs) = true) ∨
            DomNode.anyList matchesOrpSelector children = true) := by
  unfold needsUpdate
  simp only [List.any_eq_true, Bool.and_eq_true, decide_eq_true_eq, nodeTriggers_iff]

/-- C26. Live re-scan trigger: for every batch of mutation records the observer callback
calls `enhanceOrpLinks` and then `autoDetectOrpUrls`, once each, if and only if some
`childList` record has an added element node that is an `A` element whose `href` starts with
`orp://`, or that has a descendant matching `a[href^="orp://"]`; otherwise it calls nothing
and leaves the document alone. A batch that adds the marker icon, or a text node, triggers
no re-scan. -/
theorem rescan_trigger (env : PageEnv) (mutations : List MutationRecord) (document : DomNode) :
    ((observerCallback env mutations document).calls = ["enhanceOrpLinks", "autoDetectOrpUrls"] ↔
        ∃ m ∈ mutations, m.type = "childList" ∧ ∃ n ∈ m.addedNodes,
          ∃ tag attrs classes children, n = DomNode.element tag attrs classes children ∧
            ((tag = "A" ∧ startsWithOrp (hrefProp env attrs) = true) ∨
              DomNode.anyList matchesOrpSelector children = true)) ∧
      ((observerCallback env mutations document).calls = ["enhanceOrpLinks", "autoDetectOrpUrls"] →
        (observerCallback env mutations document).document
          = autoDetectOrpUrls env (enhanceOrpLinks env document)) ∧
      ((observerCallback env mutations document).calls ≠ ["enhanceOrpLinks", "autoDetectOrpUrls"] →
        (observerCallback env mutations document).calls = [] ∧
          (observerCallback env mutations document).document = document) ∧
      (observerCallback env [⟨"childList", [iconNode]⟩] document).calls = [] ∧
      (∀ v, (observerCallback env [⟨"childList", [DomNode.text v]⟩] document).calls = []) := by
  refine ⟨?_, ?_, ?_, ?_, ?_⟩
  · rw [← needsUpdate_iff]
    unfold observerCallback
    cases needsUpdate env mutations <;> simp
  · unfold observerCallback
    cases needsUpdate env mutations <;> simp
  · unfold observerCallback
    cases needsUpdate env mutations <;> simp
  · have h : needsUpdate env [⟨"childList", [iconNode]⟩] = false := by
      simp [needsUpdate, nodeTriggers, iconNode, DomNode.anyList, DomNode.anyNode,
        matchesOrpSelector]
    simp [observerCallback, h]
  · intro v
    have h : needsUpdate env [⟨"childList", [DomNode.text v]⟩] = false := by
      simp [needsUpdate, nodeTriggers]
    simp [observerCallback, h]

/-- Witness of C26: a batch that adds a `div` holding `<a href="orp://x">` triggers the
re-scan; a batch of `attributes` records with the same node does not. -/
theorem rescan_trigger_witness :
    (observerCallback examplePage
        [⟨"childList", [DomNode.element "DIV" [] [] [plainAnchor]]⟩]
        (DomNode.element "BODY" [] [] [])).calls = ["enhanceOrpLinks", "autoDetectOrpUrls"] ∧
      (observerCallback examplePage
        [⟨"attributes", [DomNode.element "DIV" [] [] [plainAnchor]]⟩]
        (DomNode.element "BODY" [] [] [])).calls = [] :=
  ⟨(rescan_trigger examplePage [⟨"childList", [DomNode.element "DIV" [] [] [plainAnchor]]⟩]
      (DomNode.element "BODY" [] [] [])).1.2
      ⟨⟨"childList", [DomNode.element "DIV" [] [] [plainAnchor]]⟩, List.mem_singleton.2 rfl, rfl,
        DomNode.element "DIV" [] [] [plainAnchor], List.mem_singleton.2 rfl,
        "DIV", [], [], [plainAnchor], rfl, Or.inr (by decide)⟩,
    by decide⟩

/-! ## The click listener -/

deriving instance DecidableEq for Message

/-- How the round trip of `chrome.runtime.sendMessage` ends: the promise is fulfilled with
a response value (`undefined` when nobody answered), or it is rejected with an error
carrying `message`. -/
inductive Reply where
  | response (value : JSVal)
  | transportError (message : String)
  deriving DecidableEq, Repr

/-- What one run of the click listener does: whether `preventDefault` and
`stopPropagation` were called, the messages sent, the value assigned to
`window.location.href` if any, and the event target when the listener has finished (the
timer that removes an error annotation has not fired yet). -/
structure ClickOutcome where
  defaultPrevented : Bool
  propagationStopped : Bool
  sent : List Message
  navigatedTo : Option JSVal
  target : DomNode
  deriving DecidableEq

/-- The element built by `showLoadingIndicator`. -/
def loadingIndicator : DomNode :=
  DomNode.element "SPAN" [("style", "color: #007acc;")] ["orp-loading"] [DomNode.text " ⏳"]

/-- The element built by `showErrorMessage`. -/
def errorSpan (message : String) : DomNode :=
  DomNode.element "SPAN" [("style", "color: #cc0000; font-size: 0.8em;")] ["orp-error"]
    [DomNode.text (" ❌ " ++ message)]

/-- The method `element.appendChild(child)`. -/
def appendChild (child : DomNode) : DomNode → DomNode
  | DomNode.text v => DomNode.text v
  | DomNode.element tag attrs classes children =>
    DomNode.element tag attrs classes (children ++ [child])

mutual
/-- Removes the first node satisfying `p`, in document order, among the descendants of a
node; the flag tells whether one was found. -/
def removeFirstInside (p : DomNode → Bool) : DomNode → DomNode × Bool
  | DomNode.text v => (DomNode.text v, false)
  | DomNode.element tag attrs classes children =>
    (DomNode.element tag attrs classes (removeFirstList p children).1,
      (removeFirstList p children).2)
/-- Removes the first node satisfying `p`, in document order, from a forest. -/
def removeFirstList (p : DomNode → Bool) : List DomNode → List DomNode × Bool
  | [] => ([], false)
  | n :: rest =>
    if p n then (rest, true)
    else if (removeFirstInside p n).2 then ((removeFirstInside p n).1 :: rest, true)
    else (n :: (removeFirstList p rest).1, (removeFirstList p rest).2)
end

/-- The function `hideLoadingIndicator(element)`: the first descendant of class
`orp-loading`, if there is one, is removed. -/
def hideLoadingIndicator (element : DomNode) : DomNode :=
  (removeFirstInside (DomNode.hasClass "orp-loading") element).1

/-- The function `showErrorMessage(element, message)`, before its timer fires. -/
def showErrorMessage (element : DomNode) (message : String) : DomNode :=
  appendChild (errorSpan message) element

/-- Lines 28-50 of the click listener, after the message has been sent: the value assigned
to `window.location.href`, if any, and the target when the `finally` block has run. -/
def clickReaction (env : PageEnv) (target : DomNode) (reply : Reply) : Option JSVal × DomNode :=
  match reply with
  | Reply.transportError message =>
    (none, hideLoadingIndicator (showErrorMessage (appendChild loadingIndicator target) message))
  | Reply.response value =>
    match value.getProp "success" with
    | none =>
      (none, hideLoadingIndicator
        (showErrorMessage (appendChild loadingIndicator target) env.typeErrorMessage))
    | some success =>
      if success.truthy && ((value.getProp "resolvedUrl").getD JSVal.undefined).truthy then
        (some ((value.getProp "resolvedUrl").getD JSVal.undefined),
          hideLoadingIndicator (appendChild loadingIndicator target))
      else
        (none, hideLoadingIndicator
          (showErrorMessage (appendChild loadingIndicator target)
            "Impossible de résoudre cette adresse orp://"))

/-- The click listener of `interceptOrpLinks` (lines 16-52) for an event whose target is
`target`, when the message round trip ends with `reply`. -/
def clickListener (env : PageEnv) (target : DomNode) (reply : Reply) : ClickOutcome :=
  match target with
  | DomNode.text _ => ⟨false, false, [], none, target⟩
  | DomNode.element tag attrs _ _ =>
    if tag = "A" && hrefProp env attrs != "" && startsWithOrp (hrefProp env attrs) then
      ⟨true, true, [resolveMessage (hrefProp env attrs)], (clickReaction env target reply).1,
        (clickReaction env target reply).2⟩
    else ⟨false, false, [], none, target⟩

/-- An anchor that already holds an element of class `orp-loading`, placed there by the
page. -/
def anchorWithOwnIndicator : DomNode :=
  DomNode.element "A" [("href", "orp://x")] []
    [DomNode.element "SPAN" [] ["orp-loading"] [DomNode.text "page"], DomNode.text "link"]

/-- A successful response `{success: true, resolvedUrl: "http://localhost:9001/"}`. -/
def successReply : Reply :=
  Reply.response (JSVal.obj [("success", JSVal.bool true),
    ("resolvedUrl", JSVal.str "http://localhost:9001/")])

end OpenRed


namespace OpenRed

mutual
theorem removeFirstInside_none (p : DomNode → Bool) :
    ∀ n : DomNode, DomNode.anyNode p n = false → removeFirstInside p n = (n, false)
  | DomNode.text v => by intro _; rfl
  | DomNode.element tag attrs classes children => by
    intro h
    simp only [DomNode.anyNode, Bool.or_eq_false_iff] at h
    have ih := removeFirstList_none p children h.2
    simp [removeFirstInside, ih]
theorem removeFirstList_none (p : DomNode → Bool) :
    ∀ l : List DomNode, DomNode.anyList p l = false → removeFirstList p l = (l, false)
  | [] => by intro _; rfl
  | n :: rest => by
    intro h
    simp only [DomNode.anyList, Bool.or_eq_false_iff] at h
    have hn := removeFirstInside_none p n h.1
    have hrest := removeFirstList_none p rest h.2
    have hp : p n = false := by
      cases n with
      | text v => simpa [DomNode.anyNode] using h.1
      | element tag attrs classes children =>
        have := h.1
        simp only [DomNode.anyNode, Bool.or_eq_false_iff] at this
        exact this.1
    simp [removeFirstList, hp, hn, hrest]
end

theorem removeFirstList_append (p : DomNode → Bool) (rest : List DomNode) :
    ∀ l : List DomNode, DomNode.anyList p l = false →
      removeFirstList p (l ++ rest) = (l ++ (removeFirstList p rest).1, (removeFirstList p rest).2) := by
  intro l
  induction l with
  | nil => intro _; rfl
  | cons n tl ih =>
    intro h
    simp only [DomNode.anyList, Bool.or_eq_false_iff] at h
    have hn := removeFirstInside_none p n h.1
    have hp : p n = false := by
      cases n with
      | text v => simpa [DomNode.anyNode] using h.1
      | element tag attrs classes children =>
        have := h.1
        simp only [DomNode.anyNode, Bool.or_eq_false_iff] at this
        exact this.1
    simp [removeFirstList, hp, hn, ih h.2]

/-- On an anchor that holds no element of class `orp-loading`, showing the indicator,
appending further annotations and hiding the indicator leaves the children followed by
those annotations. -/
theorem hideLoadingIndicator_of_clean (tag : String) (attrs : List (String × String))
    (classes : List String) (children extra : List DomNode)
    (hclean : DomNode.anyList (DomNode.hasClass "orp-loading") children = false) :
    hideLoadingIndicator
        (DomNode.element tag attrs classes (children ++ loadingIndicator :: extra))
      = DomNode.element tag attrs classes (children ++ extra) := by
  unfold hideLoadingIndicator
  simp only [removeFirstInside]
  rw [removeFirstList_append _ _ children hclean]
  simp [removeFirstList, loadingIndicator, DomNode.hasClass]

/-- C30. Clicks are matched on the event target only: the listener intercepts a click,
that is it calls `preventDefault` and `stopPropagation` and sends one `RESOLVE_ORP_URL`
message whose `url` is the target's `href`, if and only if the event target itself is an `A`
element whose `href` starts with `orp://`. For every other target, whatever its ancestors,
nothing is prevented, nothing is sent and the target is untouched; so it is for the
`orp-icon` marker that `enhanceOrpLinks` puts inside an anchor. -/
theorem click_matches_target_only (env : PageEnv) (target : DomNode) (reply : Reply) :
    ((clickListener env target reply).defaultPrevented = true ↔
        ∃ tag attrs classes children, target = DomNode.element tag attrs classes children ∧
          tag = "A" ∧ startsWithOrp (hrefProp env attrs) = true) ∧
      (∀ tag attrs classes children, target = DomNode.element tag attrs classes children →
        tag = "A" → startsWithOrp (hrefProp env attrs) = true →
        (clickListener env target reply).propagationStopped = true ∧
          (clickListener env target reply).sent = [resolveMessage (hrefProp env attrs)]) ∧
      ((clickListener env target reply).defaultPrevented = false →
        clickListener env target reply = ⟨false, false, [], none, target⟩) ∧
      clickListener env iconNode reply = ⟨false, false, [], none, iconNode⟩ := by
  have hicon : clickListener env iconNode reply = ⟨false, false, [], none, iconNode⟩ := by
    simp [clickListener, iconNode]
  cases target with
  | text v =>
    refine ⟨⟨?_, ?_⟩, ?_, fun _ => rfl, hicon⟩
    · intro h
      cases h
    · rintro ⟨_, _, _, _, h, _⟩
      cases h
    · intro _ _ _ _ h
      cases h
  | element tag attrs classes children =>
    by_cases hcond : (tag = "A" && hrefProp env attrs != "" &&
        startsWithOrp (hrefProp env attrs)) = true
    · have hc := hcond
      simp only [Bool.and_eq_true, decide_eq_true_eq, bne_iff_ne] at hc
      have hout : clickListener env (DomNode.element tag attrs classes children) reply
          = ⟨true, true, [resolveMessage (hrefProp env attrs)],
              (clickReaction env (DomNode.element tag attrs classes children) reply).1,
              (clickReaction env (DomNode.element tag attrs classes children) reply).2⟩ := by
        unfold clickListener
        simp only [hcond, if_true]
      rw [hout]
      refine ⟨⟨fun _ => ⟨tag, attrs, classes, children, rfl, hc.1.1, hc.2⟩, fun _ => rfl⟩,
        ?_, ?_, hicon⟩
      · intro tag2 attrs2 classes2 children2 heq _ _
        cases heq
        exact ⟨rfl, rfl⟩
      · intro h
        cases h
    · have hout : clickListener env (DomNode.element tag attrs classes children) reply
          = ⟨false, false, [], none, DomNode.element tag attrs classes children⟩ := by
        unfold clickListener
        simp only [hcond]
        rfl
      rw [hout]
      refine ⟨⟨?_, ?_⟩, ?_, fun _ => rfl, hicon⟩
      · intro h
        cases h
      · rintro ⟨tag2, attrs2, classes2, children2, heq, ht, hs⟩
        cases heq
        exact absurd (by simp [ht, hs, startsWithOrp_ne_empty _ hs]) hcond
      · intro tag2 attrs2 classes2 children2 heq ht hs
        cases heq
        exact absurd (by simp [ht, hs, startsWithOrp_ne_empty _ hs]) hcond

/-- Witness of C30: a click on the anchor `<a href="orp://x">link</a>` is intercepted and
one message with `url = "orp://x"` is sent; a click on the icon inside an enhanced anchor
is not. -/
theorem click_matches_target_only_witness :
    ((clickListener examplePage plainAnchor successReply).propagationStopped = true ∧
        (clickListener examplePage plainAnchor successReply).sent = [resolveMessage "orp://x"]) ∧
      clickListener examplePage iconNode successReply = ⟨false, false, [], none, iconNode⟩ :=
  ⟨(click_matches_target_only examplePage plainAnchor successReply).2.1
      "A" [("href", "orp://x")] [] [DomNode.text "link"] rfl rfl (by decide),
    by decide⟩

/-- C21, the code at the failing input: the anchor already holds an element of class
`orp-loading` that belongs to the page. After an intercepted click, whether the response
resolves the URI or reports a failure, `hideLoadingIndicator` has removed the page's
element, and the indicator that the click appended is still in the anchor when the listener
has finished. -/
theorem click_leaves_own_indicator :
    (clickListener examplePage anchorWithOwnIndicator successReply).navigatedTo
        = some (JSVal.str "http://localhost:9001/") ∧
      (clickListener examplePage anchorWithOwnIndicator successReply).target
        = DomNode.element "A" [("href", "orp://x")] [] [DomNode.text "link", loadingIndicator] ∧
      (clickListener examplePage anchorWithOwnIndicator
          (Reply.transportError "Extension context invalidated.")).target
        = DomNode.element "A" [("href", "orp://x")] []
            [DomNode.text "link", loadingIndicator,
              errorSpan "Extension context invalidated."] := by
  decide

/-- On an anchor without any element of class `orp-loading` the listener behaves as the
specification says: after the click the anchor has its children back, followed by one error
annotation unless the page was navigated. -/
theorem clickReaction_of_clean_anchor (env : PageEnv) (tag : String)
    (attrs : List (String × String)) (classes : List String) (children : List DomNode)
    (reply : Reply)
    (hclean : DomNode.anyList (DomNode.hasClass "orp-loading") children = false) :
    ((clickReaction env (DomNode.element tag attrs classes children) reply).1 ≠ none ∧
        (clickReaction env (DomNode.element tag attrs classes children) reply).2
          = DomNode.element tag attrs classes children) ∨
      ((clickReaction env (DomNode.element tag attrs classes children) reply).1 = none ∧
        ∃ message,
          (clickReaction env (DomNode.element tag attrs classes children) reply).2
            = DomNode.element tag attrs classes (children ++ [errorSpan message])) := by
  have hnav : hideLoadingIndicator
      (appendChild loadingIndicator (DomNode.element tag attrs classes children))
        = DomNode.element tag attrs classes children := by
    have := hideLoadingIndicator_of_clean tag attrs classes children [] hclean
    simpa [appendChild] using this
  have herr : ∀ message, hideLoadingIndicator
      (showErrorMessage (appendChild loadingIndicator (DomNode.element tag attrs classes children))
        message) = DomNode.element tag attrs classes (children ++ [errorSpan message]) := by
    intro message
    have := hideLoadingIndicator_of_clean tag attrs classes children [errorSpan message]
      hclean
    simpa [showErrorMessage, appendChild] using this
  cases reply with
  | transportError message => exact Or.inr ⟨rfl, message, herr message⟩
  | response value =>
    cases hs : value.getProp "success" with
    | none =>
      have h : clickReaction env (DomNode.element tag attrs classes children)
          (Reply.response value)
            = (none, hideLoadingIndicator (showErrorMessage
                (appendChild loadingIndicator (DomNode.element tag attrs classes children))
                env.typeErrorMessage)) := by
        simp [clickReaction, hs]
      rw [h]
      exact Or.inr ⟨rfl, _, herr _⟩
    | some success =>
      by_cases hok : (success.truthy &&
          ((value.getProp "resolvedUrl").getD JSVal.undefined).truthy) = true
      · have h : clickReaction env (DomNode.element tag attrs classes children)
            (Reply.response value)
              = (some ((value.getProp "resolvedUrl").getD JSVal.undefined),
                  hideLoadingIndicator
                    (appendChild loadingIndicator (DomNode.element tag attrs classes children))) := by
          simp only [clickReaction, hs, hok, if_true]
        rw [h]
        exact Or.inl ⟨by simp, hnav⟩
      · have h : clickReaction env (DomNode.element tag attrs classes children)
            (Reply.response value)
              = (none, hideLoadingIndicator (showErrorMessage
                  (appendChild loadingIndicator (DomNode.element tag attrs classes children))
                  "Impossible de résoudre cette adresse orp://")) := by
          simp only [clickReaction, hs, hok]
          rfl
        rw [h]
        exact Or.inr ⟨rfl, _, herr _⟩

end OpenRed
